import Mathlib

/-!
STABS symbol parser of `ccc` (`src/ccc/stabs.cpp`, `src/ccc/ccc.h`)

A shallow embedding of the recursive-descent STABS parser and theorems about it.

Representation choices, all made once here:

* A C string (`const char*`) is the list of its characters before the terminating NUL,
  so `*input == '\0'` is `input = []`, `*input` is the head of the list and `input++`
  is its tail.  A `std::string` is a list of characters too.
* `verify(cond, msg)` and `verify_not_reached(msg)` print the message, break and
  `exit(1)`: the process ends there with or without a debugger.  They are the `error`
  results of `Except ParseError`, one constructor per message.
* A bare `__debugbreak()` is a breakpoint trap.  What follows it depends on how the
  process is run, so the parsers take the run as their first argument, a `Debugger`:
  attached, it resumes execution; absent, the trap ends the process, the `error`
  result `Breakpoint`.
* Functions that advance the cursor take the remaining input and return the new one.
* `s64` values are `Int`; data members that the C++ leaves without an initialiser are
  `Option`, `none` standing for "never assigned".
* The `verbose` flag only guards `print_field` (output); it is dropped.
* `parse_type`, `parse_field_list` and `parse_member_list` are mutually recursive; the
  recursion is on a fuel counter, and the functions without the `_fuel` suffix supply
  one more unit of fuel than the input has characters, which is always enough.
-/

/-! ## Errors -/

/-- The fatal errors of the parser, one per `verify` message of `stabs.cpp`, named after
the error taxonomy of the specification where it has a name for them. -/
inductive ParseError where
  /-- The message `ERR_END_OF_INPUT`. -/
  | UnexpectedEndOfInput
  /-- From `expect_s8`: "Expected '%c' after %s, got '%c'." -/
  | UnexpectedCharacter (expected : Char) (found : Char) (context : String)
  /-- From `validate_symbol_descriptor`: "Unknown symbol descriptor: %c." -/
  | UnknownSymbolDescriptor (c : Char)
  /-- From `eat_s64_literal`: `verify(number.size() > 0, ...)`. -/
  | MalformedLiteral
  /-- From `eat_s64_literal`: `std::stol` throws `std::invalid_argument`, which is not caught. -/
  | InvalidArgument
  /-- From `parse_stabs_symbol`: "Expected '='." -/
  | ExpectedEquals
  /-- From `parse_type`, enum case: "Expecting ',' while parsing enum". -/
  | EnumExpectedComma
  /-- From `parse_type`, member case: "Weird value following '@' type descriptor." -/
  | WeirdMemberValue
  /-- From `parse_member_list`: the scan for `.` runs off the end of the string. -/
  | ReadPastEnd
  /-- From a bare `__debugbreak()` with no debugger attached: the trap ends the process. -/
  | Breakpoint
  /-- Not an error of the program: the fuel of the model ran out. -/
  | OutOfFuel
  deriving DecidableEq, Repr

/-! ## Character classes (`<cctype>`, "C" locale) -/

/-- The test `c >= '0' && c <= '9'`. -/
def is_digit (c : Char) : Bool := 48 ≤ c.toNat && c.toNat ≤ 57

/-- The function `isprint` in the "C" locale: codes 0x20 to 0x7e. -/
def isprint (c : Char) : Bool := 32 ≤ c.toNat && c.toNat ≤ 126

/-- The function `isalnum` in the "C" locale. -/
def isalnum (c : Char) : Bool :=
  is_digit c || (65 ≤ c.toNat && c.toNat ≤ 90) || (97 ≤ c.toNat && c.toNat ≤ 122)

/-! ## Data model (`ccc.h`) -/

/-- The `enum class StabsSymbolDescriptor : s8`: the descriptor is its character code. -/
abbrev StabsSymbolDescriptor := Char

namespace StabsSymbolDescriptor
def LOCAL_VARIABLE : StabsSymbolDescriptor := Char.ofNat 0
def A : StabsSymbolDescriptor := 'a'
def LOCAL_FUNCTION : StabsSymbolDescriptor := 'f'
def GLOBAL_FUNCTION : StabsSymbolDescriptor := 'F'
def GLOBAL_VARIABLE : StabsSymbolDescriptor := 'G'
def REGISTER_PARAMETER : StabsSymbolDescriptor := 'P'
def VALUE_PARAMETER : StabsSymbolDescriptor := 'p'
def REGISTER_VARIABLE : StabsSymbolDescriptor := 'r'
def STATIC_GLOBAL_VARIABLE : StabsSymbolDescriptor := 's'
def TYPE_NAME : StabsSymbolDescriptor := 't'
def ENUM_STRUCT_OR_TYPE_TAG : StabsSymbolDescriptor := 'T'
def STATIC_LOCAL_VARIABLE : StabsSymbolDescriptor := 'V'
end StabsSymbolDescriptor

/-- The `enum class StabsTypeDescriptor : s8`: the descriptor is its character code. -/
abbrev StabsTypeDescriptor := Char

namespace StabsTypeDescriptor
def TYPE_REFERENCE : StabsTypeDescriptor := Char.ofNat 0
def ARRAY : StabsTypeDescriptor := 'a'
def ENUM : StabsTypeDescriptor := 'e'
def FUNCTION : StabsTypeDescriptor := 'f'
def RANGE : StabsTypeDescriptor := 'r'
def STRUCT : StabsTypeDescriptor := 's'
def UNION : StabsTypeDescriptor := 'u'
def AMPERSAND : StabsTypeDescriptor := '&'
def POINTER : StabsTypeDescriptor := '*'
def SLASH : StabsTypeDescriptor := '/'
def MEMBER : StabsTypeDescriptor := '@'
def METHOD : StabsTypeDescriptor := '#'
end StabsTypeDescriptor

/-- The `struct StabsField` over the type `T` of its `type` member. -/
structure StabsFieldOf (T : Type) where
  name : List Char
  type : T
  offset : Option Int
  size : Option Int
  type_name : List Char

/-- The `struct StabsMember` over the type `T` of its `type` member; `type` is `none` while
it is default-constructed. -/
structure StabsMemberOf (T : Type) where
  name : List Char
  physname : List Char
  type : Option T

/-- The `struct StabsType`: the descriptor, the auxiliary type and every payload of the
"tagged union" (which in the C++ is a plain struct holding all of them side by side).
Owning pointers are `Option`, `none` being `nullptr` or never assigned. -/
structure StabsType where
  descriptor : StabsTypeDescriptor
  aux_type : Option StabsType
  type_reference_type_number : Option Int
  array_index_type : Option StabsType
  array_element_type : Option StabsType
  enum_fields : List (List Char × Int)
  range_type : Option StabsType
  range_low : Option Int
  range_high : Option Int
  struct_type_number : Option Int
  struct_fields : List (StabsFieldOf StabsType)
  struct_members : List (StabsMemberOf StabsType)
  union_type_number : Option Int
  union_fields : List (StabsFieldOf StabsType)
  pointer_value_type : Option StabsType

abbrev StabsField := StabsFieldOf StabsType

abbrev StabsMember := StabsMemberOf StabsType

/-- The local `StabsType type;` of `parse_type` once its descriptor is assigned:
pointers null, vectors empty, scalars unassigned. -/
def StabsType.init (descriptor : StabsTypeDescriptor) : StabsType :=
  { descriptor := descriptor, aux_type := none, type_reference_type_number := none,
    array_index_type := none, array_element_type := none, enum_fields := [],
    range_type := none, range_low := none, range_high := none,
    struct_type_number := none, struct_fields := [], struct_members := [],
    union_type_number := none, union_fields := [], pointer_value_type := none }

/-- The `struct StabsSymbol`; `type` is `none` while it is the default-constructed member,
that is when no type was parsed. -/
structure StabsSymbol where
  name : List Char
  descriptor : StabsSymbolDescriptor
  type_number : Int
  type : Option StabsType

/-! ## Cursor primitives -/

/-- The function `eat_s8`. -/
def eat_s8 : List Char → Except ParseError (Char × List Char)
  | [] => .error .UnexpectedEndOfInput
  | c :: input => .ok (c, input)

/-- The constant `LONG_MAX` for a 64-bit `long`, the width the `s64` return type assumes. -/
def LONG_MAX : Int := 9223372036854775807

/-- The constant `LONG_MIN` for a 64-bit `long`. -/
def LONG_MIN : Int := -9223372036854775808

/-- The number a string of decimal digits denotes. -/
def digits_value (digits : List Char) : Nat :=
  digits.foldl (fun acc c => 10 * acc + (c.toNat - 48)) 0

/-- The three outcomes of `std::stol`. -/
inductive StolResult where
  | value (v : Int)
  | out_of_range
  | invalid_argument
  deriving DecidableEq, Repr

/-- The function `std::stol` on the strings `eat_s64_literal` builds: an optional `-` and then only
decimal digits.  Without a digit no conversion can be performed. -/
def stol (number : List Char) : StolResult :=
  let negative := number.head? = some '-'
  let digits := if negative then number.tail else number
  if digits = [] then .invalid_argument
  else
    let v : Int := if negative then -(digits_value digits : Int) else (digits_value digits : Int)
    if LONG_MIN ≤ v ∧ v ≤ LONG_MAX then .value v else .out_of_range

/-- The function `eat_s64_literal`. -/
def eat_s64_literal (input : List Char) : Except ParseError (Int × List Char) :=
  let sign : List Char := if input.head? = some '-' then ['-'] else []
  let input := if input.head? = some '-' then input.tail else input
  let number := sign ++ input.takeWhile is_digit
  let input := input.dropWhile is_digit
  if number.length = 0 then .error .MalformedLiteral
  else
    match stol number with
    | .value v => .ok (v, input)
    | .out_of_range => .ok (0, input)
    | .invalid_argument => .error .InvalidArgument

/-- The loop of `eat_identifier`, with its locals `first` and `identifier`. -/
def eat_identifier_loop : Bool → List Char → List Char → Except ParseError (List Char × List Char)
  | _, _, [] => .error .UnexpectedEndOfInput
  | first, identifier, c :: input =>
    let valid_char := (isprint c && c != ':' && c != ';') || (!first && isalnum c)
    if valid_char then eat_identifier_loop false (identifier ++ [c]) input
    else .ok (identifier, c :: input)

/-- The function `eat_identifier`. -/
def eat_identifier (input : List Char) : Except ParseError (List Char × List Char) :=
  eat_identifier_loop true [] input

/-- The function `expect_s8`; the result is the advanced cursor. -/
def expect_s8 (input : List Char) (expected : Char) (subject : String) :
    Except ParseError (List Char) :=
  match input with
  | [] => .error .UnexpectedEndOfInput
  | val :: input =>
    if val = expected then .ok input else .error (.UnexpectedCharacter expected val subject)

/-- The descriptors `validate_symbol_descriptor` lets through. -/
def known_symbol_descriptors : List StabsSymbolDescriptor :=
  [StabsSymbolDescriptor.LOCAL_VARIABLE, StabsSymbolDescriptor.A,
   StabsSymbolDescriptor.LOCAL_FUNCTION, StabsSymbolDescriptor.GLOBAL_FUNCTION,
   StabsSymbolDescriptor.GLOBAL_VARIABLE, StabsSymbolDescriptor.REGISTER_PARAMETER,
   StabsSymbolDescriptor.VALUE_PARAMETER, StabsSymbolDescriptor.REGISTER_VARIABLE,
   StabsSymbolDescriptor.STATIC_GLOBAL_VARIABLE, StabsSymbolDescriptor.TYPE_NAME,
   StabsSymbolDescriptor.ENUM_STRUCT_OR_TYPE_TAG, StabsSymbolDescriptor.STATIC_LOCAL_VARIABLE]

/-- The function `validate_symbol_descriptor`. -/
def validate_symbol_descriptor (descriptor : StabsSymbolDescriptor) : Except ParseError Unit :=
  if descriptor ∈ known_symbol_descriptors then .ok ()
  else .error (.UnknownSymbolDescriptor descriptor)

/-- How the process is run, as far as a breakpoint can tell. -/
inductive Debugger where
  /-- A debugger is attached and resumes execution at every breakpoint. -/
  | attached
  /-- No debugger is attached. -/
  | absent
  deriving DecidableEq, Repr

/-- The intrinsic `__debugbreak()`: a breakpoint trap.  With a debugger attached execution
resumes at the next statement with the program state unchanged; without one the trap is
not handled and the process ends there. -/
def __debugbreak (debugger : Debugger) : Except ParseError Unit :=
  match debugger with
  | .attached => .ok ()
  | .absent => .error .Breakpoint

/-- The resynchronisation loops of `parse_field_list`:
`for(; *input != '\0'; input++) { last = current; current = *input;
 if(last == a && current == b) { input++; break; } }`.
The first argument is `current` (the loop starts with `last = 0, current = 0`). -/
def scan_past_pair (a b : Char) : Char → List Char → List Char
  | _, [] => []
  | current, c :: input =>
    if current = a ∧ c = b then input else scan_past_pair a b c input

/-- The loop `while (*input != '.') input++; input++;` of `parse_member_list`.  Nothing
stops it at the terminating NUL: without a `.` it reads past the end of the string. -/
def scan_past_dot : List Char → Except ParseError (List Char)
  | [] => .error .ReadPastEnd
  | c :: input => if c = '.' then .ok input else scan_past_dot input

/-! ## The parser -/

/-- The comparison `f1.second < f2.second` that `std::sort` is given, as the order it
sorts into. -/
def enum_value_le (f1 f2 : List Char × Int) : Prop := f1.2 ≤ f2.2

instance : DecidableRel enum_value_le := fun f1 f2 => inferInstanceAs (Decidable (f1.2 ≤ f2.2))

instance : IsTotal (List Char × Int) enum_value_le := ⟨fun a b => le_total a.2 b.2⟩

instance : IsTrans (List Char × Int) enum_value_le := ⟨fun _ _ _ h1 h2 => le_trans h1 h2⟩

/-- The call `std::sort(fields.begin(), fields.end(), by value)`.  The C++ leaves the order
of entries with equal values unspecified; the result here keeps them in input order. -/
def sort_enum_fields (fields : List (List Char × Int)) : List (List Char × Int) :=
  fields.insertionSort enum_value_le

/-- The `while(*input != ';')` loop of the enum case of `parse_type`: one call is one test
of the condition and, if it holds, one iteration; `fields` is `type.enum_type.fields` so
far.  The loop runs on fuel, one unit an iteration. -/
def parse_enum_fields : Nat → List Char → List (List Char × Int) →
    Except ParseError (List (List Char × Int) × List Char)
  | 0, _, _ => .error .OutOfFuel
  | fuel + 1, input, fields =>
    if input.head? = some ';' then .ok (fields, input)
    else do
      let (name, input) ← eat_identifier input
      let input ← expect_s8 input ':' "identifier"
      let (value, input) ← eat_s64_literal input
      let fields := fields ++ [(name, value)]
      let (c, input) ← eat_s8 input
      if c = ',' then parse_enum_fields fuel input fields
      else .error .EnumExpectedComma

open StabsTypeDescriptor in
/-- The body of `parse_type` up to and including its `switch`: the primary production.
The three arguments `parse_type`, `parse_field_list` and `parse_member_list` are the
functions its (mutually) recursive calls go to.  The enum loop is given one unit of fuel
more than the input has characters. -/
def parse_type_primary (debugger : Debugger)
    (parse_type : List Char → Except ParseError (StabsType × List Char))
    (parse_field_list : List Char → Except ParseError (List StabsField × Bool × List Char))
    (parse_member_list : List Char → Except ParseError (List StabsMember × List Char))
    (symbol : StabsSymbol) (input : List Char) : Except ParseError (StabsType × List Char) :=
  match input with
  | [] => .error .UnexpectedEndOfInput
  | c :: rest => do
    let descriptor : StabsTypeDescriptor := if is_digit c then TYPE_REFERENCE else c
    let input := if is_digit c then c :: rest else rest
    let type := StabsType.init descriptor
    if descriptor = TYPE_REFERENCE then do
      let (type_number, input) ← eat_s64_literal input
      pure ({ type with type_reference_type_number := some type_number }, input)
    else if descriptor = ARRAY then do
      let (index_type, input) ← parse_type input
      let (element_type, input) ← parse_type input
      pure ({ type with array_index_type := some index_type,
                        array_element_type := some element_type }, input)
    else if descriptor = ENUM then do
      let (fields, input) ← parse_enum_fields (input.length + 1) input type.enum_fields
      pure ({ type with enum_fields := sort_enum_fields fields }, input)
    else if descriptor = FUNCTION then do
      let (_, input) ← eat_s64_literal input
      pure (type, input)
    else if descriptor = RANGE then do
      let (range_type, input) ← parse_type input
      let input ← expect_s8 input ';' "range type descriptor"
      let (low, input) ← eat_s64_literal input
      let input ← expect_s8 input ';' "low range value"
      let (high, input) ← eat_s64_literal input
      let input ← expect_s8 input ';' "high range value"
      pure ({ type with range_type := some range_type, range_low := some low,
                        range_high := some high }, input)
    else if descriptor = STRUCT then do
      let (type_number, input) ← eat_s64_literal input
      let input ←
        (if input.head? = some '!' then do
          let input := input.tail
          let (_, input) ← eat_s64_literal input
          let input ← expect_s8 input ',' "!"
          let (_, input) ← eat_s64_literal input
          let input ← expect_s8 input ',' "!"
          let (_, input) ← parse_type input
          expect_s8 input ';' "!"
        else pure input : Except ParseError (List Char))
      let _ ← (if symbol.name = "JSGE".toList then __debugbreak debugger else pure () :
        Except ParseError Unit)
      let (fields, is_member_list, input) ← parse_field_list input
      if is_member_list then do
        let (members, input) ← parse_member_list input
        pure ({ type with struct_type_number := some type_number, struct_fields := fields,
                          struct_members := members }, input)
      else
        pure ({ type with struct_type_number := some type_number, struct_fields := fields }, input)
    else if descriptor = UNION then do
      let (type_number, input) ← eat_s64_literal input
      let (fields, _, input) ← parse_field_list input
      pure ({ type with union_type_number := some type_number, union_fields := fields }, input)
    else if descriptor = AMPERSAND then do
      let (_, input) ← eat_s64_literal input
      pure (type, input)
    else if descriptor = POINTER then do
      let (value_type, input) ← parse_type input
      pure ({ type with pointer_value_type := some value_type }, input)
    else if descriptor = SLASH then do
      let (_, input) ← eat_s64_literal input
      pure (type, input)
    else if descriptor = MEMBER then
      if input.head? = some 's' then pure (type, input) else .error .WeirdMemberValue
    else if descriptor = METHOD then do
      let (_, input) ← parse_type input
      pure (type, input)
    else do
      let (_, input) ← eat_identifier input
      let input ← expect_s8 input ':' "identifier"
      pure (type, input)

mutual
/-- The function `parse_type`, on fuel: the primary production, then the auxiliary type
after an `=`. -/
def parse_type_fuel (debugger : Debugger) :
    Nat → StabsSymbol → List Char → Except ParseError (StabsType × List Char)
  | 0, _, _ => .error .OutOfFuel
  | fuel + 1, symbol, input => do
    let (type, input) ← parse_type_primary debugger (parse_type_fuel debugger fuel symbol)
      (fun input => parse_field_list_fuel debugger fuel symbol input [])
      (fun input => parse_member_list_fuel debugger fuel symbol input []) symbol input
    if input.head? = some '=' then do
      let input := input.tail
      let (aux_type, input) ← parse_type_fuel debugger fuel symbol input
      pure ({ type with aux_type := some aux_type }, input)
    else pure (type, input)
/-- The function `parse_field_list`, on fuel: one call is one test of the `while` condition
and, if it holds, one iteration; `fields` is the vector so far.  The Boolean of the
result is `*is_member_list` after the call when it was `false` before; no statement
that is compiled writes to it (the only one is under `#if 0`). -/
def parse_field_list_fuel (debugger : Debugger) :
    Nat → StabsSymbol → List Char → List StabsField →
    Except ParseError (List StabsField × Bool × List Char)
  | 0, _, _, _ => .error .OutOfFuel
  | fuel + 1, symbol, input, fields =>
    if input = [] then .ok (fields, false, input)
    else do
      let (name, input) ← eat_identifier input
      let input ← expect_s8 input ':' "identifier"
      if input.head? = some ':' then
        -- "For now, scan until we reach a ;;.", then `break`
        .ok (fields, false, scan_past_pair ';' ';' (Char.ofNat 0) input)
      else do
        let (type, input) ← parse_type_fuel debugger fuel symbol input
        let field : StabsField :=
          { name := name, type := type, offset := none, size := none, type_name := [] }
        let (field, input) ←
          (if name.head? = some '$' then do
            let input ← expect_s8 input ',' "field type"
            let (offset, input) ← eat_s64_literal input
            let input ← expect_s8 input ';' "field offset"
            pure ({ field with offset := some offset }, input)
          else if input.head? = some ':' then do
            let input := input.tail
            let (type_name, input) ← eat_identifier input
            let input ← expect_s8 input ';' "identifier"
            pure ({ field with type_name := type_name }, input)
          else if input.head? = some ',' then do
            let input := input.tail
            let (offset, input) ← eat_s64_literal input
            let input ← expect_s8 input ',' "field offset"
            let (size, input) ← eat_s64_literal input
            let input ← expect_s8 input ';' "field size"
            pure ({ field with offset := some offset, size := some size }, input)
          else do
            __debugbreak debugger
            pure (field, scan_past_pair '2' 'A' (Char.ofNat 0) input) :
          Except ParseError (StabsField × List Char))
        let fields := fields ++ [field]
        if input.head? = some ';' then .ok (fields, false, input.tail)
        else parse_field_list_fuel debugger fuel symbol input fields
/-- The function `parse_member_list`, on fuel: one call is one test of the `while` condition
and, if it holds, one iteration.  The local `member` is filled in but never appended
to `members`, so it is not built here. -/
def parse_member_list_fuel (debugger : Debugger) :
    Nat → StabsSymbol → List Char → List StabsMember →
    Except ParseError (List StabsMember × List Char)
  | 0, _, _, _ => .error .OutOfFuel
  | fuel + 1, symbol, input, members =>
    if input = [] then .ok (members, input)
    else do
      let (_, input) ← eat_identifier input
      let input ← expect_s8 input ':' "member identifier"
      let input ←
        (if input.head? = some ':' then do
          let input ← expect_s8 input ':' "member identifier"
          let (_, input) ← parse_type_fuel debugger fuel symbol input
          let input ← expect_s8 input ';' "member type"
          let input ← expect_s8 input ':' "member type"
          let (_, input) ← eat_identifier input
          pure input
        else pure input : Except ParseError (List Char))
      let input ← expect_s8 input ';' "member physname"
      let input ← scan_past_dot input
      let input ←
        (if input.head? ≠ some ';' then do
          let (_, input) ← parse_type_fuel debugger fuel symbol input
          let input ← expect_s8 input ';' ""
          let (_, input) ← eat_identifier input
          let input ← expect_s8 input ':' "member identifier"
          let input ← expect_s8 input ';' ""
          let input ← scan_past_dot input
          expect_s8 input ';' ""
        else pure input : Except ParseError (List Char))
      let input ← expect_s8 input ';' "member physname"
      if input.head? = some ';' then .ok (members, input.tail)
      else parse_member_list_fuel debugger fuel symbol input members
end

/-- The function `parse_type`. -/
def parse_type (debugger : Debugger) (symbol : StabsSymbol) (input : List Char) :
    Except ParseError (StabsType × List Char) :=
  parse_type_fuel debugger (input.length + 1) symbol input

/-- The function `parse_field_list`, entered with an empty vector. -/
def parse_field_list (debugger : Debugger) (symbol : StabsSymbol) (input : List Char) :
    Except ParseError (List StabsField × Bool × List Char) :=
  parse_field_list_fuel debugger (input.length + 1) symbol input []

/-- The function `parse_member_list`, entered with an empty vector. -/
def parse_member_list (debugger : Debugger) (symbol : StabsSymbol) (input : List Char) :
    Except ParseError (List StabsMember × List Char) :=
  parse_member_list_fuel debugger (input.length + 1) symbol input []

/-- The function `parse_stabs_symbol`. -/
def parse_stabs_symbol (debugger : Debugger) (input : List Char) :
    Except ParseError StabsSymbol := do
  let (name, input) ← eat_identifier input
  let input ← expect_s8 input ':' "identifier"
  if input = [] then .error .UnexpectedEndOfInput
  else do
    let (descriptor, input) ←
      (if is_digit (input.headD (Char.ofNat 0)) then
        pure (StabsSymbolDescriptor.LOCAL_VARIABLE, input)
      else eat_s8 input : Except ParseError (StabsSymbolDescriptor × List Char))
    validate_symbol_descriptor descriptor
    if input = [] then .error .UnexpectedEndOfInput
    else do
      let input := if input.head? = some 't' then input.tail else input
      let (type_number, input) ← eat_s64_literal input
      let symbol : StabsSymbol :=
        { name := name, descriptor := descriptor, type_number := type_number, type := none }
      if input = [] then pure symbol
      else do
        let (c, input) ← eat_s8 input
        if c = '=' then do
          let (type, _) ← parse_type debugger symbol input
          pure { symbol with type := some type }
        else .error .ExpectedEquals

/-! ## Vocabulary of the statements -/

/-- The characters `eat_identifier` takes on its first iteration: printable, and neither
`:` nor `;`. -/
def is_identifier_char (c : Char) : Bool := isprint c && c != ':' && c != ';'

/-- The decimal text of an integer: a `-` for a negative one, then the digits of its
magnitude without leading zeros. -/
def decimal (v : Int) : List Char :=
  if v < 0 then '-' :: Nat.toDigits 10 v.natAbs else Nat.toDigits 10 v.natAbs

/-- The type `parse_type` returns for a bare type number: a type reference. -/
def type_reference (type_number : Int) : StabsType :=
  { StabsType.init StabsTypeDescriptor.TYPE_REFERENCE with
    type_reference_type_number := some type_number }

/-- What the remaining input starts with, when that is asked of it: `c` is not its first
character. -/
def not_at (c : Char) (input : List Char) : Prop := input.head? ≠ some c

/-- The remaining input does not start with a decimal digit. -/
def not_at_digit (input : List Char) : Prop := ∀ c, input.head? = some c → is_digit c = false

/-- The statements of `parse_stabs_symbol` that follow `validate_symbol_descriptor`, from
the second `verify(*input != '\0', ...)` to the end, for the name and the descriptor
parsed before them. -/
def parse_stabs_symbol_after_descriptor (debugger : Debugger) (name : List Char)
    (descriptor : StabsSymbolDescriptor) (input : List Char) : Except ParseError StabsSymbol :=
  if input = [] then .error .UnexpectedEndOfInput
  else do
    let input := if input.head? = some 't' then input.tail else input
    let (type_number, input) ← eat_s64_literal input
    let symbol : StabsSymbol :=
      { name := name, descriptor := descriptor, type_number := type_number, type := none }
    if input = [] then pure symbol
    else do
      let (c, input) ← eat_s8 input
      if c = '=' then do
        let (type, _) ← parse_type debugger symbol input
        pure { symbol with type := some type }
      else .error .ExpectedEquals

/-- The descriptor characters other than the implicit `LOCAL_VARIABLE`. -/
def symbol_descriptor_letters : List Char :=
  ['a', 'f', 'F', 'G', 'P', 'p', 'r', 's', 't', 'T', 'V']

/-- The first character of a plain C identifier: a letter or `_`. -/
def is_identifier_start (c : Char) : Bool :=
  (65 ≤ c.toNat && c.toNat ≤ 90) || (97 ≤ c.toNat && c.toNat ≤ 122) || c == '_'

/-- A plain C identifier: a letter or `_`, then letters, digits and `_`. -/
def is_plain_identifier : List Char → Bool
  | [] => false
  | c :: cs => is_identifier_start c && cs.all (fun x => isalnum x || x == '_')

/-- A bit-field entry of a struct as the field list states it: the field's name, the number
of the type it refers to, its bit offset and its bit size. -/
structure BitFieldEntry where
  name : List Char
  ref : Int
  offset : Int
  size : Int

/-- The text `name:ref,offset,size;` of a bit-field entry. -/
def BitFieldEntry.text (e : BitFieldEntry) : List Char :=
  e.name ++ ':' :: (decimal e.ref ++ ',' :: (decimal e.offset ++ ',' :: (decimal e.size ++ [';'])))

/-- The texts of the entries of a field list, one after the other. -/
def bit_fields_text : List BitFieldEntry → List Char
  | [] => []
  | e :: es => e.text ++ bit_fields_text es

/-- The `StabsField` a bit-field entry stands for: its name, a reference to its type, its
offset and size, and no type name. -/
def BitFieldEntry.field (e : BitFieldEntry) : StabsField :=
  { name := e.name, type := type_reference e.ref, offset := some e.offset, size := some e.size,
    type_name := [] }

/-- A bit-field entry the parser reads back: a plain C identifier, a non-negative type
number, and numbers a `long` holds. -/
def BitFieldEntry.well_formed (e : BitFieldEntry) : Prop :=
  is_plain_identifier e.name = true ∧ 0 ≤ e.ref ∧ e.ref ≤ LONG_MAX ∧
  LONG_MIN ≤ e.offset ∧ e.offset ≤ LONG_MAX ∧ LONG_MIN ≤ e.size ∧ e.size ≤ LONG_MAX

/-- The text `name:value,` of each entry of an enum, one after the other. -/
def enum_text : List (List Char × Int) → List Char
  | [] => []
  | e :: es => e.1 ++ ':' :: (decimal e.2 ++ ',' :: enum_text es)

/-- The number a string of decimal digits denotes, by positional notation: the digits
from the last to the first are the coefficients of the powers of ten. -/
def denoted_value (digits : List Char) : Nat :=
  Nat.ofDigits 10 ((digits.map (fun c => c.toNat - 48)).reverse)

/-- The part of the input the digits of a literal are read from: what follows the sign. -/
def after_sign (input : List Char) : List Char :=
  if input.head? = some '-' then input.tail else input

/-- The integer a literal denotes: the number its digits denote, negated after a `-`. -/
def signed_value (negative : Bool) (digits : List Char) : Int :=
  if negative then -(denoted_value digits : Int) else (denoted_value digits : Int)

/-- The data of a synthetic field: a name that starts with `$`, an offset, and neither
size nor type name. -/
def is_synthetic_field (f : StabsField) : Prop :=
  f.name.head? = some '$' ∧ f.offset ≠ none ∧ f.size = none ∧ f.type_name = []

/-- The data of a static or typed member at most: a name that does not start with `$`,
and neither offset nor size (the type name is whatever was read, if anything was). -/
def is_typed_member (f : StabsField) : Prop :=
  f.name.head? ≠ some '$' ∧ f.offset = none ∧ f.size = none

/-- The data of a bit-field: a name that does not start with `$`, an offset and a size,
and no type name. -/
def is_bit_field (f : StabsField) : Prop :=
  f.name.head? ≠ some '$' ∧ f.offset ≠ none ∧ f.size ≠ none ∧ f.type_name = []

/-- The field holds no data of any encoding: no offset, no size, no type name. -/
def has_no_field_data (f : StabsField) : Prop :=
  f.offset = none ∧ f.size = none ∧ f.type_name = []

/-- The statement `if (symbol.name == "JSGE") __debugbreak();` of the `STRUCT` case of
`parse_type`, on its own. -/
def jsge_breakpoint (debugger : Debugger) (symbol : StabsSymbol) : Except ParseError Unit :=
  if symbol.name = "JSGE".toList then __debugbreak debugger else pure ()

/-- Two names meet the breakpoint of the `STRUCT` case alike: a debugger is attached, or
both names are `JSGE`, or neither is. -/
def pass_alike (debugger : Debugger) (n1 n2 : List Char) : Prop :=
  debugger = .attached ∨ (n1 = "JSGE".toList ↔ n2 = "JSGE".toList)

/-- The remaining input in the result of a parser step: the last component. -/
class Remaining (γ : Type) where
  remaining : γ → List Char

instance : Remaining (List Char) := ⟨fun input => input⟩

instance {α β : Type} [Remaining β] : Remaining (α × β) := ⟨fun p => Remaining.remaining p.2⟩

/-- Two runs of a parser step agree: they have the same result, that result is not the
model running out of fuel, and when it is a success it leaves fewer than `n` characters. -/
def Agrees {γ : Type} [Remaining γ] (n : Nat) (x1 x2 : Except ParseError γ) : Prop :=
  x1 = x2 ∧ x1 ≠ .error .OutOfFuel ∧ ∀ c, x1 = .ok c → (Remaining.remaining c).length < n

/-! ## The cursor primitives: what they read and how far they advance -/

section

variable {debugger : Debugger}

theorem digitChar_is_digit (k : Nat) (h : k < 10) : is_digit (Nat.digitChar k) = true := by
  interval_cases k <;> decide

theorem digitChar_value (k : Nat) (h : k < 10) : (Nat.digitChar k).toNat - 48 = k := by
  interval_cases k <;> decide

theorem foldl_toDigitsCore (fuel : Nat) : ∀ (n : Nat) (ds : List Char), n < fuel →
    List.foldl (fun acc c => 10 * acc + (c.toNat - 48)) 0 (Nat.toDigitsCore 10 fuel n ds)
      = List.foldl (fun acc c => 10 * acc + (c.toNat - 48)) n ds := by
  induction fuel with
  | zero => intro n ds h; omega
  | succ fuel ih =>
    intro n ds h
    simp only [Nat.toDigitsCore]
    split
    · rename_i h0
      have hn : n < 10 := by
        by_contra hc
        have : 1 ≤ n / 10 := by omega
        omega
      simp [List.foldl, digitChar_value (n % 10) (Nat.mod_lt _ (by decide))]
      congr 1
      omega
    · rename_i h0
      rw [ih (n / 10) _ (by omega)]
      simp [List.foldl, digitChar_value (n % 10) (Nat.mod_lt _ (by decide))]
      congr 1
      omega

theorem all_digit_toDigitsCore (fuel : Nat) : ∀ (n : Nat) (ds : List Char),
    (∀ c ∈ ds, is_digit c = true) → ∀ c ∈ Nat.toDigitsCore 10 fuel n ds, is_digit c = true := by
  induction fuel with
  | zero => intro n ds h; simpa [Nat.toDigitsCore] using h
  | succ fuel ih =>
    intro n ds h
    simp only [Nat.toDigitsCore]
    have hd : is_digit (Nat.digitChar (n % 10)) = true :=
      digitChar_is_digit _ (Nat.mod_lt _ (by decide))
    split
    · intro c hc
      rcases List.mem_cons.mp hc with rfl | hc
      · exact hd
      · exact h c hc
    · apply ih
      intro c hc
      rcases List.mem_cons.mp hc with rfl | hc
      · exact hd
      · exact h c hc

theorem toDigitsCore_ne_nil (fuel : Nat) : ∀ (n : Nat) (ds : List Char),
    (0 < fuel ∨ ds ≠ []) → Nat.toDigitsCore 10 fuel n ds ≠ [] := by
  induction fuel with
  | zero => intro n ds h; rcases h with h | h; omega; simpa [Nat.toDigitsCore] using h
  | succ fuel ih =>
    intro n ds _
    simp only [Nat.toDigitsCore]
    split
    · simp
    · exact ih _ _ (Or.inr (by simp))

theorem digits_value_toDigits (n : Nat) : digits_value (Nat.toDigits 10 n) = n := by
  simp only [digits_value, Nat.toDigits]
  rw [foldl_toDigitsCore _ _ _ (Nat.lt_succ_self n)]
  rfl

theorem all_digit_toDigits (n : Nat) : ∀ c ∈ Nat.toDigits 10 n, is_digit c = true :=
  all_digit_toDigitsCore _ _ _ (by simp)

theorem toDigits_ne_nil (n : Nat) : Nat.toDigits 10 n ≠ [] :=
  toDigitsCore_ne_nil _ _ _ (Or.inl (Nat.succ_pos n))


theorem takeWhile_digits_append (ds rest : List Char) (hds : ∀ c ∈ ds, is_digit c = true)
    (hrest : not_at_digit rest) : (ds ++ rest).takeWhile is_digit = ds := by
  induction ds with
  | nil =>
    cases rest with
    | nil => rfl
    | cons c rest => simp [List.takeWhile, hrest c rfl]
  | cons d ds ih =>
    simp [List.takeWhile, hds d (List.mem_cons_self _ _)]
    exact ih (fun c hc => hds c (List.mem_cons_of_mem _ hc))

theorem dropWhile_digits_append (ds rest : List Char) (hds : ∀ c ∈ ds, is_digit c = true)
    (hrest : not_at_digit rest) : (ds ++ rest).dropWhile is_digit = rest := by
  induction ds with
  | nil =>
    cases rest with
    | nil => rfl
    | cons c rest => simp [List.dropWhile, hrest c rfl]
  | cons d ds ih =>
    simp [List.dropWhile, hds d (List.mem_cons_self _ _)]
    exact ih (fun c hc => hds c (List.mem_cons_of_mem _ hc))

theorem head_toDigits_ne_minus (n : Nat) (rest : List Char) :
    (Nat.toDigits 10 n ++ rest).head? ≠ some '-' := by
  have hne := toDigits_ne_nil n
  have hall := all_digit_toDigits n
  cases h : Nat.toDigits 10 n with
  | nil => exact absurd h hne
  | cons d ds =>
    have hd : is_digit d = true := hall d (by rw [h]; exact List.mem_cons_self _ _)
    intro hc
    simp at hc
    rw [hc] at hd
    exact absurd hd (by decide)

/-- The literal reader reads back the decimal text of every integer a `long` holds. -/
theorem eat_s64_literal_decimal (v : Int) (rest : List Char) (hlo : LONG_MIN ≤ v)
    (hhi : v ≤ LONG_MAX) (hrest : not_at_digit rest) :
    eat_s64_literal (decimal v ++ rest) = .ok (v, rest) := by
  have hall := all_digit_toDigits v.natAbs
  have hne := toDigits_ne_nil v.natAbs
  by_cases hv : v < 0
  · have hdec : decimal v = '-' :: Nat.toDigits 10 v.natAbs := by simp [decimal, hv]
    have hval : -((v.natAbs : Nat) : Int) = v := by omega
    simp only [eat_s64_literal, hdec, List.cons_append, List.head?_cons, List.tail_cons, if_true,
      takeWhile_digits_append _ _ hall hrest, dropWhile_digits_append _ _ hall hrest]
    have habs : -|v| = v := by rw [abs_of_neg hv]; omega
    simp [stol, hne, digits_value_toDigits, habs, hlo, hhi]
  · have hdec : decimal v = Nat.toDigits 10 v.natAbs := by simp [decimal, hv]
    have hval : ((v.natAbs : Nat) : Int) = v := by omega
    have hhead := head_toDigits_ne_minus v.natAbs rest
    have hhead2 : (Nat.toDigits 10 v.natAbs).head? ≠ some '-' := by
      simpa using head_toDigits_ne_minus v.natAbs []
    simp only [eat_s64_literal, hdec, hhead, if_false,
      takeWhile_digits_append _ _ hall hrest, dropWhile_digits_append _ _ hall hrest]
    have habs : |v| = v := abs_of_nonneg (by omega)
    simp [stol, hne, digits_value_toDigits, habs, hlo, hhi, hhead2]

theorem isalnum_identifier_char (c : Char) (h : isalnum c = true) : is_identifier_char c = true := by
  have h58 : c ≠ ':' := by
    rintro rfl
    exact absurd h (by decide)
  have h59 : c ≠ ';' := by
    rintro rfl
    exact absurd h (by decide)
  simp only [isalnum, is_digit, Bool.or_eq_true, Bool.and_eq_true, decide_eq_true_eq] at h
  simp only [is_identifier_char, isprint, Bool.and_eq_true, decide_eq_true_eq, bne_iff_ne, ne_eq]
  refine ⟨⟨⟨?_, ?_⟩, h58⟩, h59⟩ <;> omega

theorem eat_identifier_loop_append (name : List Char) :
    ∀ (first : Bool) (identifier : List Char) (c : Char) (rest : List Char),
    (∀ x ∈ name, is_identifier_char x = true) → is_identifier_char c = false →
    eat_identifier_loop first identifier (name ++ c :: rest)
      = .ok (identifier ++ name, c :: rest) := by
  induction name with
  | nil =>
    intro first identifier c rest _ hc
    have hal : isalnum c = false := by
      by_contra h
      have := isalnum_identifier_char c (by simpa using h)
      rw [hc] at this
      exact absurd this (by decide)
    have hc2 : (isprint c && c != ':' && c != ';') = false := hc
    simp [eat_identifier_loop, hc2, hal]
  | cons x name ih =>
    intro first identifier c rest hname hc
    have hx : (isprint x && x != ':' && x != ';') = true := hname x (List.mem_cons_self _ _)
    simp only [List.cons_append, eat_identifier_loop, hx, Bool.true_or, if_true]
    have := ih false (identifier ++ [x]) c rest (fun y hy => hname y (List.mem_cons_of_mem _ hy)) hc
    simpa using this

/-- An identifier followed by a character that cannot continue it is read whole. -/
theorem eat_identifier_append (name : List Char) (c : Char) (rest : List Char)
    (hname : ∀ x ∈ name, is_identifier_char x = true) (hc : is_identifier_char c = false) :
    eat_identifier (name ++ c :: rest) = .ok (name, c :: rest) := by
  simpa [eat_identifier] using eat_identifier_loop_append name true [] c rest hname hc

theorem eat_identifier_loop_all (name : List Char) :
    ∀ (first : Bool) (identifier : List Char), (∀ x ∈ name, is_identifier_char x = true) →
    eat_identifier_loop first identifier name = .error .UnexpectedEndOfInput := by
  induction name with
  | nil => intro first identifier _; rfl
  | cons x name ih =>
    intro first identifier hname
    have hx : (isprint x && x != ':' && x != ';') = true := hname x (List.mem_cons_self _ _)
    simp only [eat_identifier_loop, hx, Bool.true_or, if_true]
    exact ih false _ (fun y hy => hname y (List.mem_cons_of_mem _ hy))

theorem eat_identifier_loop_suffix (input : List Char) :
    ∀ (first : Bool) (identifier name rest : List Char),
    eat_identifier_loop first identifier input = .ok (name, rest) →
    rest.length ≤ input.length := by
  induction input with
  | nil => intro first identifier name rest h; simp [eat_identifier_loop] at h
  | cons c input ih =>
    intro first identifier name rest h
    simp only [eat_identifier_loop] at h
    split at h
    · have := ih _ _ _ _ h
      simp only [List.length_cons]
      omega
    · simp only [Except.ok.injEq, Prod.mk.injEq] at h
      rw [← h.2]

theorem eat_identifier_length (input name rest : List Char)
    (h : eat_identifier input = .ok (name, rest)) : rest.length ≤ input.length :=
  eat_identifier_loop_suffix input true [] name rest h

theorem expect_s8_length (input rest : List Char) (c : Char) (s : String)
    (h : expect_s8 input c s = .ok rest) : rest.length + 1 = input.length := by
  cases input with
  | nil => simp [expect_s8] at h
  | cons x input =>
    simp only [expect_s8] at h
    split at h
    · simp only [Except.ok.injEq] at h
      simp [h]
    · simp at h

theorem eat_s8_length (input rest : List Char) (c : Char)
    (h : eat_s8 input = .ok (c, rest)) : rest.length + 1 = input.length := by
  cases input with
  | nil => simp [eat_s8] at h
  | cons x input =>
    simp only [eat_s8, Except.ok.injEq, Prod.mk.injEq] at h
    simp [h.2]

theorem dropWhile_length_le (p : Char → Bool) (l : List Char) :
    (l.dropWhile p).length ≤ l.length := by
  induction l with
  | nil => simp
  | cons c l ih =>
    simp only [List.dropWhile]
    split
    · simp only [List.length_cons]; omega
    · exact Nat.le_refl _

theorem eat_s64_literal_minus (input : List Char) :
    eat_s64_literal ('-' :: input) =
      match stol ('-' :: input.takeWhile is_digit) with
      | .value v => .ok (v, input.dropWhile is_digit)
      | .out_of_range => .ok (0, input.dropWhile is_digit)
      | .invalid_argument => .error .InvalidArgument := by
  simp [eat_s64_literal]

theorem eat_s64_literal_plain (input : List Char) (hm : input.head? ≠ some '-') :
    eat_s64_literal input =
      if input.takeWhile is_digit = [] then .error .MalformedLiteral
      else match stol (input.takeWhile is_digit) with
        | .value v => .ok (v, input.dropWhile is_digit)
        | .out_of_range => .ok (0, input.dropWhile is_digit)
        | .invalid_argument => .error .InvalidArgument := by
  simp only [eat_s64_literal, hm, if_false, List.nil_append, List.length_eq_zero]

theorem eat_s64_literal_length (input rest : List Char) (v : Int)
    (h : eat_s64_literal input = .ok (v, rest)) : rest.length < input.length := by
  by_cases hm : input.head? = some '-'
  · cases input with
    | nil => simp at hm
    | cons c input =>
      simp only [List.head?_cons, Option.some.injEq] at hm
      subst hm
      rw [eat_s64_literal_minus] at h
      have := dropWhile_length_le is_digit input
      split at h <;> simp only [Except.ok.injEq, Prod.mk.injEq, reduceCtorEq] at h
      · rw [← h.2, List.length_cons]; omega
      · rw [← h.2, List.length_cons]; omega
  · rw [eat_s64_literal_plain input hm] at h
    cases input with
    | nil => simp at h
    | cons c input =>
      by_cases hc : is_digit c = true
      · have := dropWhile_length_le is_digit input
        simp only [List.takeWhile, List.dropWhile, hc, reduceCtorEq, if_false] at h
        split at h <;> simp only [Except.ok.injEq, Prod.mk.injEq, reduceCtorEq] at h
        · rw [← h.2, List.length_cons]; omega
        · rw [← h.2, List.length_cons]; omega
      · simp [List.takeWhile, hc] at h

theorem decimal_nonneg_cons (v : Int) (h : 0 ≤ v) :
    ∃ d ds, decimal v = d :: ds ∧ is_digit d = true := by
  have hdec : decimal v = Nat.toDigits 10 v.natAbs := by
    simp [decimal, not_lt.mpr h]
  have hne := toDigits_ne_nil v.natAbs
  have hall := all_digit_toDigits v.natAbs
  rw [hdec]
  cases hd : Nat.toDigits 10 v.natAbs with
  | nil => exact absurd hd hne
  | cons d ds => exact ⟨d, ds, rfl, hall d (by rw [hd]; exact List.mem_cons_self _ _)⟩

theorem not_at_digit_nil : not_at_digit [] := by
  intro c h; simp at h

theorem not_at_digit_cons (c : Char) (rest : List Char) (h : is_digit c = false) :
    not_at_digit (c :: rest) := by
  intro x hx
  simp only [List.head?_cons, Option.some.injEq] at hx
  rw [← hx]; exact h

theorem is_identifier_char_colon : is_identifier_char ':' = false := by decide



/-- A bare type number is a type reference, when no `=` follows it. -/
theorem parse_type_fuel_type_reference (fuel : Nat) (symbol : StabsSymbol) (b : Int)
    (rest : List Char) (h0 : 0 ≤ b) (hb : b ≤ LONG_MAX) (hrest : not_at_digit rest)
    (heq : not_at '=' rest) :
    parse_type_fuel debugger (fuel + 1) symbol (decimal b ++ rest) = .ok (type_reference b, rest) := by
  obtain ⟨d, ds, hdec, hd⟩ := decimal_nonneg_cons b h0
  have hlit : eat_s64_literal (d :: (ds ++ rest)) = .ok (b, rest) := by
    have := eat_s64_literal_decimal b rest (by unfold LONG_MIN; omega) hb hrest
    simpa [hdec] using this
  have heq2 : ¬ rest.head? = some '=' := heq
  simp [parse_type_fuel, parse_type_primary, hdec, hd, hlit, bind, Except.bind, pure,
    Except.pure, heq2, type_reference]

theorem decimal_head_not (v : Int) (c : Char) (hc : is_digit c = false)
    (hm : c ≠ '-') : (decimal v).head? ≠ some c := by
  have hne := toDigits_ne_nil v.natAbs
  have hall := all_digit_toDigits v.natAbs
  unfold decimal
  split
  · simp only [List.head?_cons, ne_eq, Option.some.injEq]
    exact fun h => hm h.symm
  · cases hd : Nat.toDigits 10 v.natAbs with
    | nil => exact absurd hd hne
    | cons d ds =>
      have hdd : is_digit d = true := hall d (by rw [hd]; exact List.mem_cons_self _ _)
      simp only [List.head?_cons, ne_eq, Option.some.injEq]
      rintro rfl
      rw [hdd] at hc
      exact absurd hc (by decide)

theorem decimal_ne_nil (v : Int) : decimal v ≠ [] := by
  have hne := toDigits_ne_nil v.natAbs
  unfold decimal
  split
  · simp
  · exact hne

/-- A range over a type reference. -/
theorem parse_type_fuel_range (fuel : Nat) (symbol : StabsSymbol) (b lo hi : Int)
    (rest : List Char) (h0 : 0 ≤ b) (hb : b ≤ LONG_MAX)
    (hlo : LONG_MIN ≤ lo ∧ lo ≤ LONG_MAX) (hhi : LONG_MIN ≤ hi ∧ hi ≤ LONG_MAX)
    (heq : not_at '=' rest) :
    parse_type_fuel debugger (fuel + 1 + 1) symbol
        ('r' :: (decimal b ++ ';' :: (decimal lo ++ ';' :: (decimal hi ++ ';' :: rest)))) =
      .ok ({ StabsType.init StabsTypeDescriptor.RANGE with
              range_type := some (type_reference b), range_low := some lo,
              range_high := some hi }, rest) := by
  have hsemi : ∀ r, not_at_digit (';' :: r) := fun r => not_at_digit_cons _ _ (by decide)
  have hsemi2 : ∀ r, not_at '=' (';' :: r) := fun r => by simp [not_at]
  have h1 := @parse_type_fuel_type_reference debugger fuel symbol b
    (';' :: (decimal lo ++ ';' :: (decimal hi ++ ';' :: rest))) h0 hb (hsemi _) (hsemi2 _)
  have h2 := eat_s64_literal_decimal lo (';' :: (decimal hi ++ ';' :: rest)) hlo.1 hlo.2 (hsemi _)
  have h3 := eat_s64_literal_decimal hi (';' :: rest) hhi.1 hhi.2 (hsemi _)
  have heq2 : ¬ rest.head? = some '=' := heq
  rw [parse_type_fuel]
  simp [parse_type_primary, h1, h2, h3, expect_s8, bind, Except.bind, pure,
    Except.pure, heq2, is_digit, StabsTypeDescriptor.TYPE_REFERENCE, StabsTypeDescriptor.ARRAY,
    StabsTypeDescriptor.ENUM, StabsTypeDescriptor.FUNCTION, StabsTypeDescriptor.RANGE]


/-! ## Fuel: the parsers are total and their recursion is on shorter inputs -/

theorem remaining_list (input : List Char) : Remaining.remaining input = input := rfl

theorem remaining_pair {α β : Type} [Remaining β] (a : α) (b : β) :
    Remaining.remaining (a, b) = Remaining.remaining b := rfl

theorem Agrees.ok {γ : Type} [Remaining γ] {n : Nat} (c : γ)
    (h : (Remaining.remaining c).length < n) : Agrees n (.ok c) (.ok c) := by
  refine ⟨rfl, by simp, ?_⟩
  intro c' h'
  simp only [Except.ok.injEq] at h'
  rw [← h']; exact h

theorem Agrees.error {γ : Type} [Remaining γ] {n : Nat} (e : ParseError) (h : e ≠ .OutOfFuel) :
    Agrees (γ := γ) n (.error e) (.error e) := by
  refine ⟨rfl, ?_, ?_⟩
  · simpa using h
  · intro c h'; simp at h'

theorem Agrees.mono {γ : Type} [Remaining γ] {n m : Nat} {x1 x2 : Except ParseError γ}
    (h : Agrees n x1 x2) (hnm : n ≤ m) : Agrees m x1 x2 :=
  ⟨h.1, h.2.1, fun c hc => Nat.lt_of_lt_of_le (h.2.2 c hc) hnm⟩

theorem Agrees.same {γ : Type} [Remaining γ] {n : Nat} (x : Except ParseError γ)
    (hx : x ≠ .error .OutOfFuel) (h : ∀ c, x = .ok c → (Remaining.remaining c).length < n) :
    Agrees n x x := ⟨rfl, hx, h⟩

theorem Agrees.ite {α : Type} [Remaining α] {n : Nat} {c : Prop} [Decidable c]
    {a1 a2 b1 b2 : Except ParseError α}
    (ht : c → Agrees n a1 a2) (hf : ¬ c → Agrees n b1 b2) :
    Agrees n (if c then a1 else b1) (if c then a2 else b2) := by
  by_cases hc : c
  · simpa [hc] using ht hc
  · simpa [hc] using hf hc

/-- A step that does not depend on the parsers compared, followed by ones that do. -/
theorem Agrees.bind {α β : Type} [Remaining α] {n : Nat} (x : Except ParseError β)
    (f1 f2 : β → Except ParseError α) (hx : x ≠ .error .OutOfFuel)
    (h : ∀ b, x = .ok b → Agrees n (f1 b) (f2 b)) : Agrees n (x >>= f1) (x >>= f2) := by
  cases x with
  | error e =>
    have hb : ∀ f : β → Except ParseError α,
        (Except.error e >>= f) = Except.error e := fun _ => rfl
    rw [hb f1, hb f2]
    exact Agrees.error e (by simpa using hx)
  | ok b => exact h b rfl

/-- A call of one of the parsers compared, followed by further steps. -/
theorem Agrees.bind_call {α β : Type} [Remaining α] [Remaining β] {n k : Nat}
    {x1 x2 : Except ParseError β} (f1 f2 : β → Except ParseError α) (hx : Agrees k x1 x2)
    (h : ∀ b, x1 = .ok b → (Remaining.remaining b).length < k → Agrees n (f1 b) (f2 b)) :
    Agrees n (x1 >>= f1) (x2 >>= f2) := by
  obtain ⟨h12, hne, hlen⟩ := hx
  subst h12
  exact Agrees.bind x1 f1 f2 hne (fun b hb => h b hb (hlen b hb))

theorem eat_identifier_loop_ne_fuel (input : List Char) : ∀ (first : Bool) (identifier : List Char),
    eat_identifier_loop first identifier input ≠ .error .OutOfFuel := by
  induction input with
  | nil => intro first identifier; simp [eat_identifier_loop]
  | cons c input ih =>
    intro first identifier
    simp only [eat_identifier_loop]
    split
    · exact ih _ _
    · simp

theorem eat_identifier_ne_fuel (input : List Char) :
    eat_identifier input ≠ .error .OutOfFuel :=
  eat_identifier_loop_ne_fuel input true []

theorem eat_s64_literal_ne_fuel (input : List Char) :
    eat_s64_literal input ≠ .error .OutOfFuel := by
  by_cases hm : input.head? = some '-'
  · cases input with
    | nil => simp at hm
    | cons c input =>
      simp only [List.head?_cons, Option.some.injEq] at hm
      subst hm
      rw [eat_s64_literal_minus]
      split <;> simp
  · rw [eat_s64_literal_plain input hm]
    split
    · simp
    · split <;> simp

theorem expect_s8_ne_fuel (input : List Char) (c : Char) (s : String) :
    expect_s8 input c s ≠ .error .OutOfFuel := by
  cases input with
  | nil => simp [expect_s8]
  | cons x input =>
    simp only [expect_s8]
    split <;> simp

theorem eat_s8_ne_fuel (input : List Char) : eat_s8 input ≠ .error .OutOfFuel := by
  cases input <;> simp [eat_s8]

theorem scan_past_dot_ne_fuel (input : List Char) : scan_past_dot input ≠ .error .OutOfFuel := by
  induction input with
  | nil => simp [scan_past_dot]
  | cons c input ih =>
    simp only [scan_past_dot]
    split
    · simp
    · exact ih

theorem scan_past_dot_length (input : List Char) : ∀ rest, scan_past_dot input = .ok rest →
    rest.length < input.length := by
  induction input with
  | nil => intro rest h; simp [scan_past_dot] at h
  | cons c input ih =>
    intro rest h
    simp only [scan_past_dot] at h
    split at h
    · simp only [Except.ok.injEq] at h
      simp [h]
    · have := ih rest h
      simp only [List.length_cons]
      omega

theorem scan_past_pair_length (a b : Char) (input : List Char) : ∀ current,
    (scan_past_pair a b current input).length ≤ input.length := by
  induction input with
  | nil => intro current; simp [scan_past_pair]
  | cons c input ih =>
    intro current
    simp only [scan_past_pair]
    split
    · simp
    · have := ih c
      simp only [List.length_cons]
      omega

/-- The enum loop never runs out of the fuel `parse_type` gives it and never moves the
cursor backwards. -/
theorem parse_enum_fields_agrees (fuel : Nat) : ∀ (input : List Char)
    (fields : List (List Char × Int)), input.length < fuel →
    Agrees (input.length + 1) (parse_enum_fields fuel input fields)
      (parse_enum_fields fuel input fields) := by
  induction fuel with
  | zero => intro input fields h; omega
  | succ fuel ih =>
    intro input fields hlen
    simp only [parse_enum_fields]
    apply Agrees.ite
    · intro _
      exact Agrees.ok _ (by simp only [remaining_pair, remaining_list]; omega)
    · intro _
      apply Agrees.bind _ _ _ (eat_identifier_ne_fuel _)
      rintro ⟨name, r1⟩ h1
      have l1 := eat_identifier_length _ _ _ h1
      dsimp only
      apply Agrees.bind _ _ _ (expect_s8_ne_fuel _ _ _)
      intro r2 h2
      have l2 := expect_s8_length _ _ _ _ h2
      apply Agrees.bind _ _ _ (eat_s64_literal_ne_fuel _)
      rintro ⟨value, r3⟩ h3
      have l3 := eat_s64_literal_length _ _ _ h3
      dsimp only
      apply Agrees.bind _ _ _ (eat_s8_ne_fuel _)
      rintro ⟨c, r4⟩ h4
      have l4 := eat_s8_length _ _ _ h4
      dsimp only
      apply Agrees.ite
      · intro _
        exact (ih r4 _ (by omega)).mono (by omega)
      · intro _
        exact Agrees.error _ (by simp)

theorem expect_s8_agrees (input : List Char) (c : Char) (s : String) :
    Agrees input.length (expect_s8 input c s) (expect_s8 input c s) :=
  Agrees.same _ (expect_s8_ne_fuel _ _ _) (fun r h => by
    have := expect_s8_length _ _ _ _ h
    simp only [remaining_list]; omega)

theorem debugbreak_ne_fuel : __debugbreak debugger ≠ .error .OutOfFuel := by
  cases debugger <;> simp [__debugbreak]

theorem jsge_breakpoint_ne_fuel (symbol : StabsSymbol) :
    jsge_breakpoint debugger symbol ≠ .error .OutOfFuel := by
  unfold jsge_breakpoint
  split
  · exact debugbreak_ne_fuel
  · simp [pure, Except.pure]

/-- With a debugger attached the statement passes, whatever the name. -/
theorem jsge_breakpoint_attached (symbol : StabsSymbol) :
    jsge_breakpoint .attached symbol = .ok () := by
  unfold jsge_breakpoint
  split <;> rfl

/-- For a name other than `JSGE` the statement passes, however the process is run. -/
theorem jsge_breakpoint_of_ne (symbol : StabsSymbol) (h : symbol.name ≠ "JSGE".toList) :
    jsge_breakpoint debugger symbol = .ok () := by
  unfold jsge_breakpoint
  rw [if_neg h]
  rfl

/-- For the name `JSGE` and no debugger the statement is where the process ends. -/
theorem jsge_breakpoint_absent (symbol : StabsSymbol) (h : symbol.name = "JSGE".toList) :
    jsge_breakpoint .absent symbol = .error .Breakpoint := by
  unfold jsge_breakpoint
  rw [if_pos h]
  rfl

/-- The primary production calls the three parsers it is given on strictly shorter inputs
only, needs no fuel of its own and consumes at least one character. -/
theorem parse_type_primary_agrees
    (p1 p2 : List Char → Except ParseError (StabsType × List Char))
    (fl1 fl2 : List Char → Except ParseError (List StabsField × Bool × List Char))
    (ml1 ml2 : List Char → Except ParseError (List StabsMember × List Char))
    (s1 s2 : StabsSymbol) (input : List Char)
    (hs : jsge_breakpoint debugger s1 = jsge_breakpoint debugger s2)
    (hp : ∀ i, i.length < input.length → Agrees i.length (p1 i) (p2 i))
    (hfl : ∀ i, i.length < input.length → Agrees (i.length + 1) (fl1 i) (fl2 i))
    (hml : ∀ i, i.length < input.length → Agrees (i.length + 1) (ml1 i) (ml2 i)) :
    Agrees input.length (parse_type_primary debugger p1 fl1 ml1 s1 input)
      (parse_type_primary debugger p2 fl2 ml2 s2 input) := by
  cases input with
  | nil => exact Agrees.error _ (by simp)
  | cons c rest =>
    simp only [List.length_cons] at hp hfl hml ⊢
    simp only [parse_type_primary]
    by_cases hd : is_digit c = true
    · simp only [hd, if_true]
      apply Agrees.bind _ _ _ (eat_s64_literal_ne_fuel _)
      rintro ⟨v, r⟩ h
      dsimp only
      have l := eat_s64_literal_length _ _ _ h
      simp only [List.length_cons] at l
      exact Agrees.ok _ (by simp only [remaining_pair, remaining_list]; omega)
    · have hd' : is_digit c = false := by simpa using hd
      simp only [hd', Bool.false_eq_true, if_false]
      apply Agrees.ite <;> intro _
      · -- TYPE_REFERENCE
        apply Agrees.bind _ _ _ (eat_s64_literal_ne_fuel _)
        rintro ⟨v, r⟩ h
        dsimp only
        have l := eat_s64_literal_length _ _ _ h
        exact Agrees.ok _ (by simp only [remaining_pair, remaining_list]; omega)
      apply Agrees.ite <;> intro _
      · -- ARRAY
        apply Agrees.bind_call _ _ (hp rest (by omega))
        rintro ⟨t, r⟩ h l
        dsimp only
        simp only [remaining_pair, remaining_list] at l
        apply Agrees.bind_call _ _ (hp r (by omega))
        rintro ⟨t2, r2⟩ h2 l2
        dsimp only
        simp only [remaining_pair, remaining_list] at l2
        exact Agrees.ok _ (by simp only [remaining_pair, remaining_list]; omega)
      apply Agrees.ite <;> intro _
      · -- ENUM
        apply Agrees.bind_call _ _ (parse_enum_fields_agrees _ rest _ (by omega))
        rintro ⟨t, r⟩ h l
        dsimp only
        simp only [remaining_pair, remaining_list] at l
        exact Agrees.ok _ (by simp only [remaining_pair, remaining_list]; omega)
      apply Agrees.ite <;> intro _
      · -- FUNCTION
        apply Agrees.bind _ _ _ (eat_s64_literal_ne_fuel _)
        rintro ⟨v, r⟩ h
        dsimp only
        have l := eat_s64_literal_length _ _ _ h
        exact Agrees.ok _ (by simp only [remaining_pair, remaining_list]; omega)
      apply Agrees.ite <;> intro _
      · -- RANGE
        apply Agrees.bind_call _ _ (hp rest (by omega))
        rintro ⟨t, r⟩ h l
        dsimp only
        simp only [remaining_pair, remaining_list] at l
        apply Agrees.bind _ _ _ (expect_s8_ne_fuel _ _ _)
        intro r2 h2
        have l2 := expect_s8_length _ _ _ _ h2
        apply Agrees.bind _ _ _ (eat_s64_literal_ne_fuel _)
        rintro ⟨v3, r3⟩ h3
        dsimp only
        have l3 := eat_s64_literal_length _ _ _ h3
        apply Agrees.bind _ _ _ (expect_s8_ne_fuel _ _ _)
        intro r4 h4
        have l4 := expect_s8_length _ _ _ _ h4
        apply Agrees.bind _ _ _ (eat_s64_literal_ne_fuel _)
        rintro ⟨v5, r5⟩ h5
        dsimp only
        have l5 := eat_s64_literal_length _ _ _ h5
        apply Agrees.bind _ _ _ (expect_s8_ne_fuel _ _ _)
        intro r6 h6
        have l6 := expect_s8_length _ _ _ _ h6
        exact Agrees.ok _ (by simp only [remaining_pair, remaining_list]; omega)
      apply Agrees.ite <;> intro _
      · -- STRUCT
        apply Agrees.bind _ _ _ (eat_s64_literal_ne_fuel _)
        rintro ⟨v, r⟩ h
        dsimp only
        have l := eat_s64_literal_length _ _ _ h
        refine Agrees.bind_call (k := r.length + 1) _ _ ?_ ?_
        · apply Agrees.ite <;> intro hbang
          · have lt : r.tail.length < r.length := by
              cases r with
              | nil => simp at hbang
              | cons x r => simp
            apply Agrees.bind _ _ _ (eat_s64_literal_ne_fuel _)
            rintro ⟨v1, r1⟩ h1
            dsimp only
            have l1 := eat_s64_literal_length _ _ _ h1
            apply Agrees.bind _ _ _ (expect_s8_ne_fuel _ _ _)
            intro r2 h2
            have l2 := expect_s8_length _ _ _ _ h2
            apply Agrees.bind _ _ _ (eat_s64_literal_ne_fuel _)
            rintro ⟨v3, r3⟩ h3
            dsimp only
            have l3 := eat_s64_literal_length _ _ _ h3
            apply Agrees.bind _ _ _ (expect_s8_ne_fuel _ _ _)
            intro r4 h4
            have l4 := expect_s8_length _ _ _ _ h4
            apply Agrees.bind_call _ _ (hp r4 (by omega))
            rintro ⟨t5, r5⟩ h5 l5
            dsimp only
            simp only [remaining_pair, remaining_list] at l5
            exact (expect_s8_agrees _ _ _).mono (by omega)
          · exact Agrees.ok _ (by simp only [remaining_list]; omega)
        · intro r1 h1 l1
          simp only [remaining_list] at l1
          have hs2 : (if s1.name = "JSGE".toList then __debugbreak debugger else pure () :
              Except ParseError Unit) = jsge_breakpoint debugger s2 := hs
          rw [hs2]
          apply Agrees.bind _ _ _ (jsge_breakpoint_ne_fuel s2)
          intro _ _
          apply Agrees.bind_call _ _ (hfl r1 (by omega))
          rintro ⟨fields, iml, r2⟩ h2 l2
          dsimp only
          simp only [remaining_pair, remaining_list] at l2
          apply Agrees.ite <;> intro _
          · apply Agrees.bind_call _ _ (hml r2 (by omega))
            rintro ⟨members, r3⟩ h3 l3
            dsimp only
            simp only [remaining_pair, remaining_list] at l3
            exact Agrees.ok _ (by simp only [remaining_pair, remaining_list]; omega)
          · exact Agrees.ok _ (by simp only [remaining_pair, remaining_list]; omega)
      apply Agrees.ite <;> intro _
      · -- UNION
        apply Agrees.bind _ _ _ (eat_s64_literal_ne_fuel _)
        rintro ⟨v, r⟩ h
        dsimp only
        have l := eat_s64_literal_length _ _ _ h
        apply Agrees.bind_call _ _ (hfl r (by omega))
        rintro ⟨fields, iml, r2⟩ h2 l2
        dsimp only
        simp only [remaining_pair, remaining_list] at l2
        exact Agrees.ok _ (by simp only [remaining_pair, remaining_list]; omega)
      apply Agrees.ite <;> intro _
      · -- AMPERSAND
        apply Agrees.bind _ _ _ (eat_s64_literal_ne_fuel _)
        rintro ⟨v, r⟩ h
        dsimp only
        have l := eat_s64_literal_length _ _ _ h
        exact Agrees.ok _ (by simp only [remaining_pair, remaining_list]; omega)
      apply Agrees.ite <;> intro _
      · -- POINTER
        apply Agrees.bind_call _ _ (hp rest (by omega))
        rintro ⟨t, r⟩ h l
        dsimp only
        simp only [remaining_pair, remaining_list] at l
        exact Agrees.ok _ (by simp only [remaining_pair, remaining_list]; omega)
      apply Agrees.ite <;> intro _
      · -- SLASH
        apply Agrees.bind _ _ _ (eat_s64_literal_ne_fuel _)
        rintro ⟨v, r⟩ h
        dsimp only
        have l := eat_s64_literal_length _ _ _ h
        exact Agrees.ok _ (by simp only [remaining_pair, remaining_list]; omega)
      apply Agrees.ite <;> intro _
      · -- MEMBER
        apply Agrees.ite <;> intro _
        · exact Agrees.ok _ (by simp only [remaining_pair, remaining_list]; omega)
        · exact Agrees.error _ (by simp)
      apply Agrees.ite <;> intro _
      · -- METHOD
        apply Agrees.bind_call _ _ (hp rest (by omega))
        rintro ⟨t, r⟩ h l
        dsimp only
        simp only [remaining_pair, remaining_list] at l
        exact Agrees.ok _ (by simp only [remaining_pair, remaining_list]; omega)
      · -- an identifier and `:`
        apply Agrees.bind _ _ _ (eat_identifier_ne_fuel _)
        rintro ⟨v, r⟩ h
        dsimp only
        have l := eat_identifier_length _ _ _ h
        apply Agrees.bind _ _ _ (expect_s8_ne_fuel _ _ _)
        intro r2 h2
        have l2 := expect_s8_length _ _ _ _ h2
        exact Agrees.ok _ (by simp only [remaining_pair, remaining_list]; omega)

theorem tail_length_of_head (input : List Char) (c : Char) (h : input.head? = some c) :
    input.tail.length + 1 = input.length := by
  cases input with
  | nil => simp at h
  | cons x input => simp

/-- The three parsers, at any two fuels of at least `n` and for any two symbols that pass
the `JSGE` statement alike, agree on every input shorter than `n`: they do not run out of
fuel, `parse_type` consumes at least one character and the two lists never move the
cursor backwards. -/
theorem parse_fuel_agrees (n : Nat) : ∀ (s1 s2 : StabsSymbol),
    jsge_breakpoint debugger s1 = jsge_breakpoint debugger s2 →
    ∀ (f1 f2 : Nat), n ≤ f1 → n ≤ f2 →
    (∀ i, i.length < n → Agrees i.length (parse_type_fuel debugger f1 s1 i) (parse_type_fuel debugger f2 s2 i)) ∧
    (∀ i acc, i.length < n → Agrees (i.length + 1) (parse_field_list_fuel debugger f1 s1 i acc)
        (parse_field_list_fuel debugger f2 s2 i acc)) ∧
    (∀ i acc, i.length < n → Agrees (i.length + 1) (parse_member_list_fuel debugger f1 s1 i acc)
        (parse_member_list_fuel debugger f2 s2 i acc)) := by
  induction n with
  | zero =>
    intro s1 s2 _ f1 f2 _ _
    exact ⟨fun i h => absurd h (by omega), fun i _ h => absurd h (by omega),
      fun i _ h => absurd h (by omega)⟩
  | succ n ih =>
    intro s1 s2 hs f1 f2 h1 h2
    obtain ⟨g1, rfl⟩ : ∃ g1, f1 = g1 + 1 := ⟨f1 - 1, by omega⟩
    obtain ⟨g2, rfl⟩ : ∃ g2, f2 = g2 + 1 := ⟨f2 - 1, by omega⟩
    obtain ⟨iht, ihf, ihm⟩ := ih s1 s2 hs g1 g2 (by omega) (by omega)
    refine ⟨?_, ?_, ?_⟩
    · intro i hi
      simp only [parse_type_fuel]
      refine Agrees.bind_call _ _ (parse_type_primary_agrees _ _ _ _ _ _ s1 s2 i hs
        (fun j hj => iht j (by omega)) (fun j hj => ihf j [] (by omega))
        (fun j hj => ihm j [] (by omega))) ?_
      rintro ⟨t, r⟩ h l
      dsimp only
      simp only [remaining_pair, remaining_list] at l
      apply Agrees.ite <;> intro heq
      · have lt := tail_length_of_head _ _ heq
        apply Agrees.bind_call _ _ (iht r.tail (by omega))
        rintro ⟨t2, r2⟩ h2 l2
        dsimp only
        simp only [remaining_pair, remaining_list] at l2
        exact Agrees.ok _ (by simp only [remaining_pair, remaining_list]; omega)
      · exact Agrees.ok _ (by simp only [remaining_pair, remaining_list]; omega)
    · intro i acc hi
      simp only [parse_field_list_fuel]
      apply Agrees.ite <;> intro _
      · exact Agrees.ok _ (by simp only [remaining_pair, remaining_list]; omega)
      apply Agrees.bind _ _ _ (eat_identifier_ne_fuel _)
      rintro ⟨name, r1⟩ e1
      dsimp only
      have l1 := eat_identifier_length _ _ _ e1
      apply Agrees.bind _ _ _ (expect_s8_ne_fuel _ _ _)
      intro r2 e2
      have l2 := expect_s8_length _ _ _ _ e2
      apply Agrees.ite <;> intro _
      · have := scan_past_pair_length ';' ';' r2 (Char.ofNat 0)
        exact Agrees.ok _ (by simp only [remaining_pair, remaining_list]; omega)
      apply Agrees.bind_call _ _ (iht r2 (by omega))
      rintro ⟨type, r3⟩ e3 l3
      dsimp only
      simp only [remaining_pair, remaining_list] at l3
      refine Agrees.bind_call (k := r3.length + 1) _ _ ?_ ?_
      · apply Agrees.ite <;> intro _
        · apply Agrees.bind _ _ _ (expect_s8_ne_fuel _ _ _)
          intro r4 e4
          have l4 := expect_s8_length _ _ _ _ e4
          apply Agrees.bind _ _ _ (eat_s64_literal_ne_fuel _)
          rintro ⟨v5, r5⟩ e5
          dsimp only
          have l5 := eat_s64_literal_length _ _ _ e5
          apply Agrees.bind _ _ _ (expect_s8_ne_fuel _ _ _)
          intro r6 e6
          have l6 := expect_s8_length _ _ _ _ e6
          exact Agrees.ok _ (by simp only [remaining_pair, remaining_list]; omega)
        apply Agrees.ite <;> intro hc
        · have lt := tail_length_of_head _ _ hc
          apply Agrees.bind _ _ _ (eat_identifier_ne_fuel _)
          rintro ⟨v5, r5⟩ e5
          dsimp only
          have l5 := eat_identifier_length _ _ _ e5
          apply Agrees.bind _ _ _ (expect_s8_ne_fuel _ _ _)
          intro r6 e6
          have l6 := expect_s8_length _ _ _ _ e6
          exact Agrees.ok _ (by simp only [remaining_pair, remaining_list]; omega)
        apply Agrees.ite <;> intro hc
        · have lt := tail_length_of_head _ _ hc
          apply Agrees.bind _ _ _ (eat_s64_literal_ne_fuel _)
          rintro ⟨v5, r5⟩ e5
          dsimp only
          have l5 := eat_s64_literal_length _ _ _ e5
          apply Agrees.bind _ _ _ (expect_s8_ne_fuel _ _ _)
          intro r6 e6
          have l6 := expect_s8_length _ _ _ _ e6
          apply Agrees.bind _ _ _ (eat_s64_literal_ne_fuel _)
          rintro ⟨v7, r7⟩ e7
          dsimp only
          have l7 := eat_s64_literal_length _ _ _ e7
          apply Agrees.bind _ _ _ (expect_s8_ne_fuel _ _ _)
          intro r8 e8
          have l8 := expect_s8_length _ _ _ _ e8
          exact Agrees.ok _ (by simp only [remaining_pair, remaining_list]; omega)
        · apply Agrees.bind _ _ _ debugbreak_ne_fuel
          intro _ _
          have := scan_past_pair_length '2' 'A' r3 (Char.ofNat 0)
          exact Agrees.ok _ (by simp only [remaining_pair, remaining_list]; omega)
      · rintro ⟨field, r4⟩ e4 l4
        dsimp only
        simp only [remaining_pair, remaining_list] at l4
        apply Agrees.ite <;> intro hc
        · have lt := tail_length_of_head _ _ hc
          exact Agrees.ok _ (by simp only [remaining_pair, remaining_list]; omega)
        · exact (ihf r4 _ (by omega)).mono (by omega)
    · intro i acc hi
      simp only [parse_member_list_fuel]
      apply Agrees.ite <;> intro _
      · exact Agrees.ok _ (by simp only [remaining_pair, remaining_list]; omega)
      apply Agrees.bind _ _ _ (eat_identifier_ne_fuel _)
      rintro ⟨name, r1⟩ e1
      dsimp only
      have l1 := eat_identifier_length _ _ _ e1
      apply Agrees.bind _ _ _ (expect_s8_ne_fuel _ _ _)
      intro r2 e2
      have l2 := expect_s8_length _ _ _ _ e2
      refine Agrees.bind_call (k := r2.length + 1) _ _ ?_ ?_
      · apply Agrees.ite <;> intro _
        · apply Agrees.bind _ _ _ (expect_s8_ne_fuel _ _ _)
          intro r3 e3
          have l3 := expect_s8_length _ _ _ _ e3
          apply Agrees.bind_call _ _ (iht r3 (by omega))
          rintro ⟨t4, r4⟩ e4 l4
          dsimp only
          simp only [remaining_pair, remaining_list] at l4
          apply Agrees.bind _ _ _ (expect_s8_ne_fuel _ _ _)
          intro r5 e5
          have l5 := expect_s8_length _ _ _ _ e5
          apply Agrees.bind _ _ _ (expect_s8_ne_fuel _ _ _)
          intro r6 e6
          have l6 := expect_s8_length _ _ _ _ e6
          apply Agrees.bind _ _ _ (eat_identifier_ne_fuel _)
          rintro ⟨v7, r7⟩ e7
          dsimp only
          have l7 := eat_identifier_length _ _ _ e7
          exact Agrees.ok _ (by simp only [remaining_pair, remaining_list]; omega)
        · exact Agrees.ok _ (by simp only [remaining_pair, remaining_list]; omega)
      intro r3 e3 l3
      simp only [remaining_list] at l3
      apply Agrees.bind _ _ _ (expect_s8_ne_fuel _ _ _)
      intro r4 e4
      have l4 := expect_s8_length _ _ _ _ e4
      apply Agrees.bind _ _ _ (scan_past_dot_ne_fuel _)
      intro r5 e5
      have l5 := scan_past_dot_length _ _ e5
      refine Agrees.bind_call (k := r5.length + 1) _ _ ?_ ?_
      · apply Agrees.ite <;> intro _
        · apply Agrees.bind_call _ _ (iht r5 (by omega))
          rintro ⟨t6, r6⟩ e6 l6
          dsimp only
          simp only [remaining_pair, remaining_list] at l6
          apply Agrees.bind _ _ _ (expect_s8_ne_fuel _ _ _)
          intro r7 e7
          have l7 := expect_s8_length _ _ _ _ e7
          apply Agrees.bind _ _ _ (eat_identifier_ne_fuel _)
          rintro ⟨v8, r8⟩ e8
          dsimp only
          have l8 := eat_identifier_length _ _ _ e8
          apply Agrees.bind _ _ _ (expect_s8_ne_fuel _ _ _)
          intro r9 e9
          have l9 := expect_s8_length _ _ _ _ e9
          apply Agrees.bind _ _ _ (expect_s8_ne_fuel _ _ _)
          intro r10 e10
          have l10 := expect_s8_length _ _ _ _ e10
          apply Agrees.bind _ _ _ (scan_past_dot_ne_fuel _)
          intro r11 e11
          have l11 := scan_past_dot_length _ _ e11
          exact (expect_s8_agrees _ _ _).mono (by omega)
        · exact Agrees.ok _ (by simp only [remaining_list]; omega)
      intro r6 e6 l6
      simp only [remaining_list] at l6
      apply Agrees.bind _ _ _ (expect_s8_ne_fuel _ _ _)
      intro r7 e7
      have l7 := expect_s8_length _ _ _ _ e7
      apply Agrees.ite <;> intro hc
      · have lt := tail_length_of_head _ _ hc
        exact Agrees.ok _ (by simp only [remaining_pair, remaining_list]; omega)
      · exact (ihm r7 _ (by omega)).mono (by omega)

/-- A sequence of two steps that succeeds: the first step succeeded, and so did the rest
on its result. -/
theorem bind_eq_ok {α β : Type} (x : Except ParseError α) (f : α → Except ParseError β) (b : β)
    (h : x >>= f = Except.ok b) : ∃ a : α, x = Except.ok a ∧ f a = Except.ok b := by
  rcases x with e | a
  · have hb : (Except.error e >>= f) = Except.error e := rfl
    rw [hb] at h
    exact Except.noConfusion h
  · exact ⟨a, rfl, h⟩

theorem parse_type_fuel_eq (symbol : StabsSymbol) (input : List Char) (fuel : Nat)
    (h : input.length < fuel) : parse_type_fuel debugger fuel symbol input = parse_type debugger symbol input :=
  ((parse_fuel_agrees (input.length + 1) symbol symbol rfl fuel (input.length + 1) (by omega)
    (by omega)).1 input (by omega)).1

theorem parse_field_list_fuel_eq (symbol : StabsSymbol) (input : List Char) (fuel : Nat)
    (h : input.length < fuel) :
    parse_field_list_fuel debugger fuel symbol input [] = parse_field_list debugger symbol input :=
  ((parse_fuel_agrees (input.length + 1) symbol symbol rfl fuel (input.length + 1) (by omega)
    (by omega)).2.1 input [] (by omega)).1

theorem parse_member_list_fuel_eq (symbol : StabsSymbol) (input : List Char) (fuel : Nat)
    (h : input.length < fuel) :
    parse_member_list_fuel debugger fuel symbol input [] = parse_member_list debugger symbol input :=
  ((parse_fuel_agrees (input.length + 1) symbol symbol rfl fuel (input.length + 1) (by omega)
    (by omega)).2.2 input [] (by omega)).1

theorem parse_type_agrees (symbol : StabsSymbol) (input : List Char) :
    Agrees input.length (parse_type debugger symbol input) (parse_type debugger symbol input) :=
  (parse_fuel_agrees (input.length + 1) symbol symbol rfl _ _ (Nat.le_refl _) (Nat.le_refl _)).1
    input (by omega)

theorem parse_field_list_agrees (symbol : StabsSymbol) (input : List Char) :
    Agrees (input.length + 1) (parse_field_list debugger symbol input) (parse_field_list debugger symbol input) :=
  (parse_fuel_agrees (input.length + 1) symbol symbol rfl _ _ (Nat.le_refl _) (Nat.le_refl _)).2.1
    input [] (by omega)

theorem parse_member_list_agrees (symbol : StabsSymbol) (input : List Char) :
    Agrees (input.length + 1) (parse_member_list debugger symbol input)
      (parse_member_list debugger symbol input) :=
  (parse_fuel_agrees (input.length + 1) symbol symbol rfl _ _ (Nat.le_refl _) (Nat.le_refl _)).2.2
    input [] (by omega)

theorem parse_type_length (symbol : StabsSymbol) (input : List Char) (t : StabsType)
    (r : List Char) (h : parse_type debugger symbol input = .ok (t, r)) : r.length < input.length :=
  (parse_type_agrees symbol input).2.2 (t, r) h

/-- What `parse_type` does after the primary production, given the function its recursive
call goes to. -/
theorem parse_type_fuel_not_at_eq (fuel : Nat) : ∀ (symbol : StabsSymbol) (input : List Char)
    (t : StabsType) (r : List Char), parse_type_fuel debugger fuel symbol input = .ok (t, r) →
    not_at '=' r := by
  induction fuel with
  | zero => intro symbol input t r h; simp [parse_type_fuel] at h
  | succ fuel ih =>
    intro symbol input t r h
    simp only [parse_type_fuel] at h
    obtain ⟨⟨t0, r0⟩, _, h⟩ := bind_eq_ok _ _ _ h
    dsimp only at h
    split at h
    · obtain ⟨⟨t1, r1⟩, h1, h⟩ := bind_eq_ok _ _ _ h
      simp only [pure, Except.pure, Except.ok.injEq, Prod.mk.injEq] at h
      rw [← h.2]
      exact ih _ _ _ _ h1
    · rename_i hne
      simp only [pure, Except.pure, Except.ok.injEq, Prod.mk.injEq] at h
      rw [← h.2]
      exact hne

theorem parse_type_not_at_eq (symbol : StabsSymbol) (input : List Char) (t : StabsType)
    (r : List Char) (h : parse_type debugger symbol input = .ok (t, r)) : not_at '=' r :=
  parse_type_fuel_not_at_eq _ _ _ _ _ h

/-- The recursion equation of `parse_type`, free of fuel: the primary production with the
recursive calls going to the parsers themselves, then the auxiliary type after an `=`. -/
theorem parse_type_unfold (symbol : StabsSymbol) (input : List Char) :
    parse_type debugger symbol input =
      (parse_type_primary debugger (parse_type debugger symbol) (parse_field_list debugger symbol)
          (parse_member_list debugger symbol) symbol input >>= fun p =>
        if p.2.head? = some '=' then
          parse_type debugger symbol p.2.tail >>= fun q => pure ({ p.1 with aux_type := some q.1 }, q.2)
        else pure (p.1, p.2)) := by
  have hprim := @parse_type_primary_agrees debugger
    (parse_type_fuel debugger input.length symbol) (parse_type debugger symbol)
    (fun i => parse_field_list_fuel debugger input.length symbol i []) (parse_field_list debugger symbol)
    (fun i => parse_member_list_fuel debugger input.length symbol i []) (parse_member_list debugger symbol)
    symbol symbol input rfl
    (fun i hi => by
      rw [parse_type_fuel_eq symbol i _ hi]; exact parse_type_agrees symbol i)
    (fun i hi => by
      show Agrees _ (parse_field_list_fuel debugger input.length symbol i []) _
      rw [parse_field_list_fuel_eq symbol i _ hi]; exact parse_field_list_agrees symbol i)
    (fun i hi => by
      show Agrees _ (parse_member_list_fuel debugger input.length symbol i []) _
      rw [parse_member_list_fuel_eq symbol i _ hi]; exact parse_member_list_agrees symbol i)
  conv_lhs => rw [parse_type, parse_type_fuel]
  rw [hprim.1]
  have hlen := hprim.2.2
  rw [hprim.1] at hlen
  cases hp : parse_type_primary debugger (parse_type debugger symbol) (parse_field_list debugger symbol)
      (parse_member_list debugger symbol) symbol input with
  | error e => rfl
  | ok p =>
    obtain ⟨t0, r0⟩ := p
    have l0 := hlen (t0, r0) hp
    simp only [remaining_pair, remaining_list] at l0
    simp only [bind, Except.bind]
    by_cases heq : r0.head? = some '='
    · have lt := tail_length_of_head _ _ heq
      simp only [heq, if_true]
      rw [parse_type_fuel_eq symbol r0.tail _ (by omega)]
    · simp only [heq, if_false]

theorem aux_none_bind {α : Type} (x : Except ParseError α)
    (f : α → Except ParseError (StabsType × List Char))
    (h : ∀ a, ∀ t r, f a = .ok (t, r) → t.aux_type = none) :
    ∀ t r, x >>= f = .ok (t, r) → t.aux_type = none := by
  intro t r hx
  obtain ⟨a, _, ha⟩ := bind_eq_ok _ _ _ hx
  exact h a t r ha

theorem aux_none_ite {c : Prop} [Decidable c] {a b : Except ParseError (StabsType × List Char)}
    (ha : ∀ t r, a = .ok (t, r) → t.aux_type = none)
    (hb : ∀ t r, b = .ok (t, r) → t.aux_type = none) :
    ∀ t r, (if c then a else b) = .ok (t, r) → t.aux_type = none := by
  intro t r h
  split at h
  · exact ha t r h
  · exact hb t r h

theorem aux_none_pure (type : StabsType) (input : List Char) (h : type.aux_type = none) :
    ∀ t r, (pure (type, input) : Except ParseError (StabsType × List Char)) = .ok (t, r) →
      t.aux_type = none := by
  intro t r ht
  simp only [pure, Except.pure, Except.ok.injEq, Prod.mk.injEq] at ht
  rw [← ht.1]; exact h

theorem aux_none_error (e : ParseError) :
    ∀ t r, (Except.error e : Except ParseError (StabsType × List Char)) = .ok (t, r) →
      t.aux_type = none := by
  intro t r ht
  exact absurd ht (by simp)

/-- The primary production never sets the auxiliary type. -/
theorem parse_type_primary_aux_type
    (p : List Char → Except ParseError (StabsType × List Char))
    (fl : List Char → Except ParseError (List StabsField × Bool × List Char))
    (ml : List Char → Except ParseError (List StabsMember × List Char))
    (symbol : StabsSymbol) (input : List Char) :
    ∀ type rest, parse_type_primary debugger p fl ml symbol input = .ok (type, rest) →
      type.aux_type = none := by
  cases input with
  | nil => exact aux_none_error _
  | cons c input =>
    simp only [parse_type_primary]
    apply aux_none_ite
    · apply aux_none_bind; rintro ⟨a, r⟩; exact aux_none_pure _ _ rfl
    apply aux_none_ite
    · apply aux_none_bind; rintro ⟨a, r⟩; dsimp only
      apply aux_none_bind; rintro ⟨a2, r2⟩; exact aux_none_pure _ _ rfl
    apply aux_none_ite
    · apply aux_none_bind; rintro ⟨a, r⟩; exact aux_none_pure _ _ rfl
    apply aux_none_ite
    · apply aux_none_bind; rintro ⟨a, r⟩; exact aux_none_pure _ _ rfl
    apply aux_none_ite
    · apply aux_none_bind; rintro ⟨a, r⟩; dsimp only
      apply aux_none_bind; intro r2
      apply aux_none_bind; rintro ⟨a3, r3⟩; dsimp only
      apply aux_none_bind; intro r4
      apply aux_none_bind; rintro ⟨a5, r5⟩; dsimp only
      apply aux_none_bind; intro r6
      exact aux_none_pure _ _ rfl
    apply aux_none_ite
    · apply aux_none_bind; rintro ⟨a, r⟩; dsimp only
      apply aux_none_bind; intro r2
      apply aux_none_bind; intro _
      apply aux_none_bind; rintro ⟨fields, flag, r3⟩; dsimp only
      apply aux_none_ite
      · apply aux_none_bind; rintro ⟨members, r4⟩; exact aux_none_pure _ _ rfl
      · exact aux_none_pure _ _ rfl
    apply aux_none_ite
    · apply aux_none_bind; rintro ⟨a, r⟩; dsimp only
      apply aux_none_bind; rintro ⟨fields, flag, r3⟩; exact aux_none_pure _ _ rfl
    apply aux_none_ite
    · apply aux_none_bind; rintro ⟨a, r⟩; exact aux_none_pure _ _ rfl
    apply aux_none_ite
    · apply aux_none_bind; rintro ⟨a, r⟩; exact aux_none_pure _ _ rfl
    apply aux_none_ite
    · apply aux_none_bind; rintro ⟨a, r⟩; exact aux_none_pure _ _ rfl
    apply aux_none_ite
    · apply aux_none_ite
      · exact aux_none_pure _ _ rfl
      · exact aux_none_error _
    apply aux_none_ite
    · apply aux_none_bind; rintro ⟨a, r⟩; exact aux_none_pure _ _ rfl
    · apply aux_none_bind; rintro ⟨a, r⟩; dsimp only
      apply aux_none_bind; intro r2
      exact aux_none_pure _ _ rfl

theorem ne_fuel_bind {α β : Type} (x : Except ParseError α) (f : α → Except ParseError β)
    (hx : x ≠ .error .OutOfFuel) (h : ∀ a, x = .ok a → f a ≠ .error .OutOfFuel) :
    x >>= f ≠ .error .OutOfFuel := by
  cases x with
  | error e =>
    have hb : (Except.error e >>= f) = Except.error e := rfl
    rw [hb]
    simpa using hx
  | ok a => exact h a rfl

theorem ne_fuel_ite {α : Type} {c : Prop} [Decidable c] {a b : Except ParseError α}
    (ha : c → a ≠ .error .OutOfFuel) (hb : ¬ c → b ≠ .error .OutOfFuel) :
    (if c then a else b) ≠ .error .OutOfFuel := by
  split
  · exact ha ‹_›
  · exact hb ‹_›

/-! ## Field lists of bit-fields -/

theorem identifier_start_facts (c : Char) (h : is_identifier_start c = true) :
    is_identifier_char c = true ∧ is_digit c = false ∧ c ≠ '$' ∧ c ≠ ';' ∧ c ≠ '!' ∧ c ≠ ':' := by
  have e1 : c ≠ '$' := by rintro rfl; exact absurd h (by decide)
  have e2 : c ≠ ';' := by rintro rfl; exact absurd h (by decide)
  have e3 : c ≠ '!' := by rintro rfl; exact absurd h (by decide)
  have e4 : c ≠ ':' := by rintro rfl; exact absurd h (by decide)
  refine ⟨?_, ?_, e1, e2, e3, e4⟩
  · by_cases hu : c = '_'
    · subst hu; decide
    · simp only [is_identifier_start, Bool.or_eq_true, Bool.and_eq_true, decide_eq_true_eq,
        beq_iff_eq, hu, or_false] at h
      simp only [is_identifier_char, isprint, Bool.and_eq_true, decide_eq_true_eq, bne_iff_ne,
        ne_eq]
      refine ⟨⟨⟨?_, ?_⟩, e4⟩, e2⟩ <;> omega
  · by_cases hu : c = '_'
    · subst hu; decide
    · simp only [is_identifier_start, Bool.or_eq_true, Bool.and_eq_true, decide_eq_true_eq,
        beq_iff_eq, hu, or_false] at h
      simp only [is_digit, Bool.and_eq_false_iff, decide_eq_false_iff_not]
      omega

theorem plain_identifier_facts (name : List Char) (h : is_plain_identifier name = true) :
    (∀ x ∈ name, is_identifier_char x = true) ∧
    ∃ c cs, name = c :: cs ∧ is_identifier_start c = true := by
  cases name with
  | nil => simp [is_plain_identifier] at h
  | cons c cs =>
    simp only [is_plain_identifier, Bool.and_eq_true, List.all_eq_true, Bool.or_eq_true,
      beq_iff_eq] at h
    refine ⟨?_, c, cs, rfl, h.1⟩
    intro x hx
    rcases List.mem_cons.mp hx with rfl | hx
    · exact (identifier_start_facts _ h.1).1
    · rcases h.2 x hx with ha | hu
      · exact isalnum_identifier_char x ha
      · subst hu; decide

theorem bind_ok_eq {α β : Type} {x : Except ParseError α} {a : α}
    (f : α → Except ParseError β) (h : x = .ok a) : (x >>= f) = f a := by
  subst h; rfl

/-- One iteration of the field-list loop on a bit-field entry. -/
theorem parse_field_list_fuel_bit_field (fuel : Nat) (symbol : StabsSymbol) (e : BitFieldEntry)
    (tail : List Char) (fields : List StabsField) (he : e.well_formed) :
    parse_field_list_fuel debugger (fuel + 1 + 1) symbol (e.text ++ tail) fields =
      if tail.head? = some ';' then .ok (fields ++ [e.field], false, tail.tail)
      else parse_field_list_fuel debugger (fuel + 1) symbol tail (fields ++ [e.field]) := by
  obtain ⟨hname, href0, href1, hoff0, hoff1, hsz0, hsz1⟩ := he
  obtain ⟨hall, c, cs, hcs, hstart⟩ := plain_identifier_facts e.name hname
  obtain ⟨_, _, hdollar, _, _, _⟩ := identifier_start_facts c hstart
  have hdol : ¬ e.name.head? = some '$' := by
    rw [hcs]; simpa using hdollar
  have htext : e.text ++ tail = e.name ++ ':' :: (decimal e.ref ++ ',' :: (decimal e.offset ++
      ',' :: (decimal e.size ++ ';' :: tail))) := by
    simp [BitFieldEntry.text]
  have hne : e.name ++ ':' :: (decimal e.ref ++ ',' :: (decimal e.offset ++
      ',' :: (decimal e.size ++ ';' :: tail))) ≠ [] := by simp
  have h1 := eat_identifier_append e.name ':' (decimal e.ref ++ ',' :: (decimal e.offset ++
      ',' :: (decimal e.size ++ ';' :: tail))) hall is_identifier_char_colon
  have h2 : expect_s8 (':' :: (decimal e.ref ++ ',' :: (decimal e.offset ++
      ',' :: (decimal e.size ++ ';' :: tail)))) ':' "identifier" = .ok (decimal e.ref ++ ',' ::
      (decimal e.offset ++ ',' :: (decimal e.size ++ ';' :: tail))) := by simp [expect_s8]
  have h3 : ¬ (decimal e.ref ++ ',' :: (decimal e.offset ++
      ',' :: (decimal e.size ++ ';' :: tail))).head? = some ':' := by
    have := decimal_head_not e.ref ':' (by decide) (by decide)
    have hn := decimal_ne_nil e.ref
    cases hd : decimal e.ref with
    | nil => exact absurd hd hn
    | cons d ds => rw [hd] at this; simpa using this
  have h4 := @parse_type_fuel_type_reference debugger fuel symbol e.ref (',' :: (decimal e.offset ++
      ',' :: (decimal e.size ++ ';' :: tail))) href0 href1 (not_at_digit_cons _ _ (by decide))
      (by simp [not_at])
  have h5 := eat_s64_literal_decimal e.offset (',' :: (decimal e.size ++ ';' :: tail)) hoff0 hoff1
      (not_at_digit_cons _ _ (by decide))
  have h6 := eat_s64_literal_decimal e.size (';' :: tail) hsz0 hsz1
      (not_at_digit_cons _ _ (by decide))
  rw [htext, parse_field_list_fuel]
  simp only [hne, if_false]
  rw [bind_ok_eq _ h1]
  dsimp only
  rw [bind_ok_eq _ h2]
  simp only [h3, if_false]
  rw [bind_ok_eq _ h4]
  dsimp only
  simp only [hdol, if_false, List.head?_cons, Option.some.injEq, List.tail_cons]
  simp [h5, h6, expect_s8, bind, Except.bind, pure, Except.pure, BitFieldEntry.field]

theorem bit_field_text_head (e : BitFieldEntry) (tail : List Char) (he : e.well_formed) :
    ∃ c rest, e.text ++ tail = c :: rest ∧ is_identifier_start c = true := by
  obtain ⟨_, c, cs, hcs, hstart⟩ := plain_identifier_facts e.name he.1
  rw [BitFieldEntry.text, hcs]
  exact ⟨c, _, rfl, hstart⟩

/-- The field-list loop on a non-empty list of bit-field entries closed by `;`. -/
theorem parse_field_list_fuel_bit_fields (es : List BitFieldEntry) :
    ∀ (e : BitFieldEntry) (fuel : Nat) (symbol : StabsSymbol) (rest : List Char)
      (fields : List StabsField), (∀ x ∈ e :: es, x.well_formed) → es.length + 1 < fuel →
    parse_field_list_fuel debugger fuel symbol (bit_fields_text (e :: es) ++ ';' :: rest) fields =
      .ok (fields ++ (e :: es).map BitFieldEntry.field, false, rest) := by
  induction es with
  | nil =>
    intro e fuel symbol rest fields hwf hfuel
    obtain ⟨g, rfl⟩ : ∃ g, fuel = g + 1 + 1 := ⟨fuel - 2, by simp at hfuel; omega⟩
    have := @parse_field_list_fuel_bit_field debugger g symbol e (';' :: rest) fields
      (hwf e (List.mem_cons_self _ _))
    simpa [bit_fields_text] using this
  | cons e' es ih =>
    intro e fuel symbol rest fields hwf hfuel
    obtain ⟨g, rfl⟩ : ∃ g, fuel = g + 1 + 1 := ⟨fuel - 2, by simp at hfuel; omega⟩
    have hstep := @parse_field_list_fuel_bit_field debugger g symbol e
      (bit_fields_text (e' :: es) ++ ';' :: rest) fields (hwf e (List.mem_cons_self _ _))
    obtain ⟨c, tl, htl, hstart⟩ := bit_field_text_head e' (bit_fields_text es ++ ';' :: rest)
      (hwf e' (List.mem_cons_of_mem _ (List.mem_cons_self _ _)))
    have hsemi := (identifier_start_facts c hstart).2.2.2.1
    have hhead : ¬ (bit_fields_text (e' :: es) ++ ';' :: rest).head? = some ';' := by
      have : bit_fields_text (e' :: es) ++ ';' :: rest = c :: tl := by
        rw [← htl]; simp [bit_fields_text]
      rw [this]; simpa using hsemi
    have hrec := ih e' (g + 1) symbol rest (fields ++ [e.field])
      (fun x hx => hwf x (List.mem_cons_of_mem _ hx)) (by simp at hfuel ⊢; omega)
    have hshape : bit_fields_text (e :: e' :: es) ++ ';' :: rest =
        e.text ++ (bit_fields_text (e' :: es) ++ ';' :: rest) := by
      simp [bit_fields_text]
    rw [hshape, hstep, if_neg hhead, hrec]
    simp

/-- A struct of bit-fields. -/
theorem parse_type_struct_bit_fields (symbol : StabsSymbol) (k : Int) (e : BitFieldEntry)
    (es : List BitFieldEntry) (rest : List Char) (hk : LONG_MIN ≤ k ∧ k ≤ LONG_MAX)
    (hwf : ∀ x ∈ e :: es, x.well_formed) (hrest : not_at '=' rest)
    (hbp : jsge_breakpoint debugger symbol = .ok ()) :
    parse_type debugger symbol
        ('s' :: (decimal k ++ (bit_fields_text (e :: es) ++ ';' :: rest))) =
      .ok ({ StabsType.init StabsTypeDescriptor.STRUCT with
              struct_type_number := some k,
              struct_fields := (e :: es).map BitFieldEntry.field }, rest) := by
  obtain ⟨c, tl, htl, hstart⟩ := bit_field_text_head e (bit_fields_text es ++ ';' :: rest)
    (hwf e (List.mem_cons_self _ _))
  obtain ⟨_, hdig, _, _, hbang, _⟩ := identifier_start_facts c hstart
  have hshape : bit_fields_text (e :: es) ++ ';' :: rest = c :: tl := by
    rw [← htl]; simp [bit_fields_text]
  have hlit := eat_s64_literal_decimal k (bit_fields_text (e :: es) ++ ';' :: rest) hk.1 hk.2
    (by rw [hshape]; exact not_at_digit_cons _ _ hdig)
  have hbang' : ¬ (bit_fields_text (e :: es) ++ ';' :: rest).head? = some '!' := by
    rw [hshape]; simpa using hbang
  have hfl : parse_field_list debugger symbol (bit_fields_text (e :: es) ++ ';' :: rest) =
      .ok ((e :: es).map BitFieldEntry.field, false, rest) := by
    rw [← parse_field_list_fuel_eq symbol _
      ((bit_fields_text (e :: es) ++ ';' :: rest).length + es.length + 2) (by omega)]
    have := @parse_field_list_fuel_bit_fields debugger es e
      ((bit_fields_text (e :: es) ++ ';' :: rest).length + es.length + 2) symbol rest [] hwf
      (by omega)
    simpa using this
  have heq : ¬ rest.head? = some '=' := hrest
  have d0 : is_digit 's' = false := rfl
  have d1 : ¬ ('s' : Char) = StabsTypeDescriptor.TYPE_REFERENCE := by decide
  have d2 : ¬ ('s' : Char) = StabsTypeDescriptor.ARRAY := by decide
  have d3 : ¬ ('s' : Char) = StabsTypeDescriptor.ENUM := by decide
  have d4 : ¬ ('s' : Char) = StabsTypeDescriptor.FUNCTION := by decide
  have d5 : ¬ ('s' : Char) = StabsTypeDescriptor.RANGE := by decide
  have d6 : ('s' : Char) = StabsTypeDescriptor.STRUCT := rfl
  rw [parse_type_unfold]
  simp only [parse_type_primary, d0, Bool.false_eq_true, if_false, d1, d2, d3, d4, d5]
  simp only [← d6, if_true]
  rw [bind_ok_eq _ hlit]
  have hbp' : (if symbol.name = "JSGE".toList then __debugbreak debugger else pure () :
      Except ParseError Unit) = .ok () := hbp
  simp only [hbang', if_false, hbp']
  simp only [pure, Except.pure, bind, Except.bind, hfl, heq, Bool.false_eq_true, if_false]

/-- The struct production with a field list of bit-fields, for a symbol at which the
`JSGE` statement ends the process: `parse_type` ends there. -/
theorem parse_type_struct_breakpoint (symbol : StabsSymbol) (k : Int) (e : BitFieldEntry)
    (es : List BitFieldEntry) (rest : List Char) (hk : LONG_MIN ≤ k ∧ k ≤ LONG_MAX)
    (hwf : ∀ x ∈ e :: es, x.well_formed)
    (hbp : jsge_breakpoint debugger symbol = .error .Breakpoint) :
    parse_type debugger symbol
        ('s' :: (decimal k ++ (bit_fields_text (e :: es) ++ ';' :: rest))) =
      .error .Breakpoint := by
  obtain ⟨c, tl, htl, hstart⟩ := bit_field_text_head e (bit_fields_text es ++ ';' :: rest)
    (hwf e (List.mem_cons_self _ _))
  obtain ⟨_, hdig, _, _, hbang, _⟩ := identifier_start_facts c hstart
  have hshape : bit_fields_text (e :: es) ++ ';' :: rest = c :: tl := by
    rw [← htl]; simp [bit_fields_text]
  have hlit := eat_s64_literal_decimal k (bit_fields_text (e :: es) ++ ';' :: rest) hk.1 hk.2
    (by rw [hshape]; exact not_at_digit_cons _ _ hdig)
  have hbang' : ¬ (bit_fields_text (e :: es) ++ ';' :: rest).head? = some '!' := by
    rw [hshape]; simpa using hbang
  have d0 : is_digit 's' = false := rfl
  have d1 : ¬ ('s' : Char) = StabsTypeDescriptor.TYPE_REFERENCE := by decide
  have d2 : ¬ ('s' : Char) = StabsTypeDescriptor.ARRAY := by decide
  have d3 : ¬ ('s' : Char) = StabsTypeDescriptor.ENUM := by decide
  have d4 : ¬ ('s' : Char) = StabsTypeDescriptor.FUNCTION := by decide
  have d5 : ¬ ('s' : Char) = StabsTypeDescriptor.RANGE := by decide
  have d6 : ('s' : Char) = StabsTypeDescriptor.STRUCT := rfl
  rw [parse_type_unfold]
  simp only [parse_type_primary, d0, Bool.false_eq_true, if_false, d1, d2, d3, d4, d5]
  simp only [← d6, if_true]
  rw [bind_ok_eq _ hlit]
  have hbp' : (if symbol.name = "JSGE".toList then __debugbreak debugger else pure () :
      Except ParseError Unit) = .error .Breakpoint := hbp
  simp only [hbang', if_false, hbp']
  rfl

/-! ## Enums -/


theorem enum_text_length (entries : List (List Char × Int)) :
    entries.length ≤ (enum_text entries).length := by
  induction entries with
  | nil => simp [enum_text]
  | cons e es ih => simp [enum_text]; omega

/-- The enum loop collects the entries of the text in input order and stops at the `;`. -/
theorem parse_enum_fields_text (entries : List (List Char × Int)) :
    ∀ (fuel : Nat) (fields : List (List Char × Int)) (rest : List Char),
    (∀ e ∈ entries, (∀ x ∈ e.1, is_identifier_char x = true) ∧ LONG_MIN ≤ e.2 ∧ e.2 ≤ LONG_MAX) →
    entries.length < fuel →
    parse_enum_fields fuel (enum_text entries ++ ';' :: rest) fields =
      .ok (fields ++ entries, ';' :: rest) := by
  induction entries with
  | nil =>
    intro fuel fields rest _ hfuel
    obtain ⟨g, rfl⟩ : ∃ g, fuel = g + 1 := ⟨fuel - 1, by simp at hfuel; omega⟩
    simp [parse_enum_fields, enum_text]
  | cons e es ih =>
    intro fuel fields rest hwf hfuel
    obtain ⟨g, rfl⟩ : ∃ g, fuel = g + 1 := ⟨fuel - 1, by simp at hfuel; omega⟩
    obtain ⟨hname, hlo, hhi⟩ := hwf e (List.mem_cons_self _ _)
    have hshape : enum_text (e :: es) ++ ';' :: rest =
        e.1 ++ ':' :: (decimal e.2 ++ ',' :: (enum_text es ++ ';' :: rest)) := by
      simp [enum_text]
    have hhead : ¬ (e.1 ++ ':' :: (decimal e.2 ++ ',' :: (enum_text es ++ ';' :: rest))).head?
        = some ';' := by
      cases hn : e.1 with
      | nil => simp
      | cons c cs =>
        have hc := hname c (by rw [hn]; exact List.mem_cons_self _ _)
        have : c ≠ ';' := by rintro rfl; exact absurd hc (by decide)
        simpa using this
    have h1 := eat_identifier_append e.1 ':' (decimal e.2 ++ ',' :: (enum_text es ++ ';' :: rest))
      hname is_identifier_char_colon
    have h2 : expect_s8 (':' :: (decimal e.2 ++ ',' :: (enum_text es ++ ';' :: rest))) ':'
        "identifier" = .ok (decimal e.2 ++ ',' :: (enum_text es ++ ';' :: rest)) := by
      simp [expect_s8]
    have h3 := eat_s64_literal_decimal e.2 (',' :: (enum_text es ++ ';' :: rest)) hlo hhi
      (not_at_digit_cons _ _ (by decide))
    have h4 : eat_s8 (',' :: (enum_text es ++ ';' :: rest)) =
        .ok (',', enum_text es ++ ';' :: rest) := rfl
    rw [hshape, parse_enum_fields]
    simp only [hhead, if_false]
    rw [bind_ok_eq _ h1]
    dsimp only
    rw [bind_ok_eq _ h2, bind_ok_eq _ h3]
    dsimp only
    rw [bind_ok_eq _ h4]
    dsimp only
    simp only [if_true]
    rw [ih g _ rest (fun x hx => hwf x (List.mem_cons_of_mem _ hx)) (by simp at hfuel; omega)]
    simp

theorem sort_enum_fields_sorted (fields : List (List Char × Int)) :
    (sort_enum_fields fields).Pairwise (fun f1 f2 => f1.2 ≤ f2.2) :=
  List.sorted_insertionSort enum_value_le fields

theorem sort_enum_fields_perm (fields : List (List Char × Int)) :
    (sort_enum_fields fields).Perm fields :=
  List.perm_insertionSort enum_value_le fields

/-! ## Literals, identifiers, member lists and field shapes -/

theorem digits_value_eq_denoted (digits : List Char) :
    digits_value digits = denoted_value digits := by
  induction digits using List.reverseRecOn with
  | nil => simp [digits_value, denoted_value]
  | append_singleton ds d ih =>
    simp only [digits_value, denoted_value] at ih ⊢
    simp only [List.foldl_append, List.foldl_cons, List.foldl_nil, List.map_append,
      List.map_cons, List.map_nil, List.reverse_append, List.reverse_cons, List.reverse_nil,
      List.nil_append, List.singleton_append, Nat.ofDigits_cons, ih]
    omega

theorem takeWhile_digit_nil_iff (input : List Char) :
    input.takeWhile is_digit = [] ↔ not_at_digit input := by
  cases input with
  | nil => simp [not_at_digit]
  | cons c input =>
    by_cases hc : is_digit c = true
    · simp [List.takeWhile, hc, not_at_digit]
    · simp [List.takeWhile, hc, not_at_digit]

theorem takeWhile_digit_head (input : List Char) :
    (input.takeWhile is_digit).head? ≠ some '-' := by
  cases input with
  | nil => simp
  | cons c input =>
    by_cases hc : is_digit c = true
    · simp only [List.takeWhile, hc, List.head?_cons, ne_eq, Option.some.injEq]
      rintro rfl
      exact absurd hc (by decide)
    · simp [List.takeWhile, hc]

/-- What `eat_s64_literal` does, with `std::stol` spelled out. -/
theorem eat_s64_literal_eq (input : List Char) :
    eat_s64_literal input =
      if (after_sign input).takeWhile is_digit = [] then
        (if input.head? = some '-' then .error .InvalidArgument else .error .MalformedLiteral)
      else
        .ok (if LONG_MIN ≤ (if input.head? = some '-' then
                  -(digits_value ((after_sign input).takeWhile is_digit) : Int)
                else (digits_value ((after_sign input).takeWhile is_digit) : Int)) ∧
                (if input.head? = some '-' then
                  -(digits_value ((after_sign input).takeWhile is_digit) : Int)
                else (digits_value ((after_sign input).takeWhile is_digit) : Int)) ≤ LONG_MAX
              then (if input.head? = some '-' then
                  -(digits_value ((after_sign input).takeWhile is_digit) : Int)
                else (digits_value ((after_sign input).takeWhile is_digit) : Int))
              else 0,
          (after_sign input).dropWhile is_digit) := by
  by_cases hm : input.head? = some '-'
  · cases input with
    | nil => simp at hm
    | cons c input =>
      simp only [List.head?_cons, Option.some.injEq] at hm
      subst hm
      rw [eat_s64_literal_minus]
      simp only [after_sign, List.head?_cons, if_true, List.tail_cons]
      by_cases hnil : input.takeWhile is_digit = []
      · simp [stol, hnil]
      · by_cases hr : LONG_MIN ≤ -(digits_value (input.takeWhile is_digit) : Int) ∧
            -(digits_value (input.takeWhile is_digit) : Int) ≤ LONG_MAX
        · simp [stol, hnil, hr]
        · simp [stol, hnil, hr]
  · rw [eat_s64_literal_plain input hm]
    simp only [after_sign, hm, if_false]
    by_cases hnil : input.takeWhile is_digit = []
    · simp [hnil]
    · have hh := takeWhile_digit_head input
      by_cases hr : LONG_MIN ≤ (digits_value (input.takeWhile is_digit) : Int) ∧
          (digits_value (input.takeWhile is_digit) : Int) ≤ LONG_MAX
      · simp [stol, hnil, hr, hh]
      · simp [stol, hnil, hr, hh]

theorem after_sign_sign_digits (negative : Bool) (digits rest : List Char)
    (hne : digits ≠ []) (hd : ∀ c ∈ digits, is_digit c = true) :
    ((if negative then ['-'] else []) ++ digits ++ rest).head? = some '-' ↔ negative = true := by
  cases negative with
  | true => simp
  | false =>
    cases digits with
    | nil => exact absurd rfl hne
    | cons d ds =>
      have hdd := hd d (List.mem_cons_self _ _)
      have : d ≠ '-' := by rintro rfl; exact absurd hdd (by decide)
      simpa using this

theorem eat_identifier_valid_char (first : Bool) (c : Char) :
    ((isprint c && c != ':' && c != ';') || (!first && isalnum c)) = is_identifier_char c := by
  by_cases h : is_identifier_char c = true
  · have h2 : (isprint c && c != ':' && c != ';') = true := h
    rw [h, h2, Bool.true_or]
  · have h1 : is_identifier_char c = false := by simpa using h
    have h2 : (isprint c && c != ':' && c != ';') = false := h1
    have h3 : isalnum c = false := by
      by_contra hc
      have := isalnum_identifier_char c (by simpa using hc)
      rw [h1] at this
      exact absurd this (by decide)
    rw [h1, h2, h3]
    simp

/-- What `eat_identifier` does: it fails at the end of the input when every character is an
identifier character, and otherwise splits the input at the first one that is not. -/
theorem eat_identifier_loop_eq (input : List Char) : ∀ (first : Bool) (identifier : List Char),
    eat_identifier_loop first identifier input =
      if input.all is_identifier_char = true then .error .UnexpectedEndOfInput
      else .ok (identifier ++ input.takeWhile is_identifier_char,
        input.dropWhile is_identifier_char) := by
  induction input with
  | nil => intro first identifier; rfl
  | cons c input ih =>
    intro first identifier
    simp only [eat_identifier_loop, eat_identifier_valid_char]
    by_cases hc : is_identifier_char c = true
    · simp only [hc, if_true, ih, List.all_cons, Bool.true_and, List.takeWhile_cons,
        List.dropWhile_cons]
      split
      · rfl
      · simp
    · have hc' : is_identifier_char c = false := by simpa using hc
      simp [hc', List.takeWhile, List.dropWhile]

/-- A descriptor letter is consumed and the rest of the symbol is parsed after it. -/
theorem parse_stabs_symbol_after_letter (name : List Char) (d : Char) (rest : List Char)
    (hname : ∀ x ∈ name, is_identifier_char x = true) (hd : d ∈ symbol_descriptor_letters) :
    parse_stabs_symbol debugger (name ++ ':' :: d :: rest) =
      parse_stabs_symbol_after_descriptor debugger name d rest := by
  have hid := eat_identifier_append name ':' (d :: rest) hname is_identifier_char_colon
  have hdig : is_digit d = false := by
    simp only [symbol_descriptor_letters, List.mem_cons, List.mem_singleton,
      List.not_mem_nil, or_false] at hd
    rcases hd with h | h | h | h | h | h | h | h | h | h | h <;> subst h <;> decide
  have hk : d ∈ known_symbol_descriptors := by
    simp only [symbol_descriptor_letters, List.mem_cons, List.mem_singleton,
      List.not_mem_nil, or_false] at hd
    rcases hd with h | h | h | h | h | h | h | h | h | h | h <;> subst h <;> decide
  simp [parse_stabs_symbol, parse_stabs_symbol_after_descriptor, hid, expect_s8, hdig, bind,
    Except.bind, pure, Except.pure, validate_symbol_descriptor, hk, eat_s8]

/-- The field-list loop never reports a member list: its flag is `false` on every success. -/
theorem parse_field_list_fuel_flag (fuel : Nat) : ∀ (symbol : StabsSymbol) (input : List Char)
    (fields out : List StabsField) (flag : Bool) (r : List Char),
    parse_field_list_fuel debugger fuel symbol input fields = Except.ok (out, flag, r) →
    flag = false := by
  induction fuel with
  | zero => intro symbol input fields out flag r h; simp [parse_field_list_fuel] at h
  | succ fuel ih =>
    intro symbol input fields out flag r h
    simp only [parse_field_list_fuel] at h
    split at h
    · simp only [Except.ok.injEq, Prod.mk.injEq] at h
      exact h.2.1.symm
    · obtain ⟨⟨name, r1⟩, _, h⟩ := bind_eq_ok _ _ _ h
      dsimp only at h
      obtain ⟨r2, _, h⟩ := bind_eq_ok _ _ _ h
      split at h
      · simp only [Except.ok.injEq, Prod.mk.injEq] at h
        exact h.2.1.symm
      · obtain ⟨⟨type, r3⟩, _, h⟩ := bind_eq_ok _ _ _ h
        dsimp only at h
        obtain ⟨⟨field, r4⟩, _, h⟩ := bind_eq_ok _ _ _ h
        dsimp only at h
        split at h
        · simp only [Except.ok.injEq, Prod.mk.injEq] at h
          exact h.2.1.symm
        · exact ih _ _ _ _ _ _ h

/-- A struct never gets members: the flag that guards `parse_member_list` is never set. -/
theorem parse_type_struct_members (symbol : StabsSymbol) (input : List Char) (t : StabsType)
    (r : List Char) (h : parse_type debugger symbol ('s' :: input) = Except.ok (t, r)) :
    t.struct_members = [] := by
  have d0 : is_digit 's' = false := rfl
  have d1 : ¬ ('s' : Char) = StabsTypeDescriptor.TYPE_REFERENCE := by decide
  have d2 : ¬ ('s' : Char) = StabsTypeDescriptor.ARRAY := by decide
  have d3 : ¬ ('s' : Char) = StabsTypeDescriptor.ENUM := by decide
  have d4 : ¬ ('s' : Char) = StabsTypeDescriptor.FUNCTION := by decide
  have d5 : ¬ ('s' : Char) = StabsTypeDescriptor.RANGE := by decide
  have d6 : ('s' : Char) = StabsTypeDescriptor.STRUCT := rfl
  rw [parse_type_unfold] at h
  obtain ⟨⟨t0, r0⟩, h0, h⟩ := bind_eq_ok _ _ _ h
  have ht0 : t0.struct_members = [] := by
    simp only [parse_type_primary, d0, Bool.false_eq_true, if_false, d1, d2, d3, d4, d5] at h0
    simp only [← d6, if_true] at h0
    obtain ⟨⟨k, r1⟩, _, h0⟩ := bind_eq_ok _ _ _ h0
    dsimp only at h0
    obtain ⟨r2, _, h0⟩ := bind_eq_ok _ _ _ h0
    obtain ⟨_, _, h0⟩ := bind_eq_ok _ _ _ h0
    obtain ⟨⟨fields, flag, r3⟩, hfl, h0⟩ := bind_eq_ok _ _ _ h0
    dsimp only at h0
    have hflag : flag = false := parse_field_list_fuel_flag _ _ _ _ _ _ _ hfl
    subst hflag
    simp only [Bool.false_eq_true, if_false, pure, Except.pure, Except.ok.injEq,
      Prod.mk.injEq] at h0
    rw [← h0.1]
    rfl
  dsimp only at h
  split at h
  · obtain ⟨⟨aux, r1⟩, _, h⟩ := bind_eq_ok _ _ _ h
    simp only [pure, Except.pure, Except.ok.injEq, Prod.mk.injEq] at h
    rw [← h.1]
    exact ht0
  · simp only [pure, Except.pure, Except.ok.injEq, Prod.mk.injEq] at h
    rw [← h.1]
    exact ht0

/-- The struct case of the primary production once the type number is read and the
base-class preamble, if any, is behind: the field list and what follows it. -/
theorem parse_type_primary_struct (symbol : StabsSymbol) (input : List Char) :
    parse_type_primary debugger (parse_type debugger symbol)
        (parse_field_list debugger symbol) (parse_member_list debugger symbol)
        symbol ('s' :: input) =
      (eat_s64_literal input >>= fun p =>
        (if p.2.head? = some '!' then
            eat_s64_literal p.2.tail >>= fun a =>
            expect_s8 a.2 ',' "!" >>= fun i1 =>
            eat_s64_literal i1 >>= fun b =>
            expect_s8 b.2 ',' "!" >>= fun i2 =>
            parse_type debugger symbol i2 >>= fun t =>
            expect_s8 t.2 ';' "!"
          else pure p.2 : Except ParseError (List Char)) >>= fun i =>
        jsge_breakpoint debugger symbol >>= fun _ =>
        parse_field_list debugger symbol i >>= fun fl =>
        if fl.2.1 = true then
          parse_member_list debugger symbol fl.2.2 >>= fun ml =>
          pure ({ StabsType.init 's' with
                  struct_type_number := some p.1, struct_fields := fl.1,
                  struct_members := ml.1 }, ml.2)
        else
          pure ({ StabsType.init 's' with
                  struct_type_number := some p.1, struct_fields := fl.1 }, fl.2.2)) := by
  have d0 : is_digit 's' = false := rfl
  have d1 : ¬ ('s' : Char) = StabsTypeDescriptor.TYPE_REFERENCE := by decide
  have d2 : ¬ ('s' : Char) = StabsTypeDescriptor.ARRAY := by decide
  have d3 : ¬ ('s' : Char) = StabsTypeDescriptor.ENUM := by decide
  have d4 : ¬ ('s' : Char) = StabsTypeDescriptor.FUNCTION := by decide
  have d5 : ¬ ('s' : Char) = StabsTypeDescriptor.RANGE := by decide
  have d6 : ('s' : Char) = StabsTypeDescriptor.STRUCT := rfl
  simp only [parse_type_primary, d0, Bool.false_eq_true, if_false, d1, d2, d3, d4, d5]
  simp only [← d6, if_true]
  rfl

/-- Every field the loop appends has the data of at most one encoding. -/
theorem parse_field_list_fuel_shapes (fuel : Nat) : ∀ (symbol : StabsSymbol)
    (input : List Char) (fields out : List StabsField) (flag : Bool) (r : List Char),
    parse_field_list_fuel debugger fuel symbol input fields = Except.ok (out, flag, r) →
    (∀ f ∈ fields, is_synthetic_field f ∨ is_typed_member f ∨ is_bit_field f) →
    ∀ f ∈ out, is_synthetic_field f ∨ is_typed_member f ∨ is_bit_field f := by
  induction fuel with
  | zero => intro symbol input fields out flag r h; simp [parse_field_list_fuel] at h
  | succ fuel ih =>
    intro symbol input fields out flag r h hacc
    simp only [parse_field_list_fuel] at h
    split at h
    · simp only [Except.ok.injEq, Prod.mk.injEq] at h
      rw [← h.1]; exact hacc
    · obtain ⟨⟨name, r1⟩, _, h⟩ := bind_eq_ok _ _ _ h
      dsimp only at h
      obtain ⟨r2, _, h⟩ := bind_eq_ok _ _ _ h
      split at h
      · simp only [Except.ok.injEq, Prod.mk.injEq] at h
        rw [← h.1]; exact hacc
      · obtain ⟨⟨type, r3⟩, _, h⟩ := bind_eq_ok _ _ _ h
        dsimp only at h
        obtain ⟨⟨field, r4⟩, hfield, h⟩ := bind_eq_ok _ _ _ h
        dsimp only at h
        have hshape : is_synthetic_field field ∨ is_typed_member field ∨ is_bit_field field := by
          split at hfield
          · rename_i hdollar
            obtain ⟨i1, _, hfield⟩ := bind_eq_ok _ _ _ hfield
            obtain ⟨⟨offset, i2⟩, _, hfield⟩ := bind_eq_ok _ _ _ hfield
            dsimp only at hfield
            obtain ⟨i3, _, hfield⟩ := bind_eq_ok _ _ _ hfield
            simp only [pure, Except.pure, Except.ok.injEq, Prod.mk.injEq] at hfield
            rw [← hfield.1]
            exact Or.inl ⟨hdollar, by simp, rfl, rfl⟩
          · rename_i hdollar
            split at hfield
            · obtain ⟨⟨type_name, i2⟩, _, hfield⟩ := bind_eq_ok _ _ _ hfield
              dsimp only at hfield
              obtain ⟨i3, _, hfield⟩ := bind_eq_ok _ _ _ hfield
              simp only [pure, Except.pure, Except.ok.injEq, Prod.mk.injEq] at hfield
              rw [← hfield.1]
              exact Or.inr (Or.inl ⟨hdollar, rfl, rfl⟩)
            · split at hfield
              · obtain ⟨⟨offset, i2⟩, _, hfield⟩ := bind_eq_ok _ _ _ hfield
                dsimp only at hfield
                obtain ⟨i3, _, hfield⟩ := bind_eq_ok _ _ _ hfield
                obtain ⟨⟨size, i4⟩, _, hfield⟩ := bind_eq_ok _ _ _ hfield
                dsimp only at hfield
                obtain ⟨i5, _, hfield⟩ := bind_eq_ok _ _ _ hfield
                simp only [pure, Except.pure, Except.ok.injEq, Prod.mk.injEq] at hfield
                rw [← hfield.1]
                exact Or.inr (Or.inr ⟨hdollar, by simp, by simp, rfl⟩)
              · obtain ⟨_, _, hfield⟩ := bind_eq_ok _ _ _ hfield
                simp only [pure, Except.pure, Except.ok.injEq, Prod.mk.injEq] at hfield
                rw [← hfield.1]
                exact Or.inr (Or.inl ⟨hdollar, rfl, rfl⟩)
        have hacc2 : ∀ f ∈ fields ++ [field],
            is_synthetic_field f ∨ is_typed_member f ∨ is_bit_field f := by
          intro f hf
          rcases List.mem_append.mp hf with hf | hf
          · exact hacc f hf
          · rw [List.mem_singleton.mp hf]; exact hshape
        split at h
        · simp only [Except.ok.injEq, Prod.mk.injEq] at h
          rw [← h.1]; exact hacc2
        · exact ih _ _ _ _ _ _ h hacc2

/-! ## Symbols, and productions that end with a nested type -/

theorem jsge_breakpoint_pass_alike (s1 s2 : StabsSymbol)
    (h : pass_alike debugger s1.name s2.name) :
    jsge_breakpoint debugger s1 = jsge_breakpoint debugger s2 := by
  rcases h with h | h
  · subst h
    rw [jsge_breakpoint_attached, jsge_breakpoint_attached]
  · unfold jsge_breakpoint
    by_cases h1 : s1.name = "JSGE".toList
    · rw [if_pos h1, if_pos (h.mp h1)]
    · rw [if_neg h1, if_neg (fun h2 => h1 (h.mpr h2))]

/-- Two symbols that pass the `JSGE` statement alike get the same result of `parse_type`:
the symbol enters nothing else. -/
theorem parse_type_symbol_eq (s1 s2 : StabsSymbol) (input : List Char)
    (hs : jsge_breakpoint debugger s1 = jsge_breakpoint debugger s2) :
    parse_type debugger s1 input = parse_type debugger s2 input :=
  ((parse_fuel_agrees (input.length + 1) s1 s2 hs _ _ (Nat.le_refl _) (Nat.le_refl _)).1
    input (by omega)).1

/-- The type `parse_type` returns is the primary production when that leaves the cursor
off `=`. -/
theorem parse_type_of_primary (symbol : StabsSymbol) (input : List Char) (type : StabsType)
    (rest : List Char)
    (hprim : parse_type_primary debugger (parse_type debugger symbol) (parse_field_list debugger symbol)
      (parse_member_list debugger symbol) symbol input = .ok (type, rest))
    (hne : not_at '=' rest) : parse_type debugger symbol input = .ok (type, rest) := by
  rw [parse_type_unfold, bind_ok_eq _ hprim]
  have hne' : ¬ rest.head? = some '=' := hne
  simp only [hne', if_false]
  rfl

/-- The `POINTER` case of the primary production. -/
theorem parse_type_primary_pointer (symbol : StabsSymbol) (s : List Char) :
    parse_type_primary debugger (parse_type debugger symbol) (parse_field_list debugger symbol)
        (parse_member_list debugger symbol) symbol ('*' :: s) =
      parse_type debugger symbol s >>= fun p =>
        pure ({ StabsType.init StabsTypeDescriptor.POINTER with
                pointer_value_type := some p.1 }, p.2) := by
  simp [parse_type_primary, is_digit, StabsTypeDescriptor.TYPE_REFERENCE,
      StabsTypeDescriptor.ARRAY, StabsTypeDescriptor.ENUM, StabsTypeDescriptor.FUNCTION,
      StabsTypeDescriptor.RANGE, StabsTypeDescriptor.STRUCT, StabsTypeDescriptor.UNION,
      StabsTypeDescriptor.AMPERSAND, StabsTypeDescriptor.POINTER]

/-- The `ARRAY` case of the primary production. -/
theorem parse_type_primary_array (symbol : StabsSymbol) (s : List Char) :
    parse_type_primary debugger (parse_type debugger symbol) (parse_field_list debugger symbol)
        (parse_member_list debugger symbol) symbol ('a' :: s) =
      parse_type debugger symbol s >>= fun p =>
        parse_type debugger symbol p.2 >>= fun q =>
          pure ({ StabsType.init StabsTypeDescriptor.ARRAY with
                  array_index_type := some p.1, array_element_type := some q.1 }, q.2) := by
  simp [parse_type_primary, is_digit, StabsTypeDescriptor.TYPE_REFERENCE,
      StabsTypeDescriptor.ARRAY]

/-- The `METHOD` case of the primary production: the nested type is parsed and dropped. -/
theorem parse_type_primary_method (symbol : StabsSymbol) (s : List Char) :
    parse_type_primary debugger (parse_type debugger symbol) (parse_field_list debugger symbol)
        (parse_member_list debugger symbol) symbol ('#' :: s) =
      parse_type debugger symbol s >>= fun p =>
        pure (StabsType.init StabsTypeDescriptor.METHOD, p.2) := by
  simp [parse_type_primary, is_digit, StabsTypeDescriptor.TYPE_REFERENCE,
      StabsTypeDescriptor.ARRAY, StabsTypeDescriptor.ENUM, StabsTypeDescriptor.FUNCTION,
      StabsTypeDescriptor.RANGE, StabsTypeDescriptor.STRUCT, StabsTypeDescriptor.UNION,
      StabsTypeDescriptor.AMPERSAND, StabsTypeDescriptor.POINTER, StabsTypeDescriptor.SLASH,
      StabsTypeDescriptor.MEMBER, StabsTypeDescriptor.METHOD]

/-- A type number followed by `=`: the type reference, with what follows the `=` as its
auxiliary type. -/
theorem parse_type_reference_equals (symbol : StabsSymbol) (n : Int) (s : List Char)
    (h0 : 0 ≤ n) (hn : n ≤ LONG_MAX) :
    parse_type debugger symbol (decimal n ++ '=' :: s) =
      parse_type debugger symbol s >>= fun q =>
        pure ({ type_reference n with aux_type := some q.1 }, q.2) := by
  obtain ⟨d, ds, hdec, hd⟩ := decimal_nonneg_cons n h0
  have hlit : eat_s64_literal (d :: (ds ++ '=' :: s)) = .ok (n, '=' :: s) := by
    have := eat_s64_literal_decimal n ('=' :: s) (by unfold LONG_MIN; omega) hn
      (not_at_digit_cons _ _ (by decide))
    simpa [hdec] using this
  rw [parse_type_unfold]
  simp [parse_type_primary, hdec, hd, hlit, bind, Except.bind, pure, Except.pure,
    type_reference]

/-- After the name and its `:`, `parse_stabs_symbol` selects the descriptor and goes on
with the statements that follow `validate_symbol_descriptor`. -/
theorem parse_stabs_symbol_after_name (name tail : List Char)
    (hname : ∀ x ∈ name, is_identifier_char x = true) :
    parse_stabs_symbol debugger (name ++ ':' :: tail) =
      if tail = [] then .error .UnexpectedEndOfInput
      else
        (if is_digit (tail.headD (Char.ofNat 0)) then
            pure (StabsSymbolDescriptor.LOCAL_VARIABLE, tail)
          else eat_s8 tail : Except ParseError (StabsSymbolDescriptor × List Char)) >>= fun p =>
        validate_symbol_descriptor p.1 >>= fun _ =>
        parse_stabs_symbol_after_descriptor debugger name p.1 p.2 := by
  have hid := eat_identifier_append name ':' tail hname is_identifier_char_colon
  simp only [parse_stabs_symbol, parse_stabs_symbol_after_descriptor]
  rw [bind_ok_eq _ hid]
  rfl

/-- The statements after the descriptor, for two names that meet the breakpoint alike: the
same failure, or two symbols that differ in the name only. -/
theorem parse_stabs_symbol_after_descriptor_names (n1 n2 : List Char)
    (d : StabsSymbolDescriptor) (input : List Char) (hn : pass_alike debugger n1 n2) :
    (∃ e, parse_stabs_symbol_after_descriptor debugger n1 d input = .error e ∧
          parse_stabs_symbol_after_descriptor debugger n2 d input = .error e) ∨
    (∃ type_number type,
      parse_stabs_symbol_after_descriptor debugger n1 d input =
        .ok { name := n1, descriptor := d, type_number := type_number, type := type } ∧
      parse_stabs_symbol_after_descriptor debugger n2 d input =
        .ok { name := n2, descriptor := d, type_number := type_number, type := type }) := by
  simp only [parse_stabs_symbol_after_descriptor]
  by_cases hnil : input = []
  · simp only [hnil, if_true]
    exact Or.inl ⟨_, rfl, rfl⟩
  · simp only [hnil, if_false]
    cases hlit : eat_s64_literal (if input.head? = some 't' then input.tail else input) with
    | error e => exact Or.inl ⟨e, rfl, rfl⟩
    | ok p =>
      obtain ⟨k, rest⟩ := p
      simp only [bind, Except.bind]
      by_cases hrest : rest = []
      · simp only [hrest, if_true]
        exact Or.inr ⟨k, none, rfl, rfl⟩
      · simp only [hrest, if_false]
        cases hc : eat_s8 rest with
        | error e => exact Or.inl ⟨e, rfl, rfl⟩
        | ok q =>
          obtain ⟨c, rest2⟩ := q
          dsimp only
          by_cases heq : c = '='
          · simp only [heq, if_true]
            rw [parse_type_symbol_eq
              { name := n2, descriptor := d, type_number := k, type := none }
              { name := n1, descriptor := d, type_number := k, type := none } rest2
              (jsge_breakpoint_pass_alike _ _ (by
                rcases hn with h | h
                · exact Or.inl h
                · exact Or.inr h.symm))]
            cases ht : parse_type debugger
                { name := n1, descriptor := d, type_number := k, type := none } rest2 with
            | error e => exact Or.inl ⟨e, rfl, rfl⟩
            | ok r =>
              obtain ⟨t, r3⟩ := r
              exact Or.inr ⟨k, some t, rfl, rfl⟩
          · simp only [heq, if_false]
            exact Or.inl ⟨_, rfl, rfl⟩

/-! ## The member list is never parsed, and nothing reads past the end -/

end

/-! ## The claims -/

/-- C1: a type-name symbol whose type is a range over a type reference.  For every name
made of printable characters other than `:` and `;`, every type number `n`, every
non-negative base type number `b` and all bounds `lo`, `hi` (all of them values a 64-bit
`long` holds), `parse_stabs_symbol` on
`name ++ ":t" ++ n ++ "=r" ++ b ++ ";" ++ lo ++ ";" ++ hi ++ ";"` succeeds with that name,
the descriptor `TYPE_NAME`, the symbol type number `n`, and a type that is a `RANGE`
whose base is the type reference `b`, with low bound `lo` and high bound `hi`. -/
theorem parse_stabs_symbol_range (debugger : Debugger) (name : List Char) (n b lo hi : Int)
    (hname : ∀ x ∈ name, is_identifier_char x = true)
    (hn : LONG_MIN ≤ n ∧ n ≤ LONG_MAX) (h0 : 0 ≤ b) (hb : b ≤ LONG_MAX)
    (hlo : LONG_MIN ≤ lo ∧ lo ≤ LONG_MAX) (hhi : LONG_MIN ≤ hi ∧ hi ≤ LONG_MAX) :
    parse_stabs_symbol debugger (name ++ ":t".toList ++ decimal n ++ "=r".toList ++ decimal b ++
        ";".toList ++ decimal lo ++ ";".toList ++ decimal hi ++ ";".toList) =
      .ok { name := name, descriptor := StabsSymbolDescriptor.TYPE_NAME, type_number := n,
            type := some { StabsType.init StabsTypeDescriptor.RANGE with
              range_type := some (type_reference b), range_low := some lo,
              range_high := some hi } } := by
  have hshape : name ++ ":t".toList ++ decimal n ++ "=r".toList ++ decimal b ++
        ";".toList ++ decimal lo ++ ";".toList ++ decimal hi ++ ";".toList
      = name ++ ':' :: 't' :: (decimal n ++ '=' :: 'r' :: (decimal b ++ ';' ::
          (decimal lo ++ ';' :: (decimal hi ++ ';' :: [])))) := by
    simp
  rw [hshape]
  have hlit := eat_s64_literal_decimal n ('=' :: 'r' :: (decimal b ++ ';' ::
          (decimal lo ++ ';' :: (decimal hi ++ ';' :: [])))) hn.1 hn.2
          (not_at_digit_cons _ _ (by decide))
  have hne : decimal n ++ '=' :: 'r' :: (decimal b ++ ';' ::
          (decimal lo ++ ';' :: (decimal hi ++ ';' :: []))) ≠ [] := by simp
  have ht := decimal_head_not n 't' (by decide) (by decide)
  have hty : ∀ symbol, parse_type debugger symbol ('r' :: (decimal b ++ ';' ::
          (decimal lo ++ ';' :: (decimal hi ++ ';' :: [])))) = _ := fun symbol =>
    parse_type_fuel_range _ symbol b lo hi [] h0 hb hlo hhi (by simp [not_at])
  simp [parse_stabs_symbol, eat_identifier_append name ':' _ hname is_identifier_char_colon,
    expect_s8, bind, Except.bind, pure, Except.pure, validate_symbol_descriptor,
    known_symbol_descriptors, eat_s8, is_digit, hne, ht, hlit, hty,
    StabsSymbolDescriptor.TYPE_NAME]

/-- C1 at the input of the specification: `foo:t1=r1;0;9;` is the symbol `foo`, a type
name, type number 1, with the range from 0 to 9 over the type reference 1. -/
theorem parse_stabs_symbol_range_witness :
    parse_stabs_symbol .absent "foo:t1=r1;0;9;".toList =
      .ok { name := "foo".toList, descriptor := 't', type_number := 1,
            type := some { StabsType.init 'r' with
              range_type := some (type_reference 1), range_low := some 0,
              range_high := some 9 } } :=
  parse_stabs_symbol_range .absent "foo".toList 1 1 0 9 (by decide) (by decide) (by decide) (by decide)
    (by decide) (by decide)

/-- C2 fails on the code at the tag `JSGE`.  Run without a debugger,
`JSGE:T7=s8x:1,0,32;y:1,32,32;;` does not come back with a struct: the `STRUCT` case of
`parse_type` executes `if (symbol.name == "JSGE") __debugbreak();` and the process ends
at the breakpoint, where `Point:T7=s8x:1,0,32;y:1,32,32;;` gives type number 7 and the
fields `x` and `y` of the claim.  The tag `JSGE` is the only one: for every tag of
identifier characters, all type numbers `n` and `k` a `long` holds and every non-empty
list of well-formed bit-field entries, `parse_stabs_symbol` on
`tag ++ ":T" ++ n ++ "=s" ++ k ++ entries ++ ";"` succeeds with the tag as name, the
descriptor `T`, the symbol type number `n` and a `STRUCT` type with type number `k`
whose field list is exactly the entries in source order, whenever the tag is not `JSGE`
or a debugger is attached; and it ends at the breakpoint when the tag is `JSGE` and no
debugger is attached. -/
theorem parse_stabs_symbol_struct :
    parse_stabs_symbol .absent "JSGE:T7=s8x:1,0,32;y:1,32,32;;".toList = .error .Breakpoint ∧
    parse_stabs_symbol .absent "Point:T7=s8x:1,0,32;y:1,32,32;;".toList =
      .ok { name := "Point".toList, descriptor := 'T', type_number := 7,
            type := some { StabsType.init 's' with
              struct_type_number := some 8,
              struct_fields :=
                [{ name := "x".toList, type := type_reference 1, offset := some 0,
                   size := some 32, type_name := [] },
                 { name := "y".toList, type := type_reference 1, offset := some 32,
                   size := some 32, type_name := [] }] } } ∧
    (∀ (debugger : Debugger) (tag : List Char) (n k : Int) (e : BitFieldEntry)
        (es : List BitFieldEntry),
      (∀ x ∈ tag, is_identifier_char x = true) →
      LONG_MIN ≤ n ∧ n ≤ LONG_MAX → LONG_MIN ≤ k ∧ k ≤ LONG_MAX →
      (∀ x ∈ e :: es, x.well_formed) →
      (tag ≠ "JSGE".toList ∨ debugger = .attached →
        parse_stabs_symbol debugger (tag ++ ":T".toList ++ decimal n ++ "=s".toList ++
            decimal k ++ bit_fields_text (e :: es) ++ ";".toList) =
          .ok { name := tag, descriptor := StabsSymbolDescriptor.ENUM_STRUCT_OR_TYPE_TAG,
                type_number := n,
                type := some { StabsType.init StabsTypeDescriptor.STRUCT with
                  struct_type_number := some k,
                  struct_fields := (e :: es).map BitFieldEntry.field } }) ∧
      (tag = "JSGE".toList → debugger = .absent →
        parse_stabs_symbol debugger (tag ++ ":T".toList ++ decimal n ++ "=s".toList ++
            decimal k ++ bit_fields_text (e :: es) ++ ";".toList) = .error .Breakpoint)) := by
  refine ⟨rfl, rfl, ?_⟩
  intro debugger tag n k e es htag hn hk hwf
  have hshape : tag ++ ":T".toList ++ decimal n ++ "=s".toList ++ decimal k ++
        bit_fields_text (e :: es) ++ ";".toList
      = tag ++ ':' :: 'T' :: (decimal n ++ '=' :: 's' :: (decimal k ++
          (bit_fields_text (e :: es) ++ ';' :: []))) := by
    simp
  rw [hshape]
  have hlit := eat_s64_literal_decimal n ('=' :: 's' :: (decimal k ++
          (bit_fields_text (e :: es) ++ ';' :: []))) hn.1 hn.2
          (not_at_digit_cons _ _ (by decide))
  have hne : decimal n ++ '=' :: 's' :: (decimal k ++
          (bit_fields_text (e :: es) ++ ';' :: [])) ≠ [] := by simp
  have ht := decimal_head_not n 't' (by decide) (by decide)
  constructor
  · intro hrun
    have hty : ∀ d m, parse_type debugger
        { name := tag, descriptor := d, type_number := m, type := none }
        ('s' :: (decimal k ++ (bit_fields_text (e :: es) ++ ';' :: []))) = _ := fun d m =>
      parse_type_struct_bit_fields _ k e es [] hk hwf (by simp [not_at]) (by
        rcases hrun with h | h
        · exact jsge_breakpoint_of_ne _ h
        · subst h; exact jsge_breakpoint_attached _)
    simp [parse_stabs_symbol, eat_identifier_append tag ':' _ htag is_identifier_char_colon,
      expect_s8, bind, Except.bind, pure, Except.pure, validate_symbol_descriptor,
      known_symbol_descriptors, eat_s8, is_digit, hne, ht, hlit, hty,
      StabsSymbolDescriptor.ENUM_STRUCT_OR_TYPE_TAG]
  · intro hjsge hrun
    subst hrun
    have hty : ∀ d m, parse_type .absent
        { name := tag, descriptor := d, type_number := m, type := none }
        ('s' :: (decimal k ++ (bit_fields_text (e :: es) ++ ';' :: []))) =
          .error .Breakpoint := fun d m =>
      parse_type_struct_breakpoint _ k e es [] hk hwf (jsge_breakpoint_absent _ hjsge)
    simp [parse_stabs_symbol, eat_identifier_append tag ':' _ htag is_identifier_char_colon,
      expect_s8, bind, Except.bind, pure, Except.pure, validate_symbol_descriptor,
      known_symbol_descriptors, eat_s8, is_digit, hne, ht, hlit, hty,
      StabsSymbolDescriptor.ENUM_STRUCT_OR_TYPE_TAG]

/-- C3: enum fields come out sorted by value.  Whenever `parse_type` accepts an input
that starts with the descriptor `e`, the enum field list it returns is sorted ascending
by value and is a permutation of the pairs its loop collected, in whatever order they
were declared.  On the text of any list of entries (names of identifier characters,
values a `long` holds) followed by the closing `;`, the loop collects exactly those
entries and stops at the `;` without consuming it: `parse_type` succeeds there, and its
field list is sorted and a permutation of the entries. -/
theorem parse_type_enum_sorted (debugger : Debugger) (symbol : StabsSymbol) :
    (∀ input t r, parse_type debugger symbol ('e' :: input) = .ok (t, r) →
      t.enum_fields.Pairwise (fun f1 f2 => f1.2 ≤ f2.2) ∧
      ∃ collected r0, parse_enum_fields (input.length + 1) input [] = .ok (collected, r0) ∧
        t.enum_fields.Perm collected) ∧
    (∀ (entries : List (List Char × Int)) (rest : List Char),
      (∀ e ∈ entries,
        (∀ x ∈ e.1, is_identifier_char x = true) ∧ LONG_MIN ≤ e.2 ∧ e.2 ≤ LONG_MAX) →
      ∃ fields,
        parse_type debugger symbol ('e' :: (enum_text entries ++ ';' :: rest)) =
          .ok ({ StabsType.init StabsTypeDescriptor.ENUM with enum_fields := fields },
            ';' :: rest) ∧
        fields.Pairwise (fun f1 f2 => f1.2 ≤ f2.2) ∧ fields.Perm entries) := by
  have d0 : is_digit 'e' = false := rfl
  have d1 : ¬ ('e' : Char) = StabsTypeDescriptor.TYPE_REFERENCE := by decide
  have d2 : ¬ ('e' : Char) = StabsTypeDescriptor.ARRAY := by decide
  have d3 : ('e' : Char) = StabsTypeDescriptor.ENUM := rfl
  have hprim : ∀ input, parse_type_primary debugger (parse_type debugger symbol) (parse_field_list debugger symbol)
      (parse_member_list debugger symbol) symbol ('e' :: input) =
      (parse_enum_fields (input.length + 1) input [] >>= fun p =>
        pure ({ StabsType.init 'e' with enum_fields := sort_enum_fields p.1 }, p.2)) := by
    intro input
    simp only [parse_type_primary, d0, Bool.false_eq_true, if_false, d1, d2]
    simp only [← d3, if_true]
    rfl
  constructor
  · intro input t r h
    rw [parse_type_unfold, hprim] at h
    obtain ⟨⟨t0, r0⟩, h0, h⟩ := bind_eq_ok _ _ _ h
    obtain ⟨⟨collected, r1⟩, hc, h0⟩ := bind_eq_ok _ _ _ h0
    simp only [pure, Except.pure, Except.ok.injEq, Prod.mk.injEq] at h0
    have hfields : t.enum_fields = sort_enum_fields collected := by
      dsimp only at h
      split at h
      · obtain ⟨⟨aux, r2⟩, _, h⟩ := bind_eq_ok _ _ _ h
        simp only [pure, Except.pure, Except.ok.injEq, Prod.mk.injEq] at h
        rw [← h.1, ← h0.1]
      · simp only [pure, Except.pure, Except.ok.injEq, Prod.mk.injEq] at h
        rw [← h.1, ← h0.1]
    rw [hfields]
    exact ⟨sort_enum_fields_sorted _, collected, r1, hc, sort_enum_fields_perm _⟩
  · intro entries rest hwf
    refine ⟨sort_enum_fields entries, ?_, sort_enum_fields_sorted _, sort_enum_fields_perm _⟩
    have hloop := parse_enum_fields_text entries
      ((enum_text entries ++ ';' :: rest).length + 1) [] rest hwf (by
        have := enum_text_length entries
        simp only [List.length_append, List.length_cons]
        omega)
    rw [parse_type_unfold, hprim, bind_ok_eq _ hloop]
    rfl

/-- C3, at the input of the specification: `e A:2,B:0,C:1,;` is accepted, its fields come
out sorted by value and are a permutation of the three entries; they are `B`, `C` and the
entry declared first, whose name the parser reads with the blank in front of it. -/
theorem parse_type_enum_sorted_witness :
    (∃ fields,
      parse_type .absent { name := [], descriptor := 't', type_number := 0, type := none }
          "e A:2,B:0,C:1,;".toList =
        .ok ({ StabsType.init StabsTypeDescriptor.ENUM with enum_fields := fields },
          ";".toList) ∧
      fields.Pairwise (fun f1 f2 => f1.2 ≤ f2.2) ∧
      fields.Perm [(" A".toList, 2), ("B".toList, 0), ("C".toList, 1)]) ∧
    parse_type .absent { name := [], descriptor := 't', type_number := 0, type := none }
        "e A:2,B:0,C:1,;".toList =
      .ok ({ StabsType.init StabsTypeDescriptor.ENUM with
              enum_fields := [("B".toList, 0), ("C".toList, 1), (" A".toList, 2)] },
        ";".toList) :=
  ⟨(parse_type_enum_sorted .absent { name := [], descriptor := 't', type_number := 0, type := none }).2
      [(" A".toList, 2), ("B".toList, 0), ("C".toList, 1)] [] (by decide), rfl⟩

/-- C4: a symbol that ends right after its type number.  For every name made of printable
characters other than `:` and `;` and every non-negative type number `n` a 64-bit `long`
holds, `parse_stabs_symbol` on `name ++ ":" ++ n` succeeds, and the symbol has that name,
the descriptor `LOCAL_VARIABLE`, the type number `n` and no attached type. -/
theorem parse_stabs_symbol_no_type (debugger : Debugger) (name : List Char) (n : Int)
    (hname : ∀ x ∈ name, is_identifier_char x = true) (h0 : 0 ≤ n) (hn : n ≤ LONG_MAX) :
    parse_stabs_symbol debugger (name ++ ':' :: decimal n) =
      .ok { name := name, descriptor := StabsSymbolDescriptor.LOCAL_VARIABLE,
            type_number := n, type := none } := by
  obtain ⟨d, ds, hdec, hd⟩ := decimal_nonneg_cons n h0
  have hlit : eat_s64_literal (d :: ds) = .ok (n, []) := by
    have := eat_s64_literal_decimal n [] (by unfold LONG_MIN; omega) hn not_at_digit_nil
    simpa [hdec] using this
  have hdt : d ≠ 't' := by
    rintro rfl
    exact absurd hd (by decide)
  simp [parse_stabs_symbol, eat_identifier_append name ':' _ hname is_identifier_char_colon,
    expect_s8, hdec, hd, hdt, hlit, bind, Except.bind, validate_symbol_descriptor,
    known_symbol_descriptors, pure, Except.pure]

/-- C4 at the input of the specification: `bar:5` is the local variable `bar` with type
number 5 and no type. -/
theorem parse_stabs_symbol_no_type_witness :
    parse_stabs_symbol .absent "bar:5".toList =
      .ok { name := "bar".toList, descriptor := StabsSymbolDescriptor.LOCAL_VARIABLE,
            type_number := 5, type := none } :=
  parse_stabs_symbol_no_type .absent "bar".toList 5 (by decide) (by decide) (by decide)

/-- C5, as stated, fails: in the header `foo5` nothing follows the name, `eat_identifier`
runs into the end of the input and the failure is `UnexpectedEndOfInput`; `expect_s8` is
never reached, so it is not `UnexpectedCharacter`. -/
theorem parse_stabs_symbol_foo5 :
    parse_stabs_symbol .absent "foo5".toList = .error .UnexpectedEndOfInput ∧
    ¬ ∃ expected found context,
      parse_stabs_symbol .absent "foo5".toList = .error (.UnexpectedCharacter expected found context) := by
  have h : parse_stabs_symbol .absent "foo5".toList = .error .UnexpectedEndOfInput := rfl
  refine ⟨h, ?_⟩
  rintro ⟨e, f, c, hc⟩
  rw [h] at hc
  exact absurd hc (by simp)

/-- C5, amended: a header whose name is not followed by `:` fails.  When the input ends
with the name (only identifier characters, as in `foo5`) the failure is
`UnexpectedEndOfInput`; when the name is ended by a character `c` that is neither an
identifier character nor `:` (that is `;` or a non-printable character, as in `foo;5`),
it is `UnexpectedCharacter` with expected `:`, found `c` and context "identifier". -/
theorem parse_stabs_symbol_missing_colon (debugger : Debugger) (name : List Char)
    (hname : ∀ x ∈ name, is_identifier_char x = true) :
    parse_stabs_symbol debugger name = .error .UnexpectedEndOfInput ∧
    ∀ (c : Char) (rest : List Char), is_identifier_char c = false → c ≠ ':' →
      parse_stabs_symbol debugger (name ++ c :: rest) =
        .error (.UnexpectedCharacter ':' c "identifier") := by
  constructor
  · simp [parse_stabs_symbol, eat_identifier, eat_identifier_loop_all name true [] hname,
      bind, Except.bind]
  · intro c rest hc hcolon
    simp [parse_stabs_symbol, eat_identifier_append name c rest hname hc, expect_s8, hcolon,
      bind, Except.bind]

/-- C5, amended, at `foo5` and at `foo;5`. -/
theorem parse_stabs_symbol_missing_colon_witness :
    parse_stabs_symbol .absent "foo5".toList = .error .UnexpectedEndOfInput ∧
    parse_stabs_symbol .absent "foo;5".toList = .error (.UnexpectedCharacter ':' ';' "identifier") :=
  ⟨(parse_stabs_symbol_missing_colon .absent "foo5".toList (by decide)).1,
   (parse_stabs_symbol_missing_colon .absent "foo".toList (by decide)).2 ';' "5".toList
     (by decide) (by decide)⟩

/-- C6: a `*` in front of a type production makes the pointer to it.  When `parse_type`
succeeds on `s` with tree `t` and remaining input `r`, it succeeds on `"*" ++ s` with the
`POINTER` type whose pointee is `t` (no other payload, no auxiliary type) and the same
remaining input `r`; when it fails on `s`, it fails on `"*" ++ s` with the same error. -/
theorem parse_type_pointer (debugger : Debugger) (symbol : StabsSymbol) (s : List Char) :
    parse_type debugger symbol ('*' :: s) =
      match parse_type debugger symbol s with
      | .ok (t, r) =>
        .ok ({ StabsType.init StabsTypeDescriptor.POINTER with pointer_value_type := some t }, r)
      | .error e => .error e := by
  rw [parse_type_unfold symbol ('*' :: s)]
  cases h : parse_type debugger symbol s with
  | error e =>
    simp [parse_type_primary, is_digit, h, bind, Except.bind, StabsTypeDescriptor.TYPE_REFERENCE,
      StabsTypeDescriptor.ARRAY, StabsTypeDescriptor.ENUM, StabsTypeDescriptor.FUNCTION,
      StabsTypeDescriptor.RANGE, StabsTypeDescriptor.STRUCT, StabsTypeDescriptor.UNION,
      StabsTypeDescriptor.AMPERSAND, StabsTypeDescriptor.POINTER]
  | ok p =>
    obtain ⟨t, r⟩ := p
    have hne : ¬ r.head? = some '=' := parse_type_not_at_eq symbol s t r h
    simp [parse_type_primary, is_digit, h, bind, Except.bind, pure, Except.pure, hne,
      StabsTypeDescriptor.TYPE_REFERENCE,
      StabsTypeDescriptor.ARRAY, StabsTypeDescriptor.ENUM, StabsTypeDescriptor.FUNCTION,
      StabsTypeDescriptor.RANGE, StabsTypeDescriptor.STRUCT, StabsTypeDescriptor.UNION,
      StabsTypeDescriptor.AMPERSAND, StabsTypeDescriptor.POINTER]

/-- C6 at the input of the specification: `*r1;0;9;` is the pointer to what `r1;0;9;`
parses to. -/
theorem parse_type_pointer_witness :
    parse_type .absent { name := [], descriptor := 't', type_number := 0, type := none }
        "r1;0;9;".toList =
      .ok ({ StabsType.init StabsTypeDescriptor.RANGE with
              range_type := some (type_reference 1), range_low := some 0,
              range_high := some 9 }, []) ∧
    parse_type .absent { name := [], descriptor := 't', type_number := 0, type := none }
        "*r1;0;9;".toList =
      .ok ({ StabsType.init StabsTypeDescriptor.POINTER with
              pointer_value_type := some { StabsType.init StabsTypeDescriptor.RANGE with
                range_type := some (type_reference 1), range_low := some 0,
                range_high := some 9 } }, []) :=
  ⟨rfl, parse_type_pointer .absent { name := [], descriptor := 't', type_number := 0, type := none }
    "r1;0;9;".toList⟩

/-- C7 fails on the code.  In the field list `a:1,0,8;b:1x;;c:1,8,8;;` the entry `b` has
an `x` right after its type and `;;` follows.  That branch starts with a breakpoint.
When a debugger resumes from it, the resynchronisation loop looks for the two characters
`2A`, not `;;`: it runs to the end of the input, and the entry `b` is appended to the
result with neither offset, size nor type name, so two fields are returned where the
claim has one, and nothing is left of the input; the symbol
`S:T1=s8a:1,0,8;b:1x;;c:1,8,8;;` gets a struct of these two fields.  When `2A` does
occur, as in `a:1,0,8;b:1x2Ac:1,8,8;;z`, the scan stops after it and the loop goes on
parsing further fields.  Without a debugger the process ends at the breakpoint, and
neither the field list nor the symbol is returned. -/
theorem parse_field_list_unrecognised_delimiter :
    parse_field_list .attached { name := [], descriptor := 'T', type_number := 0, type := none }
        "a:1,0,8;b:1x;;c:1,8,8;;".toList =
      .ok ([{ name := "a".toList, type := type_reference 1, offset := some 0, size := some 8,
              type_name := [] },
            { name := "b".toList, type := type_reference 1, offset := none, size := none,
              type_name := [] }], false, []) ∧
    parse_stabs_symbol .attached "S:T1=s8a:1,0,8;b:1x;;c:1,8,8;;".toList =
      .ok { name := "S".toList, descriptor := 'T', type_number := 1,
            type := some { StabsType.init 's' with
              struct_type_number := some 8,
              struct_fields :=
                [{ name := "a".toList, type := type_reference 1, offset := some 0,
                   size := some 8, type_name := [] },
                 { name := "b".toList, type := type_reference 1, offset := none,
                   size := none, type_name := [] }] } } ∧
    parse_field_list .attached { name := [], descriptor := 'T', type_number := 0, type := none }
        "a:1,0,8;b:1x2Ac:1,8,8;;z".toList =
      .ok ([{ name := "a".toList, type := type_reference 1, offset := some 0, size := some 8,
              type_name := [] },
            { name := "b".toList, type := type_reference 1, offset := none, size := none,
              type_name := [] },
            { name := "c".toList, type := type_reference 1, offset := some 8, size := some 8,
              type_name := [] }], false, "z".toList) ∧
    parse_field_list .absent { name := [], descriptor := 'T', type_number := 0, type := none }
        "a:1,0,8;b:1x;;c:1,8,8;;".toList = .error .Breakpoint ∧
    parse_stabs_symbol .absent "S:T1=s8a:1,0,8;b:1x;;c:1,8,8;;".toList = .error .Breakpoint :=
  ⟨rfl, rfl, rfl, rfl, rfl⟩

/-- C8: parsing terminates.  One unit of fuel is spent by every nested call of
`parse_type` and by every iteration of the enum, field-list and member-list loops (the
resynchronisation scans recurse on the input itself).  For every input, one unit more
than the input has characters is enough at every entry point: `parse_stabs_symbol`,
`parse_type`, `parse_field_list`, `parse_member_list` and the enum loop never run out of
it, and more fuel never changes a result.  This holds because every call of `parse_type`
that succeeds leaves strictly fewer characters than it was given, the lists never leave
more, and the primary production of `parse_type` on `input` consults the three parsers
on strictly shorter inputs only: replacing them anywhere else does not change it. -/
theorem parse_terminates (debugger : Debugger) (input : List Char) :
    parse_stabs_symbol debugger input ≠ .error .OutOfFuel ∧
    (∀ fields, parse_enum_fields (input.length + 1) input fields ≠ .error .OutOfFuel) ∧
    ∀ symbol : StabsSymbol,
      (parse_type debugger symbol input ≠ .error .OutOfFuel ∧
        parse_field_list debugger symbol input ≠ .error .OutOfFuel ∧
        parse_member_list debugger symbol input ≠ .error .OutOfFuel) ∧
      (∀ fuel, input.length < fuel →
        parse_type_fuel debugger fuel symbol input = parse_type debugger symbol input ∧
        parse_field_list_fuel debugger fuel symbol input [] = parse_field_list debugger symbol input ∧
        parse_member_list_fuel debugger fuel symbol input [] = parse_member_list debugger symbol input) ∧
      (∀ t r, parse_type debugger symbol input = .ok (t, r) → r.length < input.length) ∧
      (∀ fields flag r, parse_field_list debugger symbol input = .ok (fields, flag, r) →
        r.length ≤ input.length) ∧
      (∀ members r, parse_member_list debugger symbol input = .ok (members, r) →
        r.length ≤ input.length) ∧
      (∀ p fl ml,
        (∀ i : List Char, i.length < input.length → p i = parse_type debugger symbol i) →
        (∀ i : List Char, i.length < input.length → fl i = parse_field_list debugger symbol i) →
        (∀ i : List Char, i.length < input.length → ml i = parse_member_list debugger symbol i) →
        parse_type_primary debugger p fl ml symbol input =
          parse_type_primary debugger (parse_type debugger symbol) (parse_field_list debugger symbol)
            (parse_member_list debugger symbol) symbol input) := by
  refine ⟨?_, fun fields => (parse_enum_fields_agrees _ input fields (by omega)).2.1, ?_⟩
  · simp only [parse_stabs_symbol]
    apply ne_fuel_bind _ _ (eat_identifier_ne_fuel _)
    rintro ⟨name, r1⟩ _
    dsimp only
    apply ne_fuel_bind _ _ (expect_s8_ne_fuel _ _ _)
    intro r2 _
    apply ne_fuel_ite <;> intro _
    · simp
    refine ne_fuel_bind _ _ ?_ ?_
    · apply ne_fuel_ite <;> intro _
      · simp [pure, Except.pure]
      · exact eat_s8_ne_fuel _
    rintro ⟨descriptor, r3⟩ _
    dsimp only
    refine ne_fuel_bind _ _ ?_ ?_
    · simp only [validate_symbol_descriptor]
      apply ne_fuel_ite <;> intro _ <;> simp
    intro _ _
    apply ne_fuel_ite <;> intro _
    · simp
    apply ne_fuel_bind _ _ (eat_s64_literal_ne_fuel _)
    rintro ⟨type_number, r4⟩ _
    dsimp only
    apply ne_fuel_ite <;> intro _
    · simp [pure, Except.pure]
    apply ne_fuel_bind _ _ (eat_s8_ne_fuel _)
    rintro ⟨c, r5⟩ _
    dsimp only
    apply ne_fuel_ite <;> intro _
    · apply ne_fuel_bind _ _ (parse_type_agrees _ _).2.1
      rintro ⟨type, r6⟩ _
      simp [pure, Except.pure]
    · simp
  · intro symbol
    refine ⟨⟨(parse_type_agrees symbol input).2.1, (parse_field_list_agrees symbol input).2.1,
      (parse_member_list_agrees symbol input).2.1⟩, ?_, ?_, ?_, ?_, ?_⟩
    · intro fuel hf
      exact ⟨parse_type_fuel_eq symbol input fuel hf,
        parse_field_list_fuel_eq symbol input fuel hf,
        parse_member_list_fuel_eq symbol input fuel hf⟩
    · intro t r h
      exact parse_type_length symbol input t r h
    · intro fields flag r h
      have := (parse_field_list_agrees symbol input).2.2 (fields, flag, r) h
      simp only [remaining_pair, remaining_list] at this
      omega
    · intro members r h
      have := (parse_member_list_agrees symbol input).2.2 (members, r) h
      simp only [remaining_pair, remaining_list] at this
      omega
    · intro p fl ml hp hfl hml
      exact (parse_type_primary_agrees p (parse_type debugger symbol) fl (parse_field_list debugger symbol)
        ml (parse_member_list debugger symbol) symbol symbol input rfl
        (fun i hi => by rw [hp i hi]; exact parse_type_agrees symbol i)
        (fun i hi => by rw [hfl i hi]; exact parse_field_list_agrees symbol i)
        (fun i hi => by rw [hml i hi]; exact parse_member_list_agrees symbol i)).1

/-- C9: the character `c` right after the header `:` selects the descriptor.  A decimal
digit is not consumed and the descriptor is `LOCAL_VARIABLE`: parsing goes on at `c`.
One of the letters a, f, F, G, P, p, r, s, t, T, V is consumed and is the descriptor:
parsing goes on after `c`.  Any other non-null character fails with
`UnknownSymbolDescriptor c`, whatever follows.  In each case the symbol that the rest of
`parse_stabs_symbol` returns carries the name and the descriptor selected here. -/
theorem parse_stabs_symbol_descriptor (debugger : Debugger) (name : List Char) (c : Char) (rest : List Char)
    (hname : ∀ x ∈ name, is_identifier_char x = true) (hc : c ≠ Char.ofNat 0) :
    (is_digit c = true →
      parse_stabs_symbol debugger (name ++ ':' :: c :: rest) =
        parse_stabs_symbol_after_descriptor debugger name StabsSymbolDescriptor.LOCAL_VARIABLE
          (c :: rest)) ∧
    (c ∈ symbol_descriptor_letters →
      parse_stabs_symbol debugger (name ++ ':' :: c :: rest) =
        parse_stabs_symbol_after_descriptor debugger name c rest) ∧
    (is_digit c = false → c ∉ symbol_descriptor_letters →
      parse_stabs_symbol debugger (name ++ ':' :: c :: rest) = .error (.UnknownSymbolDescriptor c)) ∧
    (∀ descriptor input symbol,
      parse_stabs_symbol_after_descriptor debugger name descriptor input = .ok symbol →
        symbol.name = name ∧ symbol.descriptor = descriptor) := by
  have hid := eat_identifier_append name ':' (c :: rest) hname is_identifier_char_colon
  refine ⟨?_, ?_, ?_, ?_⟩
  · intro hd
    simp [parse_stabs_symbol, parse_stabs_symbol_after_descriptor, hid, expect_s8, hd, bind,
      Except.bind, pure, Except.pure, validate_symbol_descriptor, known_symbol_descriptors]
  · intro hmem
    have hd : is_digit c = false := by
      simp only [symbol_descriptor_letters, List.mem_cons, List.mem_singleton,
        List.not_mem_nil, or_false] at hmem
      rcases hmem with h | h | h | h | h | h | h | h | h | h | h <;> subst h <;> decide
    have hk : c ∈ known_symbol_descriptors := by
      simp only [symbol_descriptor_letters, List.mem_cons, List.mem_singleton,
        List.not_mem_nil, or_false] at hmem
      rcases hmem with h | h | h | h | h | h | h | h | h | h | h <;> subst h <;> decide
    simp [parse_stabs_symbol, parse_stabs_symbol_after_descriptor, hid, expect_s8, hd, bind,
      Except.bind, pure, Except.pure, validate_symbol_descriptor, hk, eat_s8]
  · intro hd hmem
    have hk : c ∉ known_symbol_descriptors := by
      intro hk
      simp only [known_symbol_descriptors, List.mem_cons, List.mem_singleton,
        List.not_mem_nil, or_false] at hk
      rcases hk with h | h
      · exact hc h
      · exact hmem (by simpa [symbol_descriptor_letters] using h)
    simp [parse_stabs_symbol, hid, expect_s8, hd, bind, Except.bind, pure, Except.pure,
      validate_symbol_descriptor, hk, eat_s8]
  · intro descriptor input symbol h
    simp only [parse_stabs_symbol_after_descriptor, bind, Except.bind, pure, Except.pure] at h
    repeat' split at h
    all_goals first
      | (simp only [Except.ok.injEq] at h; subst h; exact ⟨rfl, rfl⟩)
      | exact absurd h (by simp)

/-- C9 at `v:5` (a digit), `v:G5` (a descriptor letter) and `v:x5` (neither). -/
theorem parse_stabs_symbol_descriptor_witness :
    parse_stabs_symbol .absent "v:5".toList =
      parse_stabs_symbol_after_descriptor .absent "v".toList StabsSymbolDescriptor.LOCAL_VARIABLE
        "5".toList ∧
    parse_stabs_symbol .absent "v:G5".toList =
      parse_stabs_symbol_after_descriptor .absent "v".toList StabsSymbolDescriptor.GLOBAL_VARIABLE
        "5".toList ∧
    parse_stabs_symbol .absent "v:x5".toList = .error (.UnknownSymbolDescriptor 'x') :=
  ⟨(parse_stabs_symbol_descriptor .absent "v".toList '5' [] (by decide) (by decide)).1 (by decide),
   (parse_stabs_symbol_descriptor .absent "v".toList 'G' "5".toList (by decide) (by decide)).2.1
     (by decide),
   (parse_stabs_symbol_descriptor .absent "v".toList 'x' "5".toList (by decide) (by decide)).2.2.1
     (by decide) (by decide)⟩

/-- C10: the auxiliary type.  Whenever `parse_type` accepts an input, its primary
production (with the recursive calls going to the parsers themselves) succeeded with a
type that has no auxiliary subtree and a remaining input `rest`; the returned type has an
auxiliary subtree exactly when `rest` starts with `=`.  In that case the `=` is consumed
and the auxiliary subtree is the result of `parse_type` on the input after it, whose
remaining input is returned; otherwise the primary production is returned unchanged.
Instance: when `parse_type` succeeds on `input` with `(t, r)`, then for every
non-negative type number `n` it succeeds on `n ++ "=" ++ input` with the type reference
`n` carrying the auxiliary subtree `t`, and with remaining input `r`. -/
theorem parse_type_auxiliary (debugger : Debugger) (symbol : StabsSymbol) (input : List Char) :
    (∀ t r, parse_type debugger symbol input = .ok (t, r) →
      ∃ type rest,
        parse_type_primary debugger (parse_type debugger symbol) (parse_field_list debugger symbol)
          (parse_member_list debugger symbol) symbol input = .ok (type, rest) ∧
        type.aux_type = none ∧
        (t.aux_type ≠ none ↔ rest.head? = some '=') ∧
        (rest.head? = some '=' →
          ∃ aux, parse_type debugger symbol rest.tail = .ok (aux, r) ∧
            t = { type with aux_type := some aux }) ∧
        (rest.head? ≠ some '=' → t = type ∧ r = rest)) ∧
    (∀ (n : Int) t r, 0 ≤ n → n ≤ LONG_MAX → parse_type debugger symbol input = .ok (t, r) →
      parse_type debugger symbol (decimal n ++ '=' :: input) =
        .ok ({ type_reference n with aux_type := some t }, r)) := by
  constructor
  · intro t r h
    rw [parse_type_unfold] at h
    obtain ⟨⟨type, rest⟩, hprim, h⟩ := bind_eq_ok _ _ _ h
    have hnone := parse_type_primary_aux_type _ _ _ _ _ type rest hprim
    refine ⟨type, rest, hprim, hnone, ?_⟩
    dsimp only at h
    by_cases heq : rest.head? = some '='
    · simp only [heq, if_true] at h
      obtain ⟨⟨aux, r'⟩, haux, h⟩ := bind_eq_ok _ _ _ h
      simp only [pure, Except.pure, Except.ok.injEq, Prod.mk.injEq] at h
      obtain ⟨ht, hr⟩ := h
      subst hr
      refine ⟨?_, ?_, ?_⟩
      · rw [← ht]; simp [heq]
      · intro _; exact ⟨aux, haux, ht.symm⟩
      · intro hc; exact absurd heq hc
    · simp only [heq, if_false, pure, Except.pure, Except.ok.injEq, Prod.mk.injEq] at h
      obtain ⟨ht, hr⟩ := h
      refine ⟨?_, ?_, ?_⟩
      · rw [← ht, hnone]; simp [heq]
      · intro hc; exact absurd hc heq
      · intro _; exact ⟨ht.symm, hr.symm⟩
  · intro n t r h0 hn h
    obtain ⟨d, ds, hdec, hd⟩ := decimal_nonneg_cons n h0
    have hlit : eat_s64_literal (d :: (ds ++ '=' :: input)) = .ok (n, '=' :: input) := by
      have := eat_s64_literal_decimal n ('=' :: input) (by unfold LONG_MIN; omega) hn
        (not_at_digit_cons _ _ (by decide))
      simpa [hdec] using this
    rw [parse_type_unfold]
    simp [parse_type_primary, hdec, hd, hlit, h, bind, Except.bind, pure, Except.pure,
      type_reference]

/-- C10 at `1=r1;0;9;`: the type reference 1 with the range as its auxiliary subtree. -/
theorem parse_type_auxiliary_witness :
    parse_type .absent { name := [], descriptor := 't', type_number := 0, type := none }
        "1=r1;0;9;".toList =
      .ok ({ type_reference 1 with
              aux_type := some { StabsType.init StabsTypeDescriptor.RANGE with
                range_type := some (type_reference 1), range_low := some 0,
                range_high := some 9 } }, []) :=
  (parse_type_auxiliary .absent { name := [], descriptor := 't', type_number := 0, type := none }
    "r1;0;9;".toList).2 1 _ _ (by decide) (by decide) rfl

/-- C12, as stated, fails.  In `a:1,0,8;m::1;:p;.;;z` the name `m` is followed by a double
colon.  `parse_field_list` does not set its flag and does not return at once: it scans
on past the `;;`, leaves `z`, and returns the field `a` with the flag `false`.  The
struct `s8a:1,0,8;m::1;:p;.;;` is parsed with that one field and no members:
`parse_member_list` is not called. -/
theorem parse_field_list_double_colon_example :
    parse_field_list .absent { name := [], descriptor := 'T', type_number := 0, type := none }
        "a:1,0,8;m::1;:p;.;;z".toList =
      .ok ([{ name := "a".toList, type := type_reference 1, offset := some 0, size := some 8,
              type_name := [] }], false, "z".toList) ∧
    parse_type .absent { name := [], descriptor := 'T', type_number := 0, type := none }
        "s8a:1,0,8;m::1;:p;.;;".toList =
      .ok ({ StabsType.init StabsTypeDescriptor.STRUCT with
              struct_type_number := some 8,
              struct_fields :=
                [{ name := "a".toList, type := type_reference 1, offset := some 0,
                   size := some 8, type_name := [] }],
              struct_members := [] }, []) :=
  ⟨rfl, rfl⟩

/-- C12, amended: when the character right after a field name's `:` is itself `:`,
`parse_field_list` does not signal a member list.  It drops the field being read, scans
forward until it has passed the two characters `;;` (or reached the end of the input),
and returns the fields parsed before, with the flag `false`.  The flag is `false`
whenever `parse_field_list` succeeds, so the `STRUCT` case of `parse_type`, which calls
`parse_member_list` only when the flag is set, never calls it: the members of every
struct it returns are empty. -/
theorem parse_field_list_double_colon (debugger : Debugger) (symbol : StabsSymbol) (fuel : Nat)
    (name rest : List Char) (fields : List StabsField)
    (hname : ∀ x ∈ name, is_identifier_char x = true) :
    parse_field_list_fuel debugger (fuel + 1) symbol (name ++ ':' :: ':' :: rest) fields =
      .ok (fields, false, scan_past_pair ';' ';' (Char.ofNat 0) (':' :: rest)) ∧
    (∀ fuel' input acc out flag r,
      parse_field_list_fuel debugger fuel' symbol input acc = .ok (out, flag, r) → flag = false) ∧
    (∀ input t r, parse_type debugger symbol ('s' :: input) = .ok (t, r) → t.struct_members = []) := by
  refine ⟨?_, fun fuel' input acc out flag r h =>
      parse_field_list_fuel_flag fuel' symbol input acc out flag r h,
    fun input t r h => parse_type_struct_members symbol input t r h⟩
  have h1 := eat_identifier_append name ':' (':' :: rest) hname is_identifier_char_colon
  have h2 : expect_s8 (':' :: ':' :: rest) ':' "identifier" = .ok (':' :: rest) := by
    simp [expect_s8]
  have hne : ¬ (name ++ ':' :: ':' :: rest = []) := by simp
  simp only [parse_field_list_fuel, hne, if_false]
  rw [bind_ok_eq _ h1]
  dsimp only
  rw [bind_ok_eq _ h2]
  simp only [List.head?_cons, if_true]

/-- C12, amended, at the field list `m::1;:p;.;;z`: no field, flag `false`, `z` left. -/
theorem parse_field_list_double_colon_witness :
    parse_field_list .absent { name := [], descriptor := 'T', type_number := 0, type := none }
        "m::1;:p;.;;z".toList = .ok ([], false, "z".toList) :=
  (parse_field_list_double_colon .absent { name := [], descriptor := 'T', type_number := 0, type := none }
    _ "m".toList "1;:p;.;;z".toList [] (by decide)).1

/-- C13 fails on the code for a `-` that no digit follows.  The check before the
conversion is `number.size() > 0`, and the sign alone makes `number` non-empty: on `-`
and on `-x` the `verify` passes and `std::stol` throws `std::invalid_argument`, which
the `catch` for `std::out_of_range` does not catch.  The rest of the claim holds: the
failure is `MalformedLiteral` exactly when the input neither starts with `-` nor with a
digit (the empty input included), and `eat_s64_literal` succeeds exactly when a digit
follows the optional `-`. -/
theorem eat_s64_literal_lone_minus :
    eat_s64_literal "-".toList = .error .InvalidArgument ∧
    eat_s64_literal "-x".toList = .error .InvalidArgument ∧
    (∀ input, eat_s64_literal input = .error .MalformedLiteral ↔
      (input.head? ≠ some '-' ∧ not_at_digit input)) ∧
    (∀ input, eat_s64_literal input = .error .InvalidArgument ↔
      (input.head? = some '-' ∧ not_at_digit input.tail)) ∧
    (∀ input, (∃ v r, eat_s64_literal input = .ok (v, r)) ↔
      ¬ not_at_digit (after_sign input)) := by
  refine ⟨rfl, rfl, ?_, ?_, ?_⟩
  · intro input
    rw [eat_s64_literal_eq]
    by_cases hm : input.head? = some '-'
    · by_cases hnil : (after_sign input).takeWhile is_digit = [] <;> simp [hm, hnil]
    · have ha : after_sign input = input := by simp [after_sign, hm]
      rw [ha]
      by_cases hnil : input.takeWhile is_digit = []
      · simp [hm, hnil, (takeWhile_digit_nil_iff input).mp hnil]
      · have := mt (takeWhile_digit_nil_iff input).mpr hnil
        simp [hm, hnil, this]
  · intro input
    rw [eat_s64_literal_eq]
    by_cases hm : input.head? = some '-'
    · have ha : after_sign input = input.tail := by simp [after_sign, hm]
      rw [ha]
      by_cases hnil : input.tail.takeWhile is_digit = []
      · simp [hm, hnil, (takeWhile_digit_nil_iff input.tail).mp hnil]
      · have := mt (takeWhile_digit_nil_iff input.tail).mpr hnil
        simp [hm, hnil, this]
    · by_cases hnil : (after_sign input).takeWhile is_digit = [] <;> simp [hm, hnil]
  · intro input
    rw [eat_s64_literal_eq]
    by_cases hnil : (after_sign input).takeWhile is_digit = []
    · have := (takeWhile_digit_nil_iff _).mp hnil
      simp only [hnil, if_true, this, not_true_eq_false, iff_false, not_exists]
      intro v r
      split <;> simp
    · have := mt (takeWhile_digit_nil_iff _).mpr hnil
      simp only [hnil, if_false, this, not_false_eq_true, iff_true]
      exact ⟨_, _, rfl⟩

/-- C14: the value of a literal.  On an optional `-`, then a run of one or more decimal
digits, then a remaining input that does not start with a digit (so the run is
maximal), `eat_s64_literal` succeeds, leaves exactly that remaining input, and returns
the integer the text denotes when a 64-bit `long` holds it, and 0 when it does not. -/
theorem eat_s64_literal_value (negative : Bool) (digits rest : List Char)
    (hne : digits ≠ []) (hd : ∀ c ∈ digits, is_digit c = true) (hrest : not_at_digit rest) :
    eat_s64_literal ((if negative then ['-'] else []) ++ digits ++ rest) =
      .ok (if LONG_MIN ≤ signed_value negative digits ∧ signed_value negative digits ≤ LONG_MAX
            then signed_value negative digits else 0, rest) := by
  have htake := takeWhile_digits_append digits rest hd hrest
  have hdrop := dropWhile_digits_append digits rest hd hrest
  cases negative with
  | true =>
    have hin : (if true = true then ['-'] else []) ++ digits ++ rest = '-' :: (digits ++ rest) := by
      simp
    have hafter : after_sign ('-' :: (digits ++ rest)) = digits ++ rest := by
      simp only [after_sign, List.head?_cons, if_true, List.tail_cons]
    rw [hin, eat_s64_literal_eq, hafter, htake, hdrop, digits_value_eq_denoted]
    simp only [hne, if_false, List.head?_cons, if_true, signed_value]
  | false =>
    have hin : (if false = true then ['-'] else []) ++ digits ++ rest = digits ++ rest := by
      simp
    have hh : ¬ (digits ++ rest).head? = some '-' := by
      have := (after_sign_sign_digits false digits rest hne hd).mp
      rw [hin] at this
      intro hc
      exact absurd (this hc) (by decide)
    have hafter : after_sign (digits ++ rest) = digits ++ rest := by
      simp only [after_sign, hh, if_false]
    rw [hin, eat_s64_literal_eq, hafter, htake, hdrop, digits_value_eq_denoted]
    simp only [hne, if_false, hh, signed_value, Bool.false_eq_true]

/-- C14 at `12x`, at `-7` and at twenty nines, which no `long` holds. -/
theorem eat_s64_literal_value_witness :
    eat_s64_literal "12x".toList = .ok (12, "x".toList) ∧
    eat_s64_literal "-7".toList = .ok (-7, []) ∧
    eat_s64_literal "99999999999999999999;".toList = .ok (0, ";".toList) :=
  ⟨eat_s64_literal_value false "12".toList "x".toList (by decide) (by decide)
      (not_at_digit_cons _ _ (by decide)),
   eat_s64_literal_value true "7".toList [] (by decide) (by decide) not_at_digit_nil,
   eat_s64_literal_value false "99999999999999999999".toList ";".toList (by decide) (by decide)
      (not_at_digit_cons _ _ (by decide))⟩

/-- C15: the identifier reader.  For every input, `eat_identifier` succeeds if and only if
the input holds a character that is not an identifier character (`:`, `;` or a
non-printable one).  On success the identifier is the longest prefix of identifier
characters (possibly empty), the remaining input starts with the first character that
is not one, nothing is consumed beyond the identifier, and the input is the identifier
followed by the remaining input.  When every character of the input is an identifier
character it fails with `UnexpectedEndOfInput`. -/
theorem eat_identifier_spec (input : List Char) :
    ((∃ name rest, eat_identifier input = .ok (name, rest)) ↔
      ∃ c ∈ input, is_identifier_char c = false) ∧
    (∀ name rest, eat_identifier input = .ok (name, rest) →
      name = input.takeWhile is_identifier_char ∧
      rest = input.dropWhile is_identifier_char ∧
      input = name ++ rest ∧
      (∀ x ∈ name, is_identifier_char x = true) ∧
      ∃ c tail, rest = c :: tail ∧ is_identifier_char c = false) ∧
    ((∀ c ∈ input, is_identifier_char c = true) →
      eat_identifier input = .error .UnexpectedEndOfInput) := by
  have heq := eat_identifier_loop_eq input true []
  simp only [List.nil_append] at heq
  by_cases hall : input.all is_identifier_char = true
  · have hall' : ∀ c ∈ input, is_identifier_char c = true := by
      simpa [List.all_eq_true] using hall
    have herr : eat_identifier input = .error .UnexpectedEndOfInput := by
      simp only [eat_identifier, heq, hall, if_true]
    refine ⟨?_, ?_, fun _ => herr⟩
    · constructor
      · rintro ⟨name, rest, h⟩
        rw [herr] at h
        exact absurd h (by simp)
      · rintro ⟨c, hc, hf⟩
        rw [hall' c hc] at hf
        exact absurd hf (by decide)
    · intro name rest h
      rw [herr] at h
      exact absurd h (by simp)
  · have hok : eat_identifier input =
        .ok (input.takeWhile is_identifier_char, input.dropWhile is_identifier_char) := by
      simp only [eat_identifier, heq, hall, Bool.false_eq_true, if_false]
    have hex : ∃ c ∈ input, is_identifier_char c = false := by
      simpa [List.all_eq_true] using hall
    refine ⟨⟨fun _ => hex, fun _ => ⟨_, _, hok⟩⟩, ?_, ?_⟩
    · intro name rest h
      rw [hok] at h
      simp only [Except.ok.injEq, Prod.mk.injEq] at h
      obtain ⟨hn, hr⟩ := h
      subst hn hr
      refine ⟨rfl, rfl, (List.takeWhile_append_dropWhile _ _).symm, ?_, ?_⟩
      · intro x hx
        exact List.mem_takeWhile_imp hx
      · cases hd : input.dropWhile is_identifier_char with
        | nil =>
          have := List.dropWhile_eq_nil_iff.mp hd
          obtain ⟨c, hc, hf⟩ := hex
          rw [this c hc] at hf
          exact absurd hf (by decide)
        | cons c tail =>
          refine ⟨c, tail, rfl, ?_⟩
          have := List.head_dropWhile_not is_identifier_char input (by rw [hd]; simp)
          simpa [hd] using this
    · intro h
      obtain ⟨c, hc, hf⟩ := hex
      rw [h c hc] at hf
      exact absurd hf (by decide)

/-- C16, as stated, fails: `parse_type` succeeds on `1` with the type reference 1 and
nothing left, and on `@1` it fails with the error of the `verify` of the member case. -/
theorem parse_type_member_of_reference :
    parse_type .absent { name := [], descriptor := 't', type_number := 0, type := none } "1".toList =
      .ok (type_reference 1, []) ∧
    parse_type .absent { name := [], descriptor := 't', type_number := 0, type := none } "@1".toList =
      .error .WeirdMemberValue :=
  ⟨rfl, rfl⟩

/-- C16, amended: for the pointer-to-member descriptor `@`, `parse_type` parses no inner
type.  It only checks that the next character is `s`, which it does not consume: when
the input after `@` starts with `s`, it succeeds with a `MEMBER` type that owns no
subtree and leaves that input whole; otherwise (the end of the input included) it fails
with the "Weird value following '@'" error. -/
theorem parse_type_member (debugger : Debugger) (symbol : StabsSymbol) (s : List Char) :
    parse_type debugger symbol ('@' :: s) =
      if s.head? = some 's' then .ok (StabsType.init StabsTypeDescriptor.MEMBER, s)
      else .error .WeirdMemberValue := by
  have d0 : is_digit '@' = false := rfl
  have d1 : ¬ ('@' : Char) = StabsTypeDescriptor.TYPE_REFERENCE := by decide
  have d2 : ¬ ('@' : Char) = StabsTypeDescriptor.ARRAY := by decide
  have d3 : ¬ ('@' : Char) = StabsTypeDescriptor.ENUM := by decide
  have d4 : ¬ ('@' : Char) = StabsTypeDescriptor.FUNCTION := by decide
  have d5 : ¬ ('@' : Char) = StabsTypeDescriptor.RANGE := by decide
  have d6 : ¬ ('@' : Char) = StabsTypeDescriptor.STRUCT := by decide
  have d7 : ¬ ('@' : Char) = StabsTypeDescriptor.UNION := by decide
  have d8 : ¬ ('@' : Char) = StabsTypeDescriptor.AMPERSAND := by decide
  have d9 : ¬ ('@' : Char) = StabsTypeDescriptor.POINTER := by decide
  have d10 : ¬ ('@' : Char) = StabsTypeDescriptor.SLASH := by decide
  have d11 : ('@' : Char) = StabsTypeDescriptor.MEMBER := rfl
  rw [parse_type_unfold]
  simp only [parse_type_primary, d0, Bool.false_eq_true, if_false, d1, d2, d3, d4, d5, d6, d7,
    d8, d9, d10]
  simp only [← d11, if_true]
  by_cases hs : s.head? = some 's'
  · have heq : ¬ ((some 's' : Option Char) = some '=') := by decide
    simp only [hs, if_true, pure, Except.pure, bind, Except.bind, heq, if_false]
  · simp only [hs, if_false, bind, Except.bind]

/-- C16, amended, at `@s8a:1,0,8;;` and at `@1`. -/
theorem parse_type_member_witness :
    parse_type .absent { name := [], descriptor := 't', type_number := 0, type := none }
        "@s8a:1,0,8;;".toList =
      .ok (StabsType.init StabsTypeDescriptor.MEMBER, "s8a:1,0,8;;".toList) ∧
    parse_type .absent { name := [], descriptor := 't', type_number := 0, type := none } "@1".toList =
      .error .WeirdMemberValue :=
  ⟨parse_type_member .absent _ "s8a:1,0,8;;".toList, parse_type_member .absent _ "1".toList⟩

/-- C17, as stated, fails when the field-list text starts with a digit or with `!`.  With
the preamble, `s8!1,2,3;9:1,0,8;;` is the struct 8 with a field named `9`; without it,
`s89:1,0,8;;` is the struct 89 with a field of empty name, because the literal of the
type number runs on into the field list.  And `s8!1,2,3;!x:1,0,8;;` has a field named
`!x`, while `s8!x:1,0,8;;` fails: there the `!` opens a preamble. -/
theorem parse_type_preamble_example :
    parse_type .absent { name := [], descriptor := 'T', type_number := 0, type := none }
        "s8!1,2,3;9:1,0,8;;".toList =
      .ok ({ StabsType.init 's' with
              struct_type_number := some 8,
              struct_fields :=
                [{ name := "9".toList, type := type_reference 1, offset := some 0,
                   size := some 8, type_name := [] }] }, []) ∧
    parse_type .absent { name := [], descriptor := 'T', type_number := 0, type := none }
        "s89:1,0,8;;".toList =
      .ok ({ StabsType.init 's' with
              struct_type_number := some 89,
              struct_fields :=
                [{ name := [], type := type_reference 1, offset := some 0,
                   size := some 8, type_name := [] }] }, []) ∧
    parse_type .absent { name := [], descriptor := 'T', type_number := 0, type := none }
        "s8!1,2,3;!x:1,0,8;;".toList =
      .ok ({ StabsType.init 's' with
              struct_type_number := some 8,
              struct_fields :=
                [{ name := "!x".toList, type := type_reference 1, offset := some 0,
                   size := some 8, type_name := [] }] }, []) ∧
    parse_type .absent { name := [], descriptor := 'T', type_number := 0, type := none }
        "s8!x:1,0,8;;".toList = .error .MalformedLiteral :=
  ⟨rfl, rfl, rfl, rfl⟩

/-- C17, amended: the struct base-class preamble is consumed and discarded when the
field-list text starts neither with a decimal digit nor with `!`.  For every struct
type number `k` and all numbers `a` and `b` a `long` holds, every type text `T` on which
`parse_type` succeeds leaving the cursor on the `;` that follows it, and every such
field-list text `F`, `parse_type` on `"s" ++ k ++ "!" ++ a ++ "," ++ b ++ "," ++ T ++
";" ++ F` and on `"s" ++ k ++ F` give the same result: the same struct and remaining
input, or the same failure. -/
theorem parse_type_preamble (debugger : Debugger) (symbol : StabsSymbol) (k a b : Int) (T F : List Char)
    (t : StabsType) (hk : LONG_MIN ≤ k ∧ k ≤ LONG_MAX) (ha : LONG_MIN ≤ a ∧ a ≤ LONG_MAX)
    (hb : LONG_MIN ≤ b ∧ b ≤ LONG_MAX)
    (hT : parse_type debugger symbol (T ++ ';' :: F) = .ok (t, ';' :: F))
    (hdigit : not_at_digit F) (hbang : not_at '!' F) :
    parse_type debugger symbol
        ('s' :: (decimal k ++ '!' :: (decimal a ++ ',' :: (decimal b ++ ',' :: (T ++ ';' :: F))))) =
      parse_type debugger symbol ('s' :: (decimal k ++ F)) := by
  have h1 := eat_s64_literal_decimal k
    ('!' :: (decimal a ++ ',' :: (decimal b ++ ',' :: (T ++ ';' :: F)))) hk.1 hk.2
    (not_at_digit_cons _ _ (by decide))
  have h2 := eat_s64_literal_decimal a (',' :: (decimal b ++ ',' :: (T ++ ';' :: F))) ha.1 ha.2
    (not_at_digit_cons _ _ (by decide))
  have h3 : expect_s8 (',' :: (decimal b ++ ',' :: (T ++ ';' :: F))) ',' "!" =
      .ok (decimal b ++ ',' :: (T ++ ';' :: F)) := by simp [expect_s8]
  have h4 := eat_s64_literal_decimal b (',' :: (T ++ ';' :: F)) hb.1 hb.2
    (not_at_digit_cons _ _ (by decide))
  have h5 : expect_s8 (',' :: (T ++ ';' :: F)) ',' "!" = .ok (T ++ ';' :: F) := by
    simp [expect_s8]
  have h6 : expect_s8 (';' :: F) ';' "!" = .ok F := by simp [expect_s8]
  have h7 := eat_s64_literal_decimal k F hk.1 hk.2 hdigit
  have hb' : ¬ F.head? = some '!' := hbang
  rw [parse_type_unfold symbol ('s' :: (decimal k ++ '!' :: _)),
    parse_type_unfold symbol ('s' :: (decimal k ++ F)),
    parse_type_primary_struct, parse_type_primary_struct]
  rw [bind_ok_eq _ h1, bind_ok_eq _ h7]
  simp only [List.head?_cons, if_true, List.tail_cons, hb', if_false]
  rw [bind_ok_eq _ h2]
  dsimp only
  rw [bind_ok_eq _ h3, bind_ok_eq _ h4]
  dsimp only
  rw [bind_ok_eq _ h5, bind_ok_eq _ hT]
  dsimp only
  rw [h6]
  rfl

/-- C17, amended, at `s8!1,2,3;x:1,0,8;;` against `s8x:1,0,8;;`. -/
theorem parse_type_preamble_witness :
    parse_type .absent { name := [], descriptor := 'T', type_number := 0, type := none }
        "s8!1,2,3;x:1,0,8;;".toList =
      parse_type .absent { name := [], descriptor := 'T', type_number := 0, type := none }
        "s8x:1,0,8;;".toList :=
  parse_type_preamble .absent { name := [], descriptor := 'T', type_number := 0, type := none }
    8 1 2 "3".toList "x:1,0,8;;".toList (type_reference 3) (by decide) (by decide) (by decide)
    rfl (not_at_digit_cons _ _ (by decide)) (by simp [not_at])

/-- C18: a `t` right after the symbol descriptor.  For every name of identifier
characters, every descriptor letter `d` and every `rest` that does not start with `t`,
`parse_stabs_symbol` gives the same outcome on `name:d` followed by `t` and `rest` as on
`name:d` followed by `rest`: when `rest` is not empty the two results are equal (the
same symbol or the same error), and when `rest` is empty both fail, the first for want
of a literal after the `t` and the second at the end of the input. -/
theorem parse_stabs_symbol_type_name_marker (debugger : Debugger) (name : List Char) (d : Char) (rest : List Char)
    (hname : ∀ x ∈ name, is_identifier_char x = true) (hd : d ∈ symbol_descriptor_letters)
    (hrest : rest.head? ≠ some 't') :
    (rest ≠ [] →
      parse_stabs_symbol debugger (name ++ ':' :: d :: 't' :: rest) =
        parse_stabs_symbol debugger (name ++ ':' :: d :: rest)) ∧
    (rest = [] →
      parse_stabs_symbol debugger (name ++ ':' :: d :: 't' :: rest) = .error .MalformedLiteral ∧
      parse_stabs_symbol debugger (name ++ ':' :: d :: rest) = .error .UnexpectedEndOfInput) := by
  rw [parse_stabs_symbol_after_letter name d ('t' :: rest) hname hd,
    parse_stabs_symbol_after_letter name d rest hname hd]
  have hwith : parse_stabs_symbol_after_descriptor debugger name d ('t' :: rest) =
      (eat_s64_literal rest >>= fun p =>
        if p.2 = [] then
          pure { name := name, descriptor := d, type_number := p.1, type := none }
        else
          eat_s8 p.2 >>= fun q =>
            if q.1 = '=' then
              parse_type debugger { name := name, descriptor := d, type_number := p.1, type := none }
                  q.2 >>= fun t =>
                pure { name := name, descriptor := d, type_number := p.1, type := some t.1 }
            else .error .ExpectedEquals) := by
    simp only [parse_stabs_symbol_after_descriptor, List.head?_cons, if_true, List.tail_cons,
      reduceCtorEq, if_false]
  constructor
  · intro hne
    rw [hwith]
    have hh : ¬ rest.head? = some 't' := hrest
    simp only [parse_stabs_symbol_after_descriptor, hne, if_false, hh]
  · intro hnil
    subst hnil
    exact ⟨rfl, rfl⟩

/-- C18 at `v:Gt5` against `v:G5`, and at `v:Gt` against `v:G`. -/
theorem parse_stabs_symbol_type_name_marker_witness :
    parse_stabs_symbol .absent "v:Gt5".toList = parse_stabs_symbol .absent "v:G5".toList ∧
    parse_stabs_symbol .absent "v:Gt".toList = .error .MalformedLiteral ∧
    parse_stabs_symbol .absent "v:G".toList = .error .UnexpectedEndOfInput :=
  ⟨(parse_stabs_symbol_type_name_marker .absent "v".toList 'G' "5".toList (by decide) (by decide)
      (by decide)).1 (by decide),
   (parse_stabs_symbol_type_name_marker .absent "v".toList 'G' [] (by decide) (by decide)
      (by decide)).2 rfl⟩

/-- C19 fails on the code for the fourth branch of the field loop.  In `a:1,0,8;b:1x;;`
the character after the type of `b` is neither `:` nor `,`.  That branch starts with a
breakpoint; when a debugger resumes from it, the resynchronisation branch reads nothing
into the field and the field is appended all the same, holding no offset, no size and
no type name, the data of no encoding (without a debugger the process ends at the
breakpoint and no field is returned).  The rest of the claim holds, however the process
is run: every field `parse_field_list` returns has the data of at most one encoding,
that of a synthetic field when its name starts with `$`, and otherwise that of a typed
member or that of a bit-field. -/
theorem parse_field_list_field_without_data :
    parse_field_list .attached
        { name := [], descriptor := 'T', type_number := 0, type := none }
        "a:1,0,8;b:1x;;".toList =
      .ok ([{ name := "a".toList, type := type_reference 1, offset := some 0, size := some 8,
              type_name := [] },
            { name := "b".toList, type := type_reference 1, offset := none, size := none,
              type_name := [] }], false, []) ∧
    has_no_field_data
      { name := "b".toList, type := type_reference 1, offset := none, size := none,
        type_name := [] } ∧
    (∀ debugger symbol input out flag r,
      parse_field_list debugger symbol input = .ok (out, flag, r) →
      ∀ f ∈ out, is_synthetic_field f ∨ is_typed_member f ∨ is_bit_field f) ∧
    (∀ debugger, parse_field_list debugger
        { name := [], descriptor := 'T', type_number := 0, type := none }
        "$v:1,8;t:1:nm;c:1,8,4;;".toList =
      .ok ([{ name := "$v".toList, type := type_reference 1, offset := some 8, size := none,
              type_name := [] },
            { name := "t".toList, type := type_reference 1, offset := none, size := none,
              type_name := "nm".toList },
            { name := "c".toList, type := type_reference 1, offset := some 8, size := some 4,
              type_name := [] }], false, [])) ∧
    parse_field_list .absent
        { name := [], descriptor := 'T', type_number := 0, type := none }
        "a:1,0,8;b:1x;;".toList = .error .Breakpoint :=
  ⟨rfl, ⟨rfl, rfl, rfl⟩, fun debugger symbol input out flag r h =>
      parse_field_list_fuel_shapes _ symbol input [] out flag r h (by simp),
    fun debugger => by cases debugger <;> rfl, rfl⟩

/-- C21: a successful `parse_type` never leaves the cursor on `=`: an `=` after a
production is consumed by the innermost type that ends there.  So a type whose production
ends with a nested type has no auxiliary subtree of its own: whenever `parse_type`
accepts a pointer `*`, an array `a` or a method `#`, the returned type has no auxiliary
type, and the remaining input is the one the last nested `parse_type` left.  Instance:
for every non-negative type number `n`, `parse_type` on `"*" ++ n ++ "=" ++ s` is the
pointer, without auxiliary type, to the type reference `n` whose auxiliary type is what
`parse_type` returns on `s`, with the same remaining input; it fails as `parse_type`
fails on `s`. -/
theorem parse_type_not_at_equals (debugger : Debugger) (symbol : StabsSymbol) :
    (∀ input t r, parse_type debugger symbol input = .ok (t, r) → not_at '=' r) ∧
    (∀ s t r, parse_type debugger symbol ('*' :: s) = .ok (t, r) →
      t.aux_type = none ∧
      ∃ v, parse_type debugger symbol s = .ok (v, r) ∧ t.pointer_value_type = some v) ∧
    (∀ s t r, parse_type debugger symbol ('a' :: s) = .ok (t, r) →
      t.aux_type = none ∧
      ∃ i m e, parse_type debugger symbol s = .ok (i, m) ∧ parse_type debugger symbol m = .ok (e, r) ∧
        t.array_index_type = some i ∧ t.array_element_type = some e) ∧
    (∀ s t r, parse_type debugger symbol ('#' :: s) = .ok (t, r) →
      t.aux_type = none ∧ ∃ v, parse_type debugger symbol s = .ok (v, r)) ∧
    (∀ (n : Int) s, 0 ≤ n → n ≤ LONG_MAX →
      parse_type debugger symbol ('*' :: (decimal n ++ '=' :: s)) =
        match parse_type debugger symbol s with
        | .ok (a, r) =>
          .ok ({ StabsType.init StabsTypeDescriptor.POINTER with
                  pointer_value_type := some { type_reference n with aux_type := some a } }, r)
        | .error e => .error e) := by
  refine ⟨fun input t r h => parse_type_not_at_eq symbol input t r h, ?_, ?_, ?_, ?_⟩
  · intro s t r h
    rw [parse_type_unfold, parse_type_primary_pointer] at h
    obtain ⟨⟨type, rest⟩, hprim, h⟩ := bind_eq_ok _ _ _ h
    obtain ⟨⟨v, r1⟩, hv, hprim⟩ := bind_eq_ok _ _ _ hprim
    simp only [pure, Except.pure, Except.ok.injEq, Prod.mk.injEq] at hprim
    obtain ⟨ht, hr⟩ := hprim
    subst hr
    have hne : ¬ r1.head? = some '=' := parse_type_not_at_eq symbol s v r1 hv
    simp only [hne, if_false, pure, Except.pure, Except.ok.injEq, Prod.mk.injEq] at h
    obtain ⟨h1, h2⟩ := h
    subst h1 h2 ht
    exact ⟨rfl, v, hv, rfl⟩
  · intro s t r h
    rw [parse_type_unfold, parse_type_primary_array] at h
    obtain ⟨⟨type, rest⟩, hprim, h⟩ := bind_eq_ok _ _ _ h
    obtain ⟨⟨i, m⟩, hi, hprim⟩ := bind_eq_ok _ _ _ hprim
    obtain ⟨⟨e, r1⟩, he, hprim⟩ := bind_eq_ok _ _ _ hprim
    simp only [pure, Except.pure, Except.ok.injEq, Prod.mk.injEq] at hprim
    obtain ⟨ht, hr⟩ := hprim
    subst hr
    have hne : ¬ r1.head? = some '=' := parse_type_not_at_eq symbol m e r1 he
    simp only [hne, if_false, pure, Except.pure, Except.ok.injEq, Prod.mk.injEq] at h
    obtain ⟨h1, h2⟩ := h
    subst h1 h2 ht
    exact ⟨rfl, i, m, e, hi, he, rfl, rfl⟩
  · intro s t r h
    rw [parse_type_unfold, parse_type_primary_method] at h
    obtain ⟨⟨type, rest⟩, hprim, h⟩ := bind_eq_ok _ _ _ h
    obtain ⟨⟨v, r1⟩, hv, hprim⟩ := bind_eq_ok _ _ _ hprim
    simp only [pure, Except.pure, Except.ok.injEq, Prod.mk.injEq] at hprim
    obtain ⟨ht, hr⟩ := hprim
    subst hr
    have hne : ¬ r1.head? = some '=' := parse_type_not_at_eq symbol s v r1 hv
    simp only [hne, if_false, pure, Except.pure, Except.ok.injEq, Prod.mk.injEq] at h
    obtain ⟨h1, h2⟩ := h
    subst h1 h2 ht
    exact ⟨rfl, v, hv⟩
  · intro n s h0 hn
    have href := @parse_type_reference_equals debugger symbol n s h0 hn
    cases hs : parse_type debugger symbol s with
    | error e =>
      rw [hs] at href
      rw [parse_type_unfold, parse_type_primary_pointer, href]
      rfl
    | ok p =>
      obtain ⟨a, r⟩ := p
      rw [hs] at href
      have href' : parse_type debugger symbol (decimal n ++ '=' :: s) =
          .ok ({ type_reference n with aux_type := some a }, r) := href
      apply parse_type_of_primary
      · rw [parse_type_primary_pointer, bind_ok_eq _ href']
        rfl
      · exact parse_type_not_at_eq symbol s a r hs

/-- C21 at `*1=r1;0;9;`: the pointer has no auxiliary type, and its pointee is the type
reference 1 with the range as its auxiliary type. -/
theorem parse_type_not_at_equals_witness :
    parse_type .absent { name := [], descriptor := 't', type_number := 0, type := none }
        "*1=r1;0;9;".toList =
      .ok ({ StabsType.init StabsTypeDescriptor.POINTER with
              pointer_value_type := some { type_reference 1 with
                aux_type := some { StabsType.init StabsTypeDescriptor.RANGE with
                  range_type := some (type_reference 1), range_low := some 0,
                  range_high := some 9 } } }, []) :=
  (parse_type_not_at_equals .absent
      { name := [], descriptor := 't', type_number := 0, type := none }).2.2.2.2
    1 "r1;0;9;".toList (by decide) (by decide)

/-- C22 fails on the code at the name `JSGE`.  Run without a debugger, the symbol
`JSGE:G3=s4v:1,0,32;;` ends the process at the breakpoint of the `STRUCT` case,
`if (symbol.name == "JSGE") __debugbreak();`, where `JSGF:G3=s4v:1,0,32;;`, the same
tail under another name, succeeds with a struct: one parse fails and the other does not.
That statement is the only place the name enters.  For every two names made of printable
characters other than `:` and `;` that meet the breakpoint alike (a debugger is
attached, or both names are `JSGE`, or neither is) and every tail, `parse_stabs_symbol`
on `n1 ++ ":" ++ tail` and on `n2 ++ ":" ++ tail` either fail, with the same error, or
succeed with the same descriptor, type number and type, the one under the name `n1`
and the other under the name `n2`. -/
theorem parse_stabs_symbol_name_jsge :
    parse_stabs_symbol .absent "JSGE:G3=s4v:1,0,32;;".toList = .error .Breakpoint ∧
    parse_stabs_symbol .absent "JSGF:G3=s4v:1,0,32;;".toList =
      .ok { name := "JSGF".toList, descriptor := 'G', type_number := 3,
            type := some { StabsType.init StabsTypeDescriptor.STRUCT with
              struct_type_number := some 4,
              struct_fields :=
                [{ name := "v".toList, type := type_reference 1, offset := some 0,
                   size := some 32, type_name := [] }] } } ∧
    parse_stabs_symbol .attached "JSGE:G3=s4v:1,0,32;;".toList =
      .ok { name := "JSGE".toList, descriptor := 'G', type_number := 3,
            type := some { StabsType.init StabsTypeDescriptor.STRUCT with
              struct_type_number := some 4,
              struct_fields :=
                [{ name := "v".toList, type := type_reference 1, offset := some 0,
                   size := some 32, type_name := [] }] } } ∧
    (∀ (debugger : Debugger) (n1 n2 tail : List Char),
      (∀ c ∈ n1, is_identifier_char c = true) → (∀ c ∈ n2, is_identifier_char c = true) →
      pass_alike debugger n1 n2 →
      (∃ e, parse_stabs_symbol debugger (n1 ++ ':' :: tail) = .error e ∧
            parse_stabs_symbol debugger (n2 ++ ':' :: tail) = .error e) ∨
      (∃ descriptor type_number type,
        parse_stabs_symbol debugger (n1 ++ ':' :: tail) =
          .ok { name := n1, descriptor := descriptor, type_number := type_number,
                type := type } ∧
        parse_stabs_symbol debugger (n2 ++ ':' :: tail) =
          .ok { name := n2, descriptor := descriptor, type_number := type_number,
                type := type })) := by
  refine ⟨rfl, rfl, rfl, ?_⟩
  intro debugger n1 n2 tail h1 h2 hn
  rw [parse_stabs_symbol_after_name n1 tail h1, parse_stabs_symbol_after_name n2 tail h2]
  by_cases hnil : tail = []
  · simp only [hnil, if_true]
    exact Or.inl ⟨_, rfl, rfl⟩
  · simp only [hnil, if_false]
    cases hd : (if is_digit (tail.headD (Char.ofNat 0)) then
            pure (StabsSymbolDescriptor.LOCAL_VARIABLE, tail)
          else eat_s8 tail : Except ParseError (StabsSymbolDescriptor × List Char)) with
    | error e => exact Or.inl ⟨e, rfl, rfl⟩
    | ok p =>
      obtain ⟨d, input⟩ := p
      cases hv : validate_symbol_descriptor d with
      | error e =>
        refine Or.inl ⟨e, ?_, ?_⟩ <;> simp only [bind, Except.bind, hv]
      | ok u =>
        rcases parse_stabs_symbol_after_descriptor_names n1 n2 d input hn with
          ⟨e, e1, e2⟩ | ⟨k, t, e1, e2⟩
        · refine Or.inl ⟨e, ?_, ?_⟩ <;> simp only [bind, Except.bind, hv, e1, e2]
        · refine Or.inr ⟨d, k, t, ?_, ?_⟩ <;> simp only [bind, Except.bind, hv, e1, e2]
